import Mathlib

/-!
# Instant Undo: grace-window action lifecycle engine

A shallow embedding of `src/server/index.js`, `src/server/store.js` and
`src/server/adapters/index.js`, followed by theorems about it.

Conventions of the embedding.

* A JavaScript number is `JSNum`: `NaN`, the two infinities, or a finite value
  held as an exact rational, which stands for the double the server holds.
  The rounding of a number literal to a double by `JSON.parse` is not
  modelled: a statement about a numeric input is about the double it is read
  as, and `parseInt` of a number is stated for integers up to `2^53`, which
  are doubles. The handlers only compare numbers with the constants 5, 15
  and 30.
* A value a client may put in a JSON field is `JSValue`. An array or object is
  represented by the text `ToString` gives for it, which is all that
  `ToNumber`, `parseInt` and truthiness observe.
* The request fields `type`, `label` and `userId` are strings or absent
  (`null` counts as absent); `metadata` is a JSON value held by its
  `JSON.stringify` text; `graceWindow` is any `JSValue`.
* `Date.now()`, the display timestamp of `addLog`, `uuidv4()` and the outcome
  of a Firestore call (success or exception) are inputs of the operation that
  uses them. Firestore itself is a map from document names to documents.
* A handler runs from start to end without interruption, except that
  `commitAction` is also given in two halves, split where it waits for the
  adapter.
* What the server emits is recorded in the state, each emission with the room
  it is sent to. A connected socket is a `Session`, in the rooms the
  `connection` handler joins it to.
-/

namespace InstantUndo

/-! ## JavaScript values and coercions -/

/-- A JavaScript number. -/
inductive JSNum where
  | nan : JSNum
  | negInf : JSNum
  | fin (q : ℚ) : JSNum
  | posInf : JSNum
  deriving DecidableEq

/-- A value of a JSON request field. `undefined` stands for an absent key;
`obj repr` is an array or object whose `ToString` is `repr`. -/
inductive JSValue where
  | undefined : JSValue
  | null : JSValue
  | bool (b : Bool) : JSValue
  | num (n : JSNum) : JSValue
  | str (s : String) : JSValue
  | obj (repr : String) : JSValue
  deriving DecidableEq

/-- ECMAScript `ToBoolean` on numbers: `NaN` and zero are falsy. -/
def JSNum.truthy : JSNum → Bool
  | .nan => false
  | .fin q => decide (q ≠ 0)
  | _ => true

/-- ECMAScript `ToBoolean`. -/
def JSValue.truthy : JSValue → Bool
  | .undefined => false
  | .null => false
  | .bool b => b
  | .num n => n.truthy
  | .str s => decide (s ≠ "")
  | .obj _ => true

/-- The code points ECMAScript treats as white space or line terminators
(`StrWhiteSpaceChar`). -/
def isJSWhiteSpace (c : Char) : Bool :=
  let n := c.toNat
  n = 0x09 || n = 0x0A || n = 0x0B || n = 0x0C || n = 0x0D || n = 0x20 ||
  n = 0xA0 || n = 0x1680 || (0x2000 ≤ n && n ≤ 0x200A) || n = 0x2028 ||
  n = 0x2029 || n = 0x202F || n = 0x205F || n = 0x3000 || n = 0xFEFF

/-- The value of a digit character in the given radix, if it is one. -/
def digitVal (radix : Nat) (c : Char) : Option Nat :=
  let n := c.toNat
  let v : Option Nat :=
    if 48 ≤ n ∧ n ≤ 57 then some (n - 48)
    else if 97 ≤ n ∧ n ≤ 122 then some (n - 87)
    else if 65 ≤ n ∧ n ≤ 90 then some (n - 55)
    else none
  match v with
  | some d => if d < radix then some d else none
  | none => none

/-- The longest prefix of digits in the radix, read as a number, with the
number of digits read and the rest of the text. -/
def takeDigits (radix : Nat) : List Char → Nat → Nat → Nat × Nat × List Char
  | [], acc, k => (acc, k, [])
  | c :: cs, acc, k =>
    match digitVal radix c with
    | some d => takeDigits radix cs (acc * radix + d) (k + 1)
    | none => (acc, k, c :: cs)

/-- Strip white space from both ends (`String.prototype.trim`). -/
def jsTrim (cs : List Char) : List Char :=
  ((cs.dropWhile isJSWhiteSpace).reverse.dropWhile isJSWhiteSpace).reverse

/-- An optional leading sign: `true` for a minus. -/
def takeSign : List Char → Bool × List Char
  | '-' :: cs => (true, cs)
  | '+' :: cs => (false, cs)
  | cs => (false, cs)

/-- The exponent part `e[+-]digits` of a decimal literal, which must use up
the text. -/
def parseExponent : List Char → Option Int
  | [] => some 0
  | c :: cs =>
    if c = 'e' ∨ c = 'E' then
      let (neg, r) := takeSign cs
      match takeDigits 10 r 0 0 with
      | (v, k, []) => if k = 0 then none else some (if neg then -(v : Int) else (v : Int))
      | _ => none
    else none

/-- The rational `m * 10 ^ e`. -/
def scale10 (m : ℚ) (e : Int) : ℚ :=
  match e with
  | Int.ofNat k => m * (10 : ℚ) ^ k
  | Int.negSucc k => m / (10 : ℚ) ^ (k + 1)

/-- An unsigned decimal literal (`StrUnsignedDecimalLiteral` without
`Infinity`): digits, an optional fraction and an optional exponent, with at
least one digit before the exponent. -/
def parseUnsignedDecimal (cs : List Char) : Option ℚ :=
  match takeDigits 10 cs 0 0 with
  | (ip, ki, r) =>
    match r with
    | '.' :: r1 =>
      match takeDigits 10 r1 0 0 with
      | (fp, kf, r2) =>
        if ki = 0 ∧ kf = 0 then none
        else
          match parseExponent r2 with
          | some e => some (scale10 ((ip : ℚ) + (fp : ℚ) / (10 : ℚ) ^ kf) e)
          | none => none
    | _ =>
      if ki = 0 then none
      else
        match parseExponent r with
        | some e => some (scale10 (ip : ℚ) e)
        | none => none

/-- A prefixed integer literal body: all of the text must be digits of the radix. -/
def parseRadixLiteral (radix : Nat) (cs : List Char) : JSNum :=
  match takeDigits radix cs 0 0 with
  | (v, k, []) => if k = 0 then .nan else .fin v
  | _ => .nan

/-- ECMAScript `StringToNumber`. -/
def stringToNumber (s : String) : JSNum :=
  match jsTrim s.data with
  | [] => .fin 0
  | '0' :: 'x' :: cs => parseRadixLiteral 16 cs
  | '0' :: 'X' :: cs => parseRadixLiteral 16 cs
  | '0' :: 'o' :: cs => parseRadixLiteral 8 cs
  | '0' :: 'O' :: cs => parseRadixLiteral 8 cs
  | '0' :: 'b' :: cs => parseRadixLiteral 2 cs
  | '0' :: 'B' :: cs => parseRadixLiteral 2 cs
  | t =>
    let (neg, r) := takeSign t
    if r = "Infinity".data then (if neg then .negInf else .posInf)
    else
      match parseUnsignedDecimal r with
      | some q => .fin (if neg then -q else q)
      | none => .nan

/-- ECMAScript `ToNumber`. -/
def JSValue.toNumber : JSValue → JSNum
  | .undefined => .nan
  | .null => .fin 0
  | .bool b => .fin (if b then 1 else 0)
  | .num n => n
  | .str s => stringToNumber s
  | .obj r => stringToNumber r

/-- The function `Math.max` on two numbers. -/
def mathMax : JSNum → JSNum → JSNum
  | .nan, _ => .nan
  | _, .nan => .nan
  | .posInf, _ => .posInf
  | _, .posInf => .posInf
  | .negInf, b => b
  | a, .negInf => a
  | .fin a, .fin b => .fin (max a b)

/-- The function `Math.min` on two numbers. -/
def mathMin : JSNum → JSNum → JSNum
  | .nan, _ => .nan
  | _, .nan => .nan
  | .negInf, _ => .negInf
  | _, .negInf => .negInf
  | .posInf, b => b
  | a, .posInf => a
  | .fin a, .fin b => .fin (min a b)

/-- The operator `a || b`. -/
def JSValue.or (a b : JSValue) : JSValue := if a.truthy then a else b

/-- The function `parseInt` on a string, no radix given: leading white space,
a sign, an optional `0x` prefix, then the longest run of digits. -/
def parseIntStr (s : String) : JSNum :=
  let t := s.data.dropWhile isJSWhiteSpace
  let (neg, r) := takeSign t
  let (radix, body) : Nat × List Char :=
    match r with
    | '0' :: 'x' :: cs => (16, cs)
    | '0' :: 'X' :: cs => (16, cs)
    | cs => (10, cs)
  match takeDigits radix body 0 0 with
  | (v, k, _) => if k = 0 then .nan else .fin (if neg then -(v : ℚ) else (v : ℚ))

/-- The first significant decimal digit of a positive rational below one,
searched with the given fuel. -/
def leadDigitSmall : Nat → ℚ → Nat
  | 0, _ => 0
  | fuel + 1, q => if 1 ≤ q then ⌊q⌋₊ else leadDigitSmall fuel (q * 10)

/-- The first decimal digit of a natural number. -/
def leadDigitNat (n : Nat) : Nat := ((Nat.digits 10 n).getLast?).getD 0

/-- The function `parseInt` on a finite number `q`, that is `parseInt` of
`Number::toString(q)`. Here `q` is the double the server holds, not the
literal a client wrote: `JSON.parse` has already rounded the literal. In plain
decimal form (zero, or `1e-6 ≤ |q| < 1e21`) the digits before the point are
the integer part of `q`. Otherwise the text is in exponent form, `d.ddde±n`,
and `parseInt` reads the single digit `d`; the embedding takes `d` from the
value of `q`, which is the digit of the text unless the shortest text that
reads back as `q` starts with another digit than `q` itself (the double
nearest `1e-7` lies just below it and is printed `1e-7`). The theorems state
the value of `parseInt` of a number only for integers up to `2^53` and for
`1e21`, where the text is exact. -/
def parseIntFinite (q : ℚ) : ℚ :=
  let a := |q|
  let sgn : ℚ := if q < 0 then -1 else 1
  if q = 0 then 0
  else if a < 1 / 1000000 then sgn * (leadDigitSmall (a.den + 1) a : ℚ)
  else if a < (10 : ℚ) ^ 21 then sgn * (⌊a⌋₊ : ℚ)
  else sgn * (leadDigitNat ⌊a⌋₊ : ℚ)

/-- The function `parseInt(v)`: `parseInt` of `ToString(v)`. -/
def parseInt : JSValue → JSNum
  | .undefined => .nan
  | .null => .nan
  | .bool _ => .nan
  | .num (.fin q) => .fin (parseIntFinite q)
  | .num _ => .nan
  | .str s => parseIntStr s
  | .obj r => parseIntStr r

/-- The number `n * 1000`, the delay handed to `setTimeout`. -/
def JSNum.timesThousand : JSNum → JSNum
  | .fin q => .fin (q * 1000)
  | n => n

/-! ## JavaScript `Map` as an association list in insertion order -/

section JSMap
variable {κ : Type} [DecidableEq κ] {α : Type}

/-- The method `Map.prototype.get`. -/
def mapGet : List (κ × α) → κ → Option α
  | [], _ => none
  | (k, v) :: rest, key => if k = key then some v else mapGet rest key

/-- The method `Map.prototype.has`. -/
def mapHas (m : List (κ × α)) (key : κ) : Bool := (mapGet m key).isSome

/-- The method `Map.prototype.set`: an existing key keeps its place. -/
def mapSet : List (κ × α) → κ → α → List (κ × α)
  | [], key, v => [(key, v)]
  | (k, w) :: rest, key, v =>
    if k = key then (k, v) :: rest else (k, w) :: mapSet rest key v

/-- The method `Map.prototype.delete`. -/
def mapDelete (m : List (κ × α)) (key : κ) : List (κ × α) :=
  m.filter (fun p => decide (p.1 ≠ key))

end JSMap

/-- Truthiness of an optional string: absent, `null` and `''` are falsy. -/
def strTruthy : Option String → Bool
  | some s => decide (s ≠ "")
  | none => false

/-- The expression `userId || null`. -/
def orNull (u : Option String) : Option String := if strTruthy u then u else none

/-- ASCII lower-casing. `String.prototype.toLowerCase` also maps letters
outside ASCII, but a text with such a letter never lower-cases to a name the
registry lookup finds: the only letter sent to a single ASCII one is the
Kelvin sign (to `k`), and none of those names contains a `k`. -/
def toLowerCase (s : String) : String := String.mk (s.data.map Char.toLower)

/-- ASCII upper-casing, as `toUpperCase` acts on the hexadecimal text of a UUID. -/
def toUpperCase (s : String) : String := String.mk (s.data.map Char.toUpper)

/-- The call `s.substring(0, n)`. -/
def substring0 (s : String) (n : Nat) : String := String.mk (s.data.take n)

/-! ## Adapter registry (`src/server/adapters/index.js`) -/

/-- What a lookup in the `adapters` object can yield: one of the four adapter
modules, or a property the object literal inherits from `Object.prototype`
(`constructor` is the function `Object`, `__proto__` is `Object.prototype`). -/
inductive Adapter where
  | emailAdapter : Adapter
  | fileAdapter : Adapter
  | gitAdapter : Adapter
  | formAdapter : Adapter
  | objectConstructor : Adapter
  | objectPrototype : Adapter
  deriving DecidableEq

/-- The property read `adapters[type]`; `none` is `undefined`. -/
def adapters (type : String) : Option Adapter :=
  if type = "email" then some .emailAdapter
  else if type = "gmail" then some .emailAdapter
  else if type = "file" then some .fileAdapter
  else if type = "delete" then some .fileAdapter
  else if type = "git" then some .gitAdapter
  else if type = "github" then some .gitAdapter
  else if type = "push" then some .gitAdapter
  else if type = "form" then some .formAdapter
  else if type = "submit" then some .formAdapter
  else if type = "constructor" then some .objectConstructor
  else if type = "__proto__" then some .objectPrototype
  else none

/-- The function `getAdapter(actionType)`; `none` is an absent or `null` type. -/
def getAdapter (actionType : Option String) : Adapter :=
  let type : String :=
    match actionType with
    | none => "form"
    | some s => if toLowerCase s ≠ "" then toLowerCase s else "form"
  match adapters type with
  | some a => a
  | none => .formAdapter

/-- The property `adapter.name`; `none` is `undefined`. -/
def Adapter.name : Adapter → Option String
  | .emailAdapter => some "Gmail"
  | .fileAdapter => some "System"
  | .gitAdapter => some "GitHub"
  | .formAdapter => some "WebForm"
  | .objectConstructor => some "Object"
  | .objectPrototype => none

/-- The function `getAdapterName(actionType)`. -/
def getAdapterName (actionType : Option String) : Option String :=
  (getAdapter actionType).name

/-- What an adapter method resolves to; the timestamp and, for `execute`, the
message built from the metadata are left out. -/
structure AdapterResult where
  success : Bool
  message : String
  deriving DecidableEq

/-- The method `adapter.cancel(action)`; `none` when the looked-up value has no
such method and the call throws a `TypeError`. -/
def Adapter.cancel : Adapter → Option AdapterResult
  | .emailAdapter => some ⟨true, "Email sending prevented"⟩
  | .fileAdapter => some ⟨true, "File deletion prevented - file preserved"⟩
  | .gitAdapter => some ⟨true, "Git operation prevented - no changes pushed"⟩
  | .formAdapter => some ⟨true, "Form submission prevented"⟩
  | .objectConstructor => none
  | .objectPrototype => none

/-- The method `adapter.execute(action)`, its message left empty; `none` when
the call throws a `TypeError`. -/
def Adapter.execute : Adapter → Option AdapterResult
  | .emailAdapter => some ⟨true, ""⟩
  | .fileAdapter => some ⟨true, ""⟩
  | .gitAdapter => some ⟨true, ""⟩
  | .formAdapter => some ⟨true, ""⟩
  | .objectConstructor => none
  | .objectPrototype => none

/-! ## Data model -/

/-- A JSON value held by its `JSON.stringify` text. -/
abbrev Json := String

/-- Truthiness of a JSON value given by its text: `null`, `false`, `0` and
the empty string are the falsy ones. -/
def jsonTruthy (j : Json) : Bool :=
  decide (j ≠ "null" ∧ j ≠ "false" ∧ j ≠ "0" ∧ j ≠ "\"\"")

/-- The expression `metadata || {}`; `none` is an absent key. -/
def metadataOrEmpty : Option Json → Json
  | some j => if jsonTruthy j then j else "{}"
  | none => "{}"

/-- The expression `s || dflt` on an optional string. -/
def strOr (s : Option String) (dflt : String) : String :=
  match s with
  | some v => if v ≠ "" then v else dflt
  | none => dflt

/-- A pending action object. `userId = none` is `null` or an absent key;
`status` is the field the in-memory store adds; `platform = none` is `undefined`. -/
structure PendingAction where
  id : String
  type : String
  label : String
  metadata : Json
  platform : Option String
  graceWindow : JSNum
  userId : Option String
  createdAt : Nat
  status : Option String
  deriving DecidableEq

/-- An activity log entry, as `addLog` returns it and `getAllLogs` lists it;
`metaText` is the field `meta`. -/
structure LogEntry where
  id : String
  label : String
  platform : Option String
  metaText : Json
  status : String
  userId : Option String
  timestamp : String
  deriving DecidableEq

/-- A document of a Firestore collection `users/{userId}/logs`. -/
structure LogDoc where
  actionId : String
  label : String
  platform : Option String
  metaText : Json
  status : String
  timestamp : String
  createdAt : Nat
  deriving DecidableEq

/-- The settings object of one user. -/
structure Settings where
  graceWindow : JSNum
  deriving DecidableEq

/-- The constant `DEFAULT_SETTINGS`. -/
def DEFAULT_SETTINGS : Settings := { graceWindow := .fin 15 }

/-- The data sent with a socket event. -/
inductive Payload where
  | action (a : PendingAction) : Payload
  | resolved (id : String) (status : String) (log : LogEntry) (auto : Option Bool) : Payload
  | empty : Payload
  deriving DecidableEq

/-- One `emit`: to the room `user:{u}` when `room = some u`, to every socket
when `room = none`. -/
structure Emission where
  room : Option String
  event : String
  data : Payload
  deriving DecidableEq

/-- A callback registered with `setTimeout` by a create handler: it calls
`commitAction(actionId, true)` after `delay` milliseconds. -/
structure Timeout where
  handle : Nat
  actionId : String
  delay : JSNum
  deriving DecidableEq

/-- The state of the server process.

* `connected` is `isFirebaseConnected()`.
* `memoryPendingActions`, `memoryActivityLogs` are the in-memory store.
* `fsPending` is the Firestore collection `pendingActions`, by document id;
  `fsLogs` holds the documents `users/{userId}/logs/{actionId}`, by the pair
  of user id and document id.
* `actionTimers` maps an action id to a timer handle; `timeouts` are the
  callbacks the event loop still has to run; `nextHandle` is the next handle
  `setTimeout` returns.
* `userSettings` is the settings map.
* `emitted` lists the socket emissions so far, oldest first. -/
structure State where
  connected : Bool
  memoryPendingActions : List (String × PendingAction)
  memoryActivityLogs : List LogEntry
  fsPending : List (String × PendingAction)
  fsLogs : List ((String × String) × LogDoc)
  actionTimers : List (String × Nat)
  timeouts : List Timeout
  nextHandle : Nat
  userSettings : List (String × Settings)
  emitted : List Emission

/-- The state of a freshly started server. -/
def State.init (connected : Bool) : State :=
  { connected := connected, memoryPendingActions := [], memoryActivityLogs := [],
    fsPending := [], fsLogs := [], actionTimers := [], timeouts := [],
    nextHandle := 0, userSettings := [], emitted := [] }

/-- What one run of a handler takes from its environment: the clock read by
the handler and by the store, the UUID, the display timestamp `addLog`
generates, and for each Firestore call whether it throws. -/
structure Env where
  now : Nat
  storeNow : Nat
  uuid : String
  timestamp : String
  failAdd : Bool
  failGet : Bool
  failRemove : Bool
  failLog : Bool
  failList : Bool

/-- An environment in which no Firestore call throws. -/
def Env.reliable (env : Env) : Prop :=
  env.failAdd = false ∧ env.failGet = false ∧ env.failRemove = false ∧
  env.failLog = false ∧ env.failList = false

instance (env : Env) : Decidable env.reliable := by
  unfold Env.reliable; infer_instance

/-! ## Store (`src/server/store.js`) -/

/-- The action object `getPendingAction` and `getAllPendingActions` build from
a Firestore document. -/
def fromDoc (data : PendingAction) : PendingAction :=
  { id := data.id, type := data.type, label := data.label, metadata := data.metadata,
    platform := data.platform, graceWindow := data.graceWindow,
    userId := orNull data.userId, createdAt := data.createdAt, status := none }

/-- The method `store.addPendingAction(action)`. The document written to
Firestore has the action id in the field `actionId`, held here in `id`. -/
def addPendingAction (st : State) (env : Env) (action : PendingAction) :
    PendingAction × State :=
  if !st.connected then
    let stored : PendingAction :=
      { action with createdAt := env.storeNow, status := some "PENDING" }
    (action, { st with memoryPendingActions := mapSet st.memoryPendingActions action.id stored })
  else if !env.failAdd then
    let doc : PendingAction :=
      { action with userId := orNull action.userId, status := some "PENDING",
                    createdAt := env.storeNow }
    (action, { st with fsPending := mapSet st.fsPending action.id doc })
  else
    (action, { st with memoryPendingActions := mapSet st.memoryPendingActions action.id action })

/-- The method `store.getPendingAction(id)`; `none` is `undefined` or `null`. -/
def getPendingAction (st : State) (env : Env) (id : String) : Option PendingAction :=
  if !st.connected then mapGet st.memoryPendingActions id
  else if !env.failGet then
    match mapGet st.fsPending id with
    | none => none
    | some data => some (fromDoc data)
  else mapGet st.memoryPendingActions id

/-- The method `store.removePendingAction(id)`. -/
def removePendingAction (st : State) (env : Env) (id : String) : Bool × State :=
  if !st.connected then
    (mapHas st.memoryPendingActions id,
      { st with memoryPendingActions := mapDelete st.memoryPendingActions id })
  else if !env.failRemove then
    (true, { st with fsPending := mapDelete st.fsPending id })
  else
    (mapHas st.memoryPendingActions id,
      { st with memoryPendingActions := mapDelete st.memoryPendingActions id })

/-- Firestore's `orderBy('createdAt', 'desc')`: later first, ties by document
name, also descending. -/
def laterFirst {δ : Type} (createdAt : δ → Nat) (a b : String × δ) : Prop :=
  createdAt b.2 < createdAt a.2 ∨ (createdAt b.2 = createdAt a.2 ∧ b.1 ≤ a.1)

instance {δ : Type} (createdAt : δ → Nat) : DecidableRel (laterFirst createdAt) :=
  fun a b => by unfold laterFirst; infer_instance

/-- The method `store.getAllPendingActions()`. -/
def getAllPendingActions (st : State) (env : Env) : List PendingAction :=
  if !st.connected then st.memoryPendingActions.map (·.2)
  else if !env.failList then
    (st.fsPending.insertionSort (laterFirst PendingAction.createdAt)).map
      (fun d => fromDoc d.2)
  else st.memoryPendingActions.map (·.2)

/-- The array after `unshift(entry)` followed by `pop()` when it has grown
beyond 100 entries. -/
def unshiftCapped (logs : List LogEntry) (entry : LogEntry) : List LogEntry :=
  if (entry :: logs).length > 100 then (entry :: logs).dropLast else entry :: logs

/-- The method `store.addLog(logEntry)`; the `timestamp` field of the argument
is overwritten with the generated one. -/
def addLog (st : State) (env : Env) (logEntry : LogEntry) : LogEntry × State :=
  let entry : LogEntry := { logEntry with timestamp := env.timestamp }
  if !st.connected then
    (entry, { st with memoryActivityLogs := unshiftCapped st.memoryActivityLogs entry })
  else if !env.failLog then
    let userId := strOr logEntry.userId "anonymous"
    let doc : LogDoc :=
      { actionId := logEntry.id, label := logEntry.label, platform := logEntry.platform,
        metaText := logEntry.metaText, status := logEntry.status,
        timestamp := env.timestamp, createdAt := env.storeNow }
    (entry, { st with fsLogs := mapSet st.fsLogs (userId, logEntry.id) doc })
  else
    (entry, { st with memoryActivityLogs := entry :: st.memoryActivityLogs })

/-- The documents of `users/{userId}/logs`, by document id. -/
def userLogDocs (st : State) (userId : String) : List (String × LogDoc) :=
  (st.fsLogs.filter (fun d => decide (d.1.1 = userId))).map (fun d => (d.1.2, d.2))

/-- The entry `getAllLogs` builds from a Firestore document. -/
def logFromDoc (data : LogDoc) : LogEntry :=
  { id := data.actionId, label := data.label, platform := data.platform,
    metaText := data.metaText, status := data.status, userId := none,
    timestamp := data.timestamp }

/-- The method `store.getAllLogs(userId)`; `none` is an absent or `null` user id. -/
def getAllLogs (st : State) (env : Env) (userId : Option String) : List LogEntry :=
  if !st.connected then
    if strTruthy userId then st.memoryActivityLogs.filter (fun l => decide (l.userId = userId))
    else st.memoryActivityLogs
  else if !env.failList then
    match userId with
    | none => []
    | some u =>
      if u ≠ "" then
        (((userLogDocs st u).insertionSort (laterFirst LogDoc.createdAt)).take 100).map
          (fun d => logFromDoc d.2)
      else []
  else []

/-- The loop of `clearLogs` over the in-memory log,
`for (let i = n - 1; i >= 0; i--) if (logs[i].userId === userId) logs.splice(i, 1)`,
with `n` iterations still to run. -/
def spliceOwned (userId : Option String) : Nat → List LogEntry → List LogEntry
  | 0, logs => logs
  | i + 1, logs =>
    match logs[i]? with
    | some l =>
      if l.userId = userId then spliceOwned userId i (logs.eraseIdx i)
      else spliceOwned userId i logs
    | none => spliceOwned userId i logs

/-- The method `store.clearLogs(userId)`; `none` is an absent or `null` user id.
`fail` says whether the Firestore calls throw. -/
def clearLogs (st : State) (fail : Bool) (userId : Option String) : State :=
  if !st.connected then
    if strTruthy userId then
      { st with memoryActivityLogs :=
          spliceOwned userId st.memoryActivityLogs.length st.memoryActivityLogs }
    else { st with memoryActivityLogs := [] }
  else if !fail then
    match userId with
    | none => st
    | some u =>
      if u ≠ "" then { st with fsLogs := st.fsLogs.filter (fun d => !decide (d.1.1 = u)) }
      else st
  else st

/-- The object `getStats` returns. -/
structure Stats where
  totalActions : Nat
  mistakesPrevented : Nat
  actionsCommitted : Nat
  pendingCount : Nat
  deriving DecidableEq

/-- The method `store.getStats(userId)`; `none` is an absent or `null` user id.
The Firestore branch fails when `env.failList` is set. -/
def getStats (st : State) (env : Env) (userId : Option String) : Stats :=
  if !st.connected then
    let relevantLogs : List LogEntry :=
      if strTruthy userId then
        st.memoryActivityLogs.filter (fun l => decide (l.userId = userId))
      else st.memoryActivityLogs
    { totalActions := relevantLogs.length,
      mistakesPrevented := (relevantLogs.filter (fun l => decide (l.status = "REVERSED"))).length,
      actionsCommitted := (relevantLogs.filter (fun l => decide (l.status = "COMMITTED"))).length,
      pendingCount := st.memoryPendingActions.length }
  else if !env.failList then
    match userId with
    | none => { totalActions := 0, mistakesPrevented := 0, actionsCommitted := 0, pendingCount := 0 }
    | some u =>
      if u ≠ "" then
        { totalActions := (userLogDocs st u).length,
          mistakesPrevented :=
            ((userLogDocs st u).filter (fun d => decide (d.2.status = "REVERSED"))).length,
          actionsCommitted :=
            ((userLogDocs st u).filter (fun d => decide (d.2.status = "COMMITTED"))).length,
          pendingCount := (st.fsPending.filter (fun d => decide (d.2.userId = some u))).length }
      else { totalActions := 0, mistakesPrevented := 0, actionsCommitted := 0, pendingCount := 0 }
  else { totalActions := 0, mistakesPrevented := 0, actionsCommitted := 0, pendingCount := 0 }

/-- A sequence of `store.addLog` calls, each with its environment. -/
def addLogs (st : State) : List (Env × LogEntry) → State
  | [] => st
  | (env, logEntry) :: rest => addLogs (addLog st env logEntry).2 rest

/-- The entry `addLog` returns for a call: the argument with the generated
timestamp. -/
def returnedEntry (call : Env × LogEntry) : LogEntry :=
  { call.2 with timestamp := call.1.timestamp }

/-- The document `addLog` writes to Firestore for a call. -/
def loggedDoc (env : Env) (logEntry : LogEntry) : LogDoc :=
  { actionId := logEntry.id, label := logEntry.label, platform := logEntry.platform,
    metaText := logEntry.metaText, status := logEntry.status,
    timestamp := env.timestamp, createdAt := env.storeNow }

/-- The collection `addLog` writes to: `logEntry.userId || 'anonymous'`. -/
def logOwner (logEntry : LogEntry) : String := strOr logEntry.userId "anonymous"

/-! ## Server (`src/server/index.js`) -/

/-- The helper `broadcastToUser(userId, event, data)`. -/
def broadcastToUser (st : State) (userId : Option String) (event : String)
    (data : Payload) : State :=
  if strTruthy userId then
    { st with emitted := st.emitted ++ [{ room := userId, event := event, data := data }] }
  else
    { st with emitted := st.emitted ++ [{ room := none, event := event, data := data }] }

/-- The statements `if (actionTimers.has(id)) { clearTimeout(actionTimers.get(id));
actionTimers.delete(id); }`. -/
def clearActionTimer (st : State) (id : String) : State :=
  match mapGet st.actionTimers id with
  | some h =>
    { st with timeouts := st.timeouts.filter (fun t => decide (t.handle ≠ h)),
              actionTimers := mapDelete st.actionTimers id }
  | none => st

/-- The statements `const timer = setTimeout(() => commitAction(action.id, true),
action.graceWindow * 1000); actionTimers.set(action.id, timer);`. -/
def startTimer (st : State) (action : PendingAction) : State :=
  { st with
    timeouts := st.timeouts ++
      [{ handle := st.nextHandle, actionId := action.id,
         delay := action.graceWindow.timesThousand }],
    nextHandle := st.nextHandle + 1,
    actionTimers := mapSet st.actionTimers action.id st.nextHandle }

/-- The body of a create request (`req.body`) or of an `intercept` event.
`none` is an absent or `null` field; `graceWindow` is any JSON value. -/
structure CreateRequest where
  type : Option String
  label : Option String
  metadata : Option Json
  graceWindow : JSValue
  userId : Option String

/-- The expression `Math.min(Math.max(v, 5), 30)`. -/
def clampGrace (v : JSValue) : JSNum :=
  mathMin (mathMax v.toNumber (.fin 5)) (.fin 30)

/-- The expression `userId ? userSettings.get(userId) : null`. -/
def userSettingOf (st : State) (userId : Option String) : Option Settings :=
  match userId with
  | some u => if u ≠ "" then mapGet st.userSettings u else none
  | none => none

/-- The handler of `POST /api/action`; returns the `action` of the response. -/
def postAction (st : State) (env : Env) (body : CreateRequest) : PendingAction × State :=
  let graceWindow : JSValue :=
    match body.graceWindow with
    | .undefined => .num (.fin 15)
    | v => v
  let effectiveGraceWindow : JSValue :=
    match userSettingOf st body.userId with
    | some userSetting => .num userSetting.graceWindow
    | none => graceWindow
  let action : PendingAction :=
    { id := toUpperCase (substring0 env.uuid 8),
      type := strOr body.type "unknown",
      label := strOr body.label "Unknown Action",
      metadata := metadataOrEmpty body.metadata,
      platform := getAdapterName body.type,
      graceWindow := clampGrace effectiveGraceWindow,
      userId := orNull body.userId,
      createdAt := env.now,
      status := none }
  let st1 := (addPendingAction st env action).2
  let st2 := startTimer st1 action
  let st3 := broadcastToUser st2 action.userId "action:intercepted" (.action action)
  (action, st3)

/-- The handler of the socket event `intercept`; its action object has no
`userId` key. -/
def socketIntercept (st : State) (env : Env) (data : CreateRequest) : State :=
  let action : PendingAction :=
    { id := toUpperCase (substring0 env.uuid 8),
      type := strOr data.type "unknown",
      label := strOr data.label "Unknown Action",
      metadata := metadataOrEmpty data.metadata,
      platform := getAdapterName data.type,
      graceWindow := clampGrace (data.graceWindow.or (.num (.fin 15))),
      userId := none,
      createdAt := env.now,
      status := none }
  let st1 := (addPendingAction st env action).2
  let st2 := startTimer st1 action
  broadcastToUser st2 action.userId "action:intercepted" (.action action)

/-- The function `cancelAction(action)`; `none` when it throws. -/
def cancelAction (action : PendingAction) : Option AdapterResult :=
  (getAdapter (some action.type)).cancel

/-- The function `executeAction(action)`; `none` when it throws. -/
def executeAction (action : PendingAction) : Option AdapterResult :=
  (getAdapter (some action.type)).execute

/-- How a resolve request ends: the not-found answer (`'Action not found or
already processed'`), the answer `{ success: true, status, log }`, or a
`TypeError` thrown by the adapter call, after which no answer is sent. -/
inductive Resolution where
  | notFound : Resolution
  | resolved (status : String) (log : LogEntry) : Resolution
  | typeError : Resolution
  deriving DecidableEq

/-- The log entry a resolve handler hands to `addLog`. -/
def logEntryOf (action : PendingAction) (status : String) : LogEntry :=
  { id := action.id, label := action.label, platform := action.platform,
    metaText := action.metadata, status := status, userId := orNull action.userId,
    timestamp := "" }

/-- The handler of `POST /api/action/:id/undo`. -/
def postActionUndo (st : State) (env : Env) (id : String) : Resolution × State :=
  match getPendingAction st env id with
  | none => (.notFound, st)
  | some action =>
    let st1 := clearActionTimer st id
    match cancelAction action with
    | none => (.typeError, st1)
    | some _ =>
      let (logEntry, st2) := addLog st1 env (logEntryOf action "REVERSED")
      let st3 := (removePendingAction st2 env id).2
      let st4 := broadcastToUser st3 action.userId "action:resolved"
        (.resolved id "REVERSED" logEntry none)
      (.resolved "REVERSED" logEntry, st4)

/-- The handler of the socket event `undo`: the same steps, no answer. -/
def socketUndo (st : State) (env : Env) (id : String) : State :=
  match getPendingAction st env id with
  | none => st
  | some action =>
    let st1 := clearActionTimer st id
    match cancelAction action with
    | none => st1
    | some _ =>
      let (logEntry, st2) := addLog st1 env (logEntryOf action "REVERSED")
      let st3 := (removePendingAction st2 env id).2
      broadcastToUser st3 action.userId "action:resolved"
        (.resolved id "REVERSED" logEntry none)

/-- Where `commitAction` stands once it has called the adapter. -/
inductive CommitStart where
  | notFound : CommitStart
  | threw : CommitStart
  | executing (action : PendingAction) : CommitStart
  deriving DecidableEq

/-- The function `commitAction` up to `await adapters.executeAction(action)`:
the adapter has been called and waits on its own `setTimeout`, so other
handlers run before `commitAction` goes on. -/
def commitActionBegin (st : State) (env : Env) (id : String) : CommitStart × State :=
  match getPendingAction st env id with
  | none => (.notFound, st)
  | some action =>
    let st1 := clearActionTimer st id
    match executeAction action with
    | none => (.threw, st1)
    | some _ => (.executing action, st1)

/-- The function `commitAction` from the point where the adapter call has
returned: log, remove, broadcast, answer. -/
def commitActionResume (st : State) (env : Env) (id : String) (isAutoCommit : Bool)
    (action : PendingAction) : Resolution × State :=
  let (logEntry, st2) := addLog st env (logEntryOf action "COMMITTED")
  let st3 := (removePendingAction st2 env id).2
  let st4 := broadcastToUser st3 action.userId "action:resolved"
    (.resolved id "COMMITTED" logEntry (some isAutoCommit))
  (.resolved "COMMITTED" logEntry, st4)

/-- The function `commitAction(id, isAutoCommit)` run without interruption. -/
def commitAction (st : State) (env : Env) (id : String) (isAutoCommit : Bool) :
    Resolution × State :=
  match commitActionBegin st env id with
  | (.notFound, st1) => (.notFound, st1)
  | (.threw, st1) => (.typeError, st1)
  | (.executing action, st1) => commitActionResume st1 env id isAutoCommit action

/-- The handler of `POST /api/action/:id/commit`. -/
def postActionCommit (st : State) (env : Env) (id : String) : Resolution × State :=
  commitAction st env id false

/-- The handler of the socket event `commit`. -/
def socketCommit (st : State) (env : Env) (id : String) : State :=
  (commitAction st env id false).2

/-- The event loop runs the timer callback with the given handle:
`commitAction(action.id, true)`. For a handle that is not registered (never
set, cleared, or already run) nothing runs, which is reported as `notFound`. -/
def timerFire (st : State) (env : Env) (handle : Nat) : Resolution × State :=
  match st.timeouts.find? (fun t => decide (t.handle = handle)) with
  | none => (.notFound, st)
  | some t =>
    commitAction { st with timeouts := st.timeouts.filter (fun t => decide (t.handle ≠ handle)) }
      env t.actionId true

/-- The expression `n || 15` on a number. -/
def numOr15 (n : JSNum) : JSNum := if n.truthy then n else .fin 15

/-- The handler of `GET /api/settings`. -/
def getSettings (st : State) (userId : Option String) : Settings :=
  match userSettingOf st userId with
  | some s => s
  | none => DEFAULT_SETTINGS

/-- The handler of `POST /api/settings`; `none` is the answer 400,
`'UserId required'`. -/
def postSettings (st : State) (graceWindow : JSValue) (userId : Option String) :
    Option Settings × State :=
  match userId with
  | some u =>
    if u ≠ "" ∧ graceWindow ≠ .undefined then
      let current : Settings :=
        { (match mapGet st.userSettings u with
           | some s => s
           | none => DEFAULT_SETTINGS) with
          graceWindow := mathMin (mathMax (numOr15 (parseInt graceWindow)) (.fin 5)) (.fin 30) }
      (some current, { st with userSettings := mapSet st.userSettings u current })
    else (none, st)
  | none => (none, st)

/-- The handler of `DELETE /api/logs`: `store.clearLogs()` with no argument,
then `io.emit('logs:cleared')`. -/
def deleteLogs (st : State) (fail : Bool) : State :=
  let st1 := clearLogs st fail none
  { st1 with emitted := st1.emitted ++ [{ room := none, event := "logs:cleared", data := .empty }] }

/-- The handler of `GET /api/pending`. -/
def getPending (st : State) (env : Env) : List PendingAction :=
  getAllPendingActions st env

/-- The handler of `GET /api/logs`. -/
def getLogs (st : State) (env : Env) (userId : Option String) : List LogEntry :=
  getAllLogs st env userId

/-- The handler of `GET /api/stats`. -/
def getApiStats (st : State) (env : Env) (userId : Option String) : Stats :=
  getStats st env userId

/-! ## Runs of completed operations -/

/-- One completed request, socket event or timer callback, with what it takes
from its environment. -/
inductive Op where
  | create (env : Env) (body : CreateRequest) : Op
  | intercept (env : Env) (data : CreateRequest) : Op
  | undo (env : Env) (id : String) : Op
  | wsUndo (env : Env) (id : String) : Op
  | commit (env : Env) (id : String) : Op
  | wsCommit (env : Env) (id : String) : Op
  | fire (env : Env) (handle : Nat) : Op
  | settings (graceWindow : JSValue) (userId : Option String) : Op
  | clear (fail : Bool) : Op

/-- The state after one operation has run to its end. -/
def step (st : State) : Op → State
  | .create env body => (postAction st env body).2
  | .intercept env data => socketIntercept st env data
  | .undo env id => (postActionUndo st env id).2
  | .wsUndo env id => socketUndo st env id
  | .commit env id => (postActionCommit st env id).2
  | .wsCommit env id => socketCommit st env id
  | .fire env handle => (timerFire st env handle).2
  | .settings graceWindow userId => (postSettings st graceWindow userId).2
  | .clear fail => deleteLogs st fail

/-- The state after a sequence of operations, none overlapping another. -/
def run (st : State) (ops : List Op) : State := ops.foldl step st

/-- A state the server can be in after some sequence of completed operations. -/
def Reachable (st : State) : Prop := ∃ connected ops, run (State.init connected) ops = st

/-- The id a create operation gives its action. -/
def Op.createdId : Op → Option String
  | .create env _ => some (toUpperCase (substring0 env.uuid 8))
  | .intercept env _ => some (toUpperCase (substring0 env.uuid 8))
  | _ => none

/-- The ids generated along a sequence of operations, in order. -/
def createdIds (ops : List Op) : List String := ops.filterMap Op.createdId

/-- No Firestore call of the operation throws. -/
def Op.reliable : Op → Prop
  | .create env _ => env.reliable
  | .intercept env _ => env.reliable
  | .undo env _ => env.reliable
  | .wsUndo env _ => env.reliable
  | .commit env _ => env.reliable
  | .wsCommit env _ => env.reliable
  | .fire env _ => env.reliable
  | .settings _ _ => True
  | .clear fail => fail = false

/-- The pending set of the backend in use. -/
def pendingSet (st : State) : List (String × PendingAction) :=
  if st.connected then st.fsPending else st.memoryPendingActions

/-- The action ids of the activity log of the backend in use, one per entry. -/
def logIds (st : State) : List String :=
  if st.connected then st.fsLogs.map (fun d => d.1.2)
  else st.memoryActivityLogs.map (fun l => l.id)

/-! ## Sample inputs -/

/-- An environment with no failing call, the clock at `t` and the given UUID. -/
def sampleEnv (t : Nat) (uuid : String) : Env :=
  { now := t, storeNow := t, uuid := uuid, timestamp := "12:00:00:07",
    failAdd := false, failGet := false, failRemove := false, failLog := false,
    failList := false }

/-- A create request for an e-mail action with the given grace window and owner. -/
def sampleRequest (graceWindow : JSValue) (userId : Option String) : CreateRequest :=
  { type := some "email", label := some "Send mail", metadata := none,
    graceWindow := graceWindow, userId := userId }

/-- The state of a fresh in-memory server after one create request, for owner
`u1` with no grace window given; the action gets the id `3F2A9C1E`. -/
def sampleCreated : State :=
  (postAction (State.init false) (sampleEnv 0 "3f2a9c1e-77aa")
    (sampleRequest .undefined (some "u1"))).2

/-- The log entry the undo of the sample action produces. -/
def sampleReversed : LogEntry :=
  { id := "3F2A9C1E", label := "Send mail", platform := some "Gmail", metaText := "{}",
    status := "REVERSED", userId := some "u1", timestamp := "12:00:00:07" }

/-! ## Predicates used in the statements -/

/-- Every stored setting is a whole number of seconds from 5 to 30. -/
def SettingsValid (st : State) : Prop :=
  ∀ u s, mapGet st.userSettings u = some s →
    ∃ n : ℤ, s.graceWindow = .fin (n : ℚ) ∧ 5 ≤ n ∧ n ≤ 30

/-- The environment cannot disturb the operation: the in-memory backend is in
use, or no Firestore call throws. -/
def Sound (st : State) (env : Env) : Prop := st.connected = true → env.reliable

/-- The invariant behind the activity log: no id occurs twice in the log, the
ids of the log and of the pending set were all generated by a create
operation (`used`), no logged id is still pending, and every pending action is
stored under its own id. -/
def LogInv (st : State) (used : List String) : Prop :=
  (∀ i, (logIds st).count i ≤ 1) ∧
  (∀ i ∈ logIds st, i ∈ used) ∧
  (∀ p ∈ pendingSet st, p.1 ∈ used) ∧
  (∀ i ∈ logIds st, mapGet (pendingSet st) i = none) ∧
  (∀ p ∈ pendingSet st, p.2.id = p.1)

/-- Every stored object sits under its own id: pending actions in both
backends, and Firestore log documents under the id in their `actionId` field. -/
def WellFormed (st : State) : Prop :=
  (∀ p ∈ st.memoryPendingActions, p.2.id = p.1) ∧
  (∀ p ∈ st.fsPending, p.2.id = p.1) ∧
  (∀ d ∈ st.fsLogs, d.2.actionId = d.1.2)

/-- A create request for an action of type `constructor`, a name the registry
object inherits from `Object.prototype`. -/
def inheritedRequest : CreateRequest :=
  { type := some "constructor", label := some "Submit form", metadata := none,
    graceWindow := .undefined, userId := some "u1" }

/-- The state of a fresh in-memory server after the create request
`inheritedRequest`; the action gets the id `3F2A9C1E`. -/
def sampleInherited : State :=
  (postAction (State.init false) (sampleEnv 0 "3f2a9c1e-77aa") inheritedRequest).2

/-- The sample action as the in-memory store holds it. -/
def sampleAction : PendingAction :=
  { id := "3F2A9C1E", type := "email", label := "Send mail", metadata := "{}",
    platform := some "Gmail", graceWindow := .fin 15, userId := some "u1", createdAt := 0,
    status := some "PENDING" }

/-- The log entry the commit of the sample action produces. -/
def sampleCommitted : LogEntry :=
  { id := "3F2A9C1E", label := "Send mail", platform := some "Gmail", metaText := "{}",
    status := "COMMITTED", userId := some "u1", timestamp := "12:00:00:07" }

/-- The requests behind `sampleTwoOwners`: owner `u1` creates an action and
undoes it, owner `u2` creates one and commits it. -/
def sampleTwoOwnersOps : List Op :=
  [.create (sampleEnv 0 "3f2a9c1e-77aa") (sampleRequest .undefined (some "u1")),
   .undo (sampleEnv 1 "") "3F2A9C1E",
   .create (sampleEnv 2 "b81d04c7-10fe") (sampleRequest .undefined (some "u2")),
   .commit (sampleEnv 3 "") "B81D04C7"]

/-- The in-memory server after `sampleTwoOwnersOps`. -/
def sampleTwoOwners : State := run (State.init false) sampleTwoOwnersOps

/-- The log entry of owner `u2` in `sampleTwoOwners`. -/
def sampleCommittedU2 : LogEntry :=
  { id := "B81D04C7", label := "Send mail", platform := some "Gmail", metaText := "{}",
    status := "COMMITTED", userId := some "u2", timestamp := "12:00:00:07" }

/-- The `i`-th of a series of log entries with pairwise distinct ids, all of
owner `u1`. -/
def sampleLogEntry (i : Nat) : LogEntry :=
  { id := String.mk ('L' :: List.replicate i 'X'), label := "Send mail",
    platform := some "Gmail", metaText := "{}", status := "COMMITTED",
    userId := some "u1", timestamp := "" }

/-- The in-memory server after 100 `addLog` calls: the log is full. -/
def sampleFullLog : State :=
  addLogs (State.init false) ((List.range 100).map (fun i => (sampleEnv i "", sampleLogEntry i)))

/-- An environment like `sampleEnv` in which the Firestore write of
`addPendingAction` throws. -/
def sampleEnvWriteFails (t : Nat) (uuid : String) : Env :=
  { sampleEnv t uuid with failAdd := true }

/-- The Firestore-backed server after one create request whose write to
Firestore failed; the action has the id `3F2A9C1E`. -/
def sampleWriteFailed : State :=
  (postAction (State.init true) (sampleEnvWriteFails 0 "3f2a9c1e-77aa")
    (sampleRequest .undefined (some "u1"))).2

/-- The action object the sample create request builds and answers with. -/
def sampleBuilt : PendingAction :=
  { id := "3F2A9C1E", type := "email", label := "Send mail", metadata := "{}",
    platform := some "Gmail", graceWindow := .fin 15, userId := some "u1", createdAt := 0,
    status := none }

/-! ## Action ids -/

/-- A hexadecimal digit, in either case. -/
def isHexDigit (c : Char) : Bool :=
  (48 ≤ c.toNat && c.toNat ≤ 57) || (97 ≤ c.toNat && c.toNat ≤ 102) ||
  (65 ≤ c.toNat && c.toNat ≤ 70)

/-- A digit `0`-`9` or an upper-case letter `A`-`Z`. -/
def isDigitOrUpper (c : Char) : Bool :=
  (48 ≤ c.toNat && c.toNat ≤ 57) || (65 ≤ c.toNat && c.toNat ≤ 90)

/-- The layout of the text `uuidv4()` returns: 36 characters, hyphens at
positions 8, 13, 18 and 23, hexadecimal digits elsewhere. -/
def IsUuid (uuid : String) : Prop :=
  uuid.data.length = 36 ∧
  ∀ i, i < 36 →
    if i = 8 ∨ i = 13 ∨ i = 18 ∨ i = 23 then uuid.data[i]? = some '-'
    else ∃ c, uuid.data[i]? = some c ∧ isHexDigit c = true

/-! ## Socket sessions (`io.on('connection')`) -/

/-- A connected socket; `userId` is `socket.handshake.query.userId`, `none`
when the query has no such key. -/
structure Session where
  id : String
  userId : Option String
  deriving DecidableEq

/-- The rooms the `connection` handler puts a socket in:
`if (userId) socket.join('user:' + userId)`. The room Socket.IO names after
the generated socket id is left out; no such id starts with `user:`. -/
def joinedRooms (s : Session) : List String :=
  match s.userId with
  | some u => if u ≠ "" then ["user:" ++ u] else []
  | none => []

/-- Whether a socket receives an emission: `io.to('user:' + u).emit` reaches
the sockets in that room, `io.emit` reaches every socket. -/
def delivered (e : Emission) (s : Session) : Bool :=
  match e.room with
  | some u => decide (("user:" ++ u) ∈ joinedRooms s)
  | none => true

/-- The emissions one operation adds. -/
def newEmissions (st : State) (op : Op) : List Emission :=
  (step st op).emitted.drop st.emitted.length

/-- The pending action a resolve operation reads from the store; `none` for
the other operations, for an id that is not pending and for a timer handle
that is not registered. -/
def Op.target (st : State) : Op → Option PendingAction
  | .undo env id => getPendingAction st env id
  | .wsUndo env id => getPendingAction st env id
  | .commit env id => getPendingAction st env id
  | .wsCommit env id => getPendingAction st env id
  | .fire env handle =>
    match st.timeouts.find? (fun t => decide (t.handle = handle)) with
    | some t => getPendingAction st env t.actionId
    | none => none
  | _ => none

/-- An emission about an action with the given owner id reaches the sessions
the specification names: every session when the owner id is absent (or
empty), and otherwise exactly the sessions whose handshake carries that id. -/
def ScopedTo (e : Emission) (owner : Option String) : Prop :=
  ∀ s : Session, delivered e s = true ↔ (strTruthy owner = false ∨ s.userId = owner)

/-- A dashboard session of owner `u1`, one of owner `u2`, and one with no owner. -/
def sampleSessions : List Session :=
  [{ id := "s1", userId := some "u1" }, { id := "s2", userId := some "u2" },
   { id := "s3", userId := none }]

/-- The event the undo of the sample action emits. -/
def sampleResolvedEvent : Emission :=
  { room := some "u1", event := "action:resolved",
    data := .resolved "3F2A9C1E" "REVERSED" sampleReversed none }

/-! ## Completed runs and further predicates -/

/-- The adapter call of a resolve handler threw. -/
def Resolution.threw : Resolution → Bool
  | .typeError => true
  | _ => false

/-- The operation runs to its end: the adapter call of a resolve handler, if
it gets that far, does not throw. The socket handlers run the steps of the
request handlers. -/
def Op.completes (st : State) : Op → Bool
  | .undo env id => !(postActionUndo st env id).1.threw
  | .wsUndo env id => !(postActionUndo st env id).1.threw
  | .commit env id => !(postActionCommit st env id).1.threw
  | .wsCommit env id => !(commitAction st env id false).1.threw
  | .fire env handle => !(timerFire st env handle).1.threw
  | _ => true

/-- Every operation of the sequence runs to its end, each from the state the
earlier ones leave. -/
def runCompletes : State → List Op → Bool
  | _, [] => true
  | st, op :: rest => op.completes st && runCompletes (step st op) rest

/-- The timer table has an entry for exactly the ids of the in-memory pending
map. -/
def TimersTrackPending (st : State) : Prop :=
  ∀ id, mapHas st.actionTimers id = mapHas st.memoryPendingActions id

/-- Every entry of the in-memory log and every log document has one of the two
final statuses. -/
def LogStatusOk (st : State) : Prop :=
  (∀ l ∈ st.memoryActivityLogs, l.status = "REVERSED" ∨ l.status = "COMMITTED") ∧
  (∀ d ∈ st.fsLogs, d.2.status = "REVERSED" ∨ d.2.status = "COMMITTED")

/-- An environment like `sampleEnv` in which the Firestore delete of
`removePendingAction` throws. -/
def sampleEnvDeleteFails (t : Nat) : Env :=
  { sampleEnv t "" with failRemove := true }

/-- The Firestore-backed server after the sample create request, every call
succeeding; the action has the id `3F2A9C1E`. -/
def sampleCreatedFirestore : State :=
  (postAction (State.init true) (sampleEnv 0 "3f2a9c1e-77aa")
    (sampleRequest .undefined (some "u1"))).2

/-- The Firestore-backed server after the undo of the sample action during
which the Firestore delete failed. -/
def sampleUndoneDeleteFailed : State :=
  (postActionUndo sampleCreatedFirestore (sampleEnvDeleteFails 1) "3F2A9C1E").2

/-! # Theorems -/

/-! ## Lemmas on maps -/

section
variable {κ : Type} [DecidableEq κ] {α : Type}

theorem mapGet_mapSet_self (m : List (κ × α)) (k : κ) (v : α) :
    mapGet (mapSet m k v) k = some v := by
  induction m with
  | nil => simp [mapSet, mapGet]
  | cons p rest ih =>
    obtain ⟨k', w⟩ := p
    by_cases h : k' = k
    · simp [mapSet, mapGet, h]
    · simp [mapSet, mapGet, h, ih]

theorem mapGet_mapSet_other (m : List (κ × α)) (k k' : κ) (v : α) (h : k ≠ k') :
    mapGet (mapSet m k v) k' = mapGet m k' := by
  induction m with
  | nil => simp [mapSet, mapGet, h]
  | cons p rest ih =>
    obtain ⟨k0, w⟩ := p
    by_cases h0 : k0 = k
    · subst h0; simp [mapSet, mapGet, h]
    · by_cases h1 : k0 = k'
      · subst h1; simp [mapSet, mapGet, h0]
      · simp [mapSet, mapGet, h0, h1, ih]

theorem mapGet_mapDelete_self (m : List (κ × α)) (k : κ) :
    mapGet (mapDelete m k) k = none := by
  induction m with
  | nil => simp [mapDelete, mapGet]
  | cons p rest ih =>
    obtain ⟨k0, w⟩ := p
    by_cases h0 : k0 = k
    · simpa [mapDelete, List.filter, h0] using ih
    · simpa [mapDelete, List.filter, h0, mapGet] using ih

theorem mapGet_mapDelete_other (m : List (κ × α)) (k k' : κ) (h : k ≠ k') :
    mapGet (mapDelete m k) k' = mapGet m k' := by
  induction m with
  | nil => simp [mapDelete, mapGet]
  | cons p rest ih =>
    obtain ⟨k0, w⟩ := p
    by_cases h0 : k0 = k
    · subst h0
      simpa [mapDelete, List.filter, mapGet, h] using ih
    · by_cases h1 : k0 = k'
      · subst h1; simp [mapDelete, List.filter, h0, mapGet]
      · simpa [mapDelete, List.filter, h0, mapGet, h1] using ih

end

/-! ## Grace window of a created action -/

theorem postAction_graceWindow (st : State) (env : Env) (body : CreateRequest) :
    (postAction st env body).1.graceWindow =
      clampGrace (match userSettingOf st body.userId with
        | some userSetting => .num userSetting.graceWindow
        | none => (match body.graceWindow with
          | .undefined => .num (.fin 15)
          | v => v)) := rfl

theorem clampGrace_fin (g : ℚ) : clampGrace (.num (.fin g)) = .fin (max 5 (min 30 g)) := by
  simp only [clampGrace, JSValue.toNumber, mathMax, mathMin, JSNum.fin.injEq]
  rcases le_total g 5 with h | h
  · rw [max_eq_right h, min_eq_left (by norm_num), min_eq_right (by linarith), max_eq_left (by linarith)]
  · rw [max_eq_left h]
    rcases le_total g 30 with h' | h'
    · rw [min_eq_left h', min_eq_right h', max_eq_right h]
    · rw [min_eq_right h', min_eq_left h', max_eq_right (by norm_num)]

/-- C4. Clamping in `POST /api/action`: when the owner of the request has no
stored setting (or the request names no owner), a finite numeric `graceWindow`
`g` gives the created action the grace window `max(5, min(30, g))`, the two
infinities clamp to 30 and 5, and an absent `graceWindow` gives 15. -/
theorem create_clamps_requested_grace_window (st : State) (env : Env) (body : CreateRequest)
    (hno : userSettingOf st body.userId = none) :
    (∀ g : ℚ, body.graceWindow = .num (.fin g) →
      (postAction st env body).1.graceWindow = .fin (max 5 (min 30 g))) ∧
    (body.graceWindow = .num .posInf → (postAction st env body).1.graceWindow = .fin 30) ∧
    (body.graceWindow = .num .negInf → (postAction st env body).1.graceWindow = .fin 5) ∧
    (body.graceWindow = .undefined → (postAction st env body).1.graceWindow = .fin 15) := by
  rw [postAction_graceWindow, hno]
  refine ⟨?_, ?_, ?_, ?_⟩
  · intro g hg
    rw [hg]
    exact clampGrace_fin g
  · intro hg
    rw [hg]
    simp [clampGrace, JSValue.toNumber, mathMax, mathMin]
  · intro hg
    rw [hg]
    simp only [clampGrace, JSValue.toNumber, mathMax, mathMin, JSNum.fin.injEq]
    norm_num
  · intro hg
    rw [hg, clampGrace_fin]
    norm_num

/-- Witness for C4: the request `{type: 'email', graceWindow: 2}` of scenario 2. -/
theorem create_clamps_requested_grace_window_witness :
    userSettingOf (State.init false) (some "u1") = none ∧
    (postAction (State.init false) (sampleEnv 0 "3f2a9c1e-77aa")
      (sampleRequest (.num (.fin 2)) (some "u1"))).1.graceWindow = .fin (max 5 (min 30 2)) :=
  ⟨rfl, (create_clamps_requested_grace_window (State.init false) (sampleEnv 0 "3f2a9c1e-77aa")
      (sampleRequest (.num (.fin 2)) (some "u1")) rfl).1 2 rfl⟩

/-! ## Settings -/

theorem parseIntStr_integral (s : String) :
    parseIntStr s = .nan ∨ ∃ z : ℤ, parseIntStr s = .fin (z : ℚ) := by
  unfold parseIntStr
  simp only
  split_ifs with hk hneg
  · left; rfl
  · right; exact ⟨-(_ : ℕ), by push_cast; rfl⟩
  · right; exact ⟨(_ : ℕ), by push_cast; rfl⟩

theorem parseIntFinite_integral (q : ℚ) : ∃ z : ℤ, parseIntFinite q = (z : ℚ) := by
  unfold parseIntFinite
  simp only
  split_ifs
  · exact ⟨0, by simp⟩
  · exact ⟨-1 * (leadDigitSmall (|q|.den + 1) |q| : ℤ), by push_cast; ring⟩
  · exact ⟨1 * (leadDigitSmall (|q|.den + 1) |q| : ℤ), by push_cast; ring⟩
  · exact ⟨-1 * (⌊|q|⌋₊ : ℤ), by push_cast; ring⟩
  · exact ⟨1 * (⌊|q|⌋₊ : ℤ), by push_cast; ring⟩
  · exact ⟨-1 * (leadDigitNat ⌊|q|⌋₊ : ℤ), by push_cast; ring⟩
  · exact ⟨1 * (leadDigitNat ⌊|q|⌋₊ : ℤ), by push_cast; ring⟩

theorem parseInt_integral (v : JSValue) :
    parseInt v = .nan ∨ ∃ z : ℤ, parseInt v = .fin (z : ℚ) := by
  cases v with
  | undefined => left; rfl
  | null => left; rfl
  | bool b => left; rfl
  | num n =>
    cases n with
    | fin q =>
      right
      obtain ⟨z, hz⟩ := parseIntFinite_integral q
      exact ⟨z, by simp [parseInt, hz]⟩
    | nan => left; rfl
    | negInf => left; rfl
    | posInf => left; rfl
  | str s => exact parseIntStr_integral s
  | obj r => exact parseIntStr_integral r

/-- The value `POST /api/settings` stores. -/
theorem storedGrace_integral (v : JSValue) :
    ∃ n : ℤ, mathMin (mathMax (numOr15 (parseInt v)) (.fin 5)) (.fin 30) = .fin (n : ℚ) ∧
      5 ≤ n ∧ n ≤ 30 := by
  have key : ∀ z : ℤ, mathMin (mathMax (.fin (z : ℚ)) (.fin 5)) (.fin 30)
      = .fin ((min (max z 5) 30 : ℤ) : ℚ) := by
    intro z
    simp [mathMin, mathMax]
  rcases parseInt_integral v with h | ⟨z, h⟩
  · refine ⟨15, ?_, by norm_num, by norm_num⟩
    rw [h]
    simp only [numOr15, JSNum.truthy]
    simp [mathMin, mathMax]
    norm_num
  · rw [h]
    by_cases hz : z = 0
    · refine ⟨15, ?_, by norm_num, by norm_num⟩
      subst hz
      simp [numOr15, JSNum.truthy, mathMin, mathMax]
      norm_num
    · refine ⟨min (max z 5) 30, ?_, ?_, ?_⟩
      · have : numOr15 (.fin (z : ℚ)) = .fin (z : ℚ) := by
          simp [numOr15, JSNum.truthy, hz]
        rw [this, key]
      · exact le_min (le_max_right _ _) (by norm_num)
      · exact min_le_right _ _

/-! ### The settings map is written by `POST /api/settings` only -/

theorem addPendingAction_userSettings (st : State) (env : Env) (a : PendingAction) :
    (addPendingAction st env a).2.userSettings = st.userSettings := by
  unfold addPendingAction; split_ifs <;> rfl

theorem removePendingAction_userSettings (st : State) (env : Env) (id : String) :
    (removePendingAction st env id).2.userSettings = st.userSettings := by
  unfold removePendingAction; split_ifs <;> rfl

theorem addLog_userSettings (st : State) (env : Env) (l : LogEntry) :
    (addLog st env l).2.userSettings = st.userSettings := by
  unfold addLog; simp only; split_ifs <;> rfl

theorem clearLogs_userSettings (st : State) (fail : Bool) (u : Option String) :
    (clearLogs st fail u).userSettings = st.userSettings := by
  unfold clearLogs
  split_ifs <;> try rfl
  cases u with
  | none => rfl
  | some u => simp only; split_ifs <;> rfl

theorem broadcastToUser_userSettings (st : State) (u : Option String) (e : String) (d : Payload) :
    (broadcastToUser st u e d).userSettings = st.userSettings := by
  unfold broadcastToUser; split_ifs <;> rfl

theorem clearActionTimer_userSettings (st : State) (id : String) :
    (clearActionTimer st id).userSettings = st.userSettings := by
  unfold clearActionTimer; split <;> rfl

theorem startTimer_userSettings (st : State) (a : PendingAction) :
    (startTimer st a).userSettings = st.userSettings := rfl

theorem postAction_userSettings (st : State) (env : Env) (body : CreateRequest) :
    (postAction st env body).2.userSettings = st.userSettings := by
  simp [postAction, broadcastToUser_userSettings, startTimer_userSettings,
    addPendingAction_userSettings]

theorem socketIntercept_userSettings (st : State) (env : Env) (data : CreateRequest) :
    (socketIntercept st env data).userSettings = st.userSettings := by
  simp [socketIntercept, broadcastToUser_userSettings, startTimer_userSettings,
    addPendingAction_userSettings]

theorem postActionUndo_userSettings (st : State) (env : Env) (id : String) :
    (postActionUndo st env id).2.userSettings = st.userSettings := by
  unfold postActionUndo
  split
  · rfl
  · split
    · exact clearActionTimer_userSettings st id
    · simp [broadcastToUser_userSettings, removePendingAction_userSettings,
        addLog_userSettings, clearActionTimer_userSettings]

theorem socketUndo_eq (st : State) (env : Env) (id : String) :
    socketUndo st env id = (postActionUndo st env id).2 := by
  unfold socketUndo postActionUndo
  split
  · rfl
  · split <;> rfl

theorem commitAction_eq (st : State) (env : Env) (id : String) (auto : Bool) :
    commitAction st env id auto =
      match getPendingAction st env id with
      | none => (.notFound, st)
      | some action =>
        match executeAction action with
        | none => (.typeError, clearActionTimer st id)
        | some _ => commitActionResume (clearActionTimer st id) env id auto action := by
  unfold commitAction commitActionBegin
  cases getPendingAction st env id with
  | none => rfl
  | some action =>
    simp only
    cases executeAction action <;> rfl

theorem commitActionResume_userSettings (st : State) (env : Env) (id : String) (auto : Bool)
    (a : PendingAction) :
    (commitActionResume st env id auto a).2.userSettings = st.userSettings := by
  simp [commitActionResume, broadcastToUser_userSettings, removePendingAction_userSettings,
    addLog_userSettings]

theorem commitAction_userSettings (st : State) (env : Env) (id : String) (auto : Bool) :
    (commitAction st env id auto).2.userSettings = st.userSettings := by
  rw [commitAction_eq]
  split
  · rfl
  · split
    · exact clearActionTimer_userSettings st id
    · rw [commitActionResume_userSettings, clearActionTimer_userSettings]

theorem timerFire_userSettings (st : State) (env : Env) (h : Nat) :
    (timerFire st env h).2.userSettings = st.userSettings := by
  unfold timerFire
  split
  · rfl
  · rw [commitAction_userSettings]

theorem deleteLogs_userSettings (st : State) (fail : Bool) :
    (deleteLogs st fail).userSettings = st.userSettings := by
  simp [deleteLogs, clearLogs_userSettings]

theorem postSettings_valid (st : State) (g : JSValue) (u : Option String)
    (h : SettingsValid st) : SettingsValid (postSettings st g u).2 := by
  unfold postSettings
  cases u with
  | none => exact h
  | some u =>
    simp only
    split_ifs with hc
    · intro v s hs
      simp only at hs
      by_cases hv : u = v
      · subst hv
        rw [mapGet_mapSet_self] at hs
        cases hs
        exact storedGrace_integral g
      · rw [mapGet_mapSet_other _ _ _ _ hv] at hs
        exact h v s hs
    · exact h

theorem step_settingsValid (st : State) (op : Op) (h : SettingsValid st) :
    SettingsValid (step st op) := by
  cases op with
  | settings g u => exact postSettings_valid st g u h
  | create env body => intro u s; rw [step, postAction_userSettings]; exact h u s
  | intercept env data => intro u s; rw [step, socketIntercept_userSettings]; exact h u s
  | undo env id => intro u s; rw [step, postActionUndo_userSettings]; exact h u s
  | wsUndo env id =>
    intro u s; rw [step, socketUndo_eq, postActionUndo_userSettings]; exact h u s
  | commit env id =>
    intro u s; rw [step, postActionCommit, commitAction_userSettings]; exact h u s
  | wsCommit env id =>
    intro u s; rw [step, socketCommit, commitAction_userSettings]; exact h u s
  | fire env hd => intro u s; rw [step, timerFire_userSettings]; exact h u s
  | clear fail => intro u s; rw [step, deleteLogs_userSettings]; exact h u s

theorem run_settingsValid (ops : List Op) (st : State) (h : SettingsValid st) :
    SettingsValid (run st ops) := by
  induction ops generalizing st with
  | nil => exact h
  | cons op rest ih => exact ih (step st op) (step_settingsValid st op h)

theorem reachable_settingsValid (st : State) (h : Reachable st) : SettingsValid st := by
  obtain ⟨c, ops, rfl⟩ := h
  apply run_settingsValid
  intro u s hs
  simp [State.init, mapGet] at hs

/-- C5. Settings precedence in `POST /api/action`: in every reachable state,
when the owner named in the request has a stored setting, the created action's
grace window is that setting, whatever `graceWindow` the request carries
(absent included). -/
theorem create_uses_stored_setting (st : State) (env : Env) (body : CreateRequest)
    (s : Settings) (hreach : Reachable st)
    (hs : userSettingOf st body.userId = some s) :
    (postAction st env body).1.graceWindow = s.graceWindow := by
  rw [postAction_graceWindow, hs]
  have hv := reachable_settingsValid st hreach
  have hget : ∃ u, mapGet st.userSettings u = some s := by
    unfold userSettingOf at hs
    cases hu : body.userId with
    | none => rw [hu] at hs; simp at hs
    | some u =>
      rw [hu] at hs
      simp only at hs
      split_ifs at hs
      exact ⟨u, hs⟩
  obtain ⟨u, hu⟩ := hget
  obtain ⟨n, hn, h5, h30⟩ := hv u s hu
  simp only
  rw [hn, clampGrace_fin]
  congr 1
  have h5' : (5 : ℚ) ≤ n := by exact_mod_cast h5
  have h30' : (n : ℚ) ≤ 30 := by exact_mod_cast h30
  rw [min_eq_right h30', max_eq_right h5']

/-- Witness for C5: scenario 6, `updateSettings(u1, 20)` and then a create
request with `graceWindow: 5` for `u1`. -/
theorem create_uses_stored_setting_witness :
    Reachable (run (State.init false) [.settings (.num (.fin 20)) (some "u1")]) ∧
    userSettingOf (run (State.init false) [.settings (.num (.fin 20)) (some "u1")]) (some "u1")
      = some { graceWindow := .fin 20 } ∧
    (postAction (run (State.init false) [.settings (.num (.fin 20)) (some "u1")])
      (sampleEnv 0 "3f2a9c1e-77aa") (sampleRequest (.num (.fin 5)) (some "u1"))).1.graceWindow
      = .fin 20 := by
  have hs : userSettingOf (run (State.init false) [.settings (.num (.fin 20)) (some "u1")])
      (some "u1") = some { graceWindow := .fin 20 } := by
    simp [run, step, postSettings, userSettingOf, State.init, mapGet, mapSet, parseInt,
      parseIntFinite, numOr15, JSNum.truthy, mathMax, mathMin, DEFAULT_SETTINGS]
    norm_num
  exact ⟨⟨false, _, rfl⟩, hs,
    create_uses_stored_setting _ (sampleEnv 0 "3f2a9c1e-77aa")
      (sampleRequest (.num (.fin 5)) (some "u1")) _ ⟨false, _, rfl⟩ hs⟩

theorem parseIntFinite_int (k : ℤ) (hk : k ≠ 0) (hlt : |k| < 10 ^ 21) :
    parseIntFinite (k : ℚ) = (k : ℚ) := by
  have habs : |(k : ℚ)| = ((k.natAbs : ℕ) : ℚ) := by
    rw [Nat.cast_natAbs, Int.cast_abs]
  have hk' : (k : ℚ) ≠ 0 := by exact_mod_cast hk
  have h1 : (1 : ℚ) ≤ |(k : ℚ)| := by
    have : (1 : ℤ) ≤ |k| := Int.one_le_abs hk
    exact_mod_cast this
  have h2 : |(k : ℚ)| < (10 : ℚ) ^ 21 := by exact_mod_cast hlt
  unfold parseIntFinite
  simp only
  rw [if_neg hk', if_neg (by linarith), if_pos h2, habs, Nat.floor_natCast, ← habs]
  split_ifs with hneg
  · rw [abs_of_neg hneg]; ring
  · rw [abs_of_nonneg (not_lt.mp hneg)]; ring

/-- C10, as amended. `POST /api/settings` for a non-empty owner id `u` and a
supplied `graceWindow` `g` (any JSON value) answers with, and stores, the
value `min(max(parseInt(g) || 15, 5), 30)`: a whole number `n` with
`5 ≤ n ≤ 30`; `GET /api/settings` for `u` then returns `n`; the entry of every
other owner is untouched; and `n` is the clamp of `g` when `g` is a non-zero
integer of absolute value at most `2^53`, the integers every one of which a
double holds exactly. -/
theorem settings_update_round_trip (st : State) (g : JSValue) (u : String)
    (hu : u ≠ "") (hg : g ≠ .undefined) :
    ∃ n : ℤ, 5 ≤ n ∧ n ≤ 30 ∧
      mathMin (mathMax (numOr15 (parseInt g)) (.fin 5)) (.fin 30) = .fin (n : ℚ) ∧
      (postSettings st g (some u)).1 = some { graceWindow := .fin (n : ℚ) } ∧
      getSettings (postSettings st g (some u)).2 (some u) = { graceWindow := .fin (n : ℚ) } ∧
      (∀ v, v ≠ u →
        mapGet (postSettings st g (some u)).2.userSettings v = mapGet st.userSettings v) ∧
      (∀ k : ℤ, g = .num (.fin (k : ℚ)) → k ≠ 0 → |k| ≤ 2 ^ 53 → n = max 5 (min 30 k)) := by
  obtain ⟨n, hn, h5, h30⟩ := storedGrace_integral g
  have hpost : postSettings st g (some u) =
      (some { graceWindow := .fin (n : ℚ) },
        { st with userSettings := mapSet st.userSettings u { graceWindow := .fin (n : ℚ) } }) := by
    unfold postSettings
    simp only
    rw [if_pos ⟨hu, hg⟩, hn]
  refine ⟨n, h5, h30, hn, ?_, ?_, ?_, ?_⟩
  · rw [hpost]
  · rw [hpost]
    simp [getSettings, userSettingOf, hu, mapGet_mapSet_self]
  · intro v hv
    rw [hpost]
    exact mapGet_mapSet_other _ _ _ _ (Ne.symm hv)
  · intro k hk hk0 hle
    have hlt : |k| < 10 ^ 21 := lt_of_le_of_lt hle (by norm_num)
    have hq : (k : ℚ) ≠ 0 := by exact_mod_cast hk0
    rw [hk] at hn
    simp only [parseInt, parseIntFinite_int k hk0 hlt, numOr15, JSNum.truthy, ne_eq, hq,
      not_false_eq_true, decide_True, if_true] at hn
    have h := clampGrace_fin (k : ℚ)
    simp only [clampGrace, JSValue.toNumber] at h
    rw [h] at hn
    have : ((max 5 (min 30 k) : ℤ) : ℚ) = (n : ℚ) := by
      push_cast
      exact JSNum.fin.inj hn
    exact_mod_cast this.symm

/-- Witness for C10: owner `u1` sets the grace window to the number 20, and 20
is stored. -/
theorem settings_update_round_trip_witness :
    ("u1" ≠ "" ∧ JSValue.num (.fin ((20 : ℤ) : ℚ)) ≠ .undefined) ∧
    (postSettings (State.init false) (.num (.fin ((20 : ℤ) : ℚ))) (some "u1")).1
      = some { graceWindow := .fin ((20 : ℤ) : ℚ) } ∧
    getSettings (postSettings (State.init false) (.num (.fin ((20 : ℤ) : ℚ))) (some "u1")).2
      (some "u1") = { graceWindow := .fin ((20 : ℤ) : ℚ) } := by
  obtain ⟨n, _, _, _, h1, h2, _, h4⟩ :=
    settings_update_round_trip (State.init false) (.num (.fin ((20 : ℤ) : ℚ))) "u1"
      (by decide) (by simp)
  have hn : n = 20 := by
    rw [h4 20 rfl (by norm_num) (by norm_num)]
    norm_num
  subst hn
  exact ⟨⟨by decide, by simp⟩, h1, h2⟩

/-- C10, counterexample. For `graceWindow: 0` the stored and returned value is
15, while the clamp of 0 to `[5, 30]` is 5; and for the empty owner id the
update is refused and nothing is stored. -/
theorem settings_update_zero_is_not_clamped :
    (postSettings (State.init false) (.num (.fin 0)) (some "u1")).1
      = some { graceWindow := .fin 15 } ∧
    clampGrace (.num (.fin 0)) = .fin 5 ∧
    (postSettings (State.init false) (.num (.fin 0)) (some "u1")).1
      ≠ some { graceWindow := clampGrace (.num (.fin 0)) } ∧
    postSettings (State.init false) (.num (.fin 20)) (some "") = (none, State.init false) := by
  have h1 : (postSettings (State.init false) (.num (.fin 0)) (some "u1")).1
      = some { graceWindow := .fin 15 } := by
    simp [postSettings, parseInt, parseIntFinite, numOr15, JSNum.truthy, mathMax, mathMin,
      State.init, mapGet, DEFAULT_SETTINGS]
    norm_num
  have h2 : clampGrace (.num (.fin 0)) = .fin 5 := by
    rw [clampGrace_fin]; norm_num
  refine ⟨h1, h2, ?_, ?_⟩
  · rw [h1, h2]
    simp
  · simp [postSettings]

/-- The text of the double `1e21` is `1e+21`, of which `parseInt` reads `1`. -/
theorem parseIntFinite_exponent_form : parseIntFinite ((10 : ℚ) ^ 21) = 1 := by
  unfold parseIntFinite
  have h : ⌊|(10 : ℚ) ^ 21|⌋₊ = 10 ^ 21 := by
    rw [abs_of_nonneg (by positivity)]
    exact_mod_cast Nat.floor_natCast (10 ^ 21)
  have hl : leadDigitNat 1000000000000000000000 = 1 := by
    unfold leadDigitNat
    norm_num
  simp only [h]
  norm_num [hl]

/-- A grace window that reaches the server as the double `1e21`, as the
number literal `999999999999999999999` does, is stored as 5: the value is the
clamp of `parseInt` of the text, not the clamp of the number. -/
theorem settings_update_of_exponent_form :
    (postSettings (State.init false) (.num (.fin ((10 : ℚ) ^ 21))) (some "u1")).1
      = some { graceWindow := .fin 5 } := by
  have hp : parseInt (.num (.fin ((10 : ℚ) ^ 21))) = .fin 1 := by
    simp only [parseInt, parseIntFinite_exponent_form]
  unfold postSettings
  simp only [hp]
  simp [numOr15, JSNum.truthy, mathMax, mathMin, State.init, mapGet, DEFAULT_SETTINGS]
  norm_num

/-- C9, evaluated. `POST /api/action` with `graceWindow: 'abc'` creates an
action whose grace window is `NaN`, and with `graceWindow: 7.5` one whose grace
window is 7.5; the `intercept` event does the same with `'abc'`. None is a
whole number from 5 to 30. -/
theorem create_grace_window_not_integer_in_bounds :
    (postAction (State.init false) (sampleEnv 0 "3f2a9c1e-77aa")
      (sampleRequest (.str "abc") none)).1.graceWindow = .nan ∧
    (postAction (State.init false) (sampleEnv 0 "3f2a9c1e-77aa")
      (sampleRequest (.num (.fin (15 / 2))) none)).1.graceWindow = .fin (15 / 2) ∧
    mapGet (socketIntercept (State.init false) (sampleEnv 0 "3f2a9c1e-77aa")
      (sampleRequest (.str "abc") none)).memoryPendingActions "3F2A9C1E"
      = some { id := "3F2A9C1E", type := "email", label := "Send mail", metadata := "{}",
               platform := some "Gmail", graceWindow := .nan, userId := none,
               createdAt := 0, status := some "PENDING" } ∧
    ¬ ∃ n : ℤ, ((15 / 2 : ℚ)) = (n : ℚ) := by
  refine ⟨?_, ?_, ?_, ?_⟩
  · rw [postAction_graceWindow]
    decide
  · rw [postAction_graceWindow]
    simp only [userSettingOf, sampleRequest, clampGrace_fin]
    norm_num
  · decide
  · rintro ⟨n, hn⟩
    have h2 : (15 : ℚ) = 2 * (n : ℚ) := by linarith
    have h3 : (15 : ℤ) = 2 * n := by exact_mod_cast h2
    omega

/-! ## Effect of the store operations on the backend in use -/

theorem addPendingAction_connected (st : State) (env : Env) (a : PendingAction) :
    (addPendingAction st env a).2.connected = st.connected := by
  unfold addPendingAction; split_ifs <;> rfl

theorem removePendingAction_connected (st : State) (env : Env) (id : String) :
    (removePendingAction st env id).2.connected = st.connected := by
  unfold removePendingAction; split_ifs <;> rfl

theorem addLog_connected (st : State) (env : Env) (l : LogEntry) :
    (addLog st env l).2.connected = st.connected := by
  unfold addLog; simp only; split_ifs <;> rfl

theorem broadcastToUser_connected (st : State) (u : Option String) (e : String) (d : Payload) :
    (broadcastToUser st u e d).connected = st.connected := by
  unfold broadcastToUser; split_ifs <;> rfl

theorem clearActionTimer_connected (st : State) (id : String) :
    (clearActionTimer st id).connected = st.connected := by
  unfold clearActionTimer; split <;> rfl

theorem broadcastToUser_pendingSet (st : State) (u : Option String) (e : String) (d : Payload) :
    pendingSet (broadcastToUser st u e d) = pendingSet st := by
  unfold broadcastToUser; split_ifs <;> rfl

theorem broadcastToUser_logIds (st : State) (u : Option String) (e : String) (d : Payload) :
    logIds (broadcastToUser st u e d) = logIds st := by
  unfold broadcastToUser; split_ifs <;> rfl

theorem clearActionTimer_pendingSet (st : State) (id : String) :
    pendingSet (clearActionTimer st id) = pendingSet st := by
  unfold clearActionTimer; split <;> rfl

theorem clearActionTimer_logIds (st : State) (id : String) :
    logIds (clearActionTimer st id) = logIds st := by
  unfold clearActionTimer; split <;> rfl

theorem getPendingAction_none (st : State) (env : Env) (id : String)
    (hget : st.connected = true → env.failGet = false) :
    getPendingAction st env id = none ↔ mapGet (pendingSet st) id = none := by
  unfold getPendingAction pendingSet
  cases hc : st.connected with
  | false => simp
  | true =>
    simp [hget hc]
    cases mapGet st.fsPending id <;> simp

theorem getPendingAction_some (st : State) (env : Env) (id : String) (a : PendingAction)
    (hget : st.connected = true → env.failGet = false)
    (h : getPendingAction st env id = some a) :
    ∃ a0, mapGet (pendingSet st) id = some a0 ∧ a.id = a0.id ∧ a.label = a0.label ∧
      a.platform = a0.platform ∧ a.metadata = a0.metadata ∧ a.type = a0.type ∧
      orNull a.userId = orNull a0.userId := by
  unfold getPendingAction at h
  unfold pendingSet
  cases hc : st.connected with
  | false =>
    simp [hc] at h
    exact ⟨a, by simpa using h, rfl, rfl, rfl, rfl, rfl, rfl⟩
  | true =>
    simp [hc, hget hc] at h
    cases hm : mapGet st.fsPending id with
    | none => simp [hm] at h
    | some a0 =>
      simp [hm] at h
      subst h
      refine ⟨a0, by simpa using hm, rfl, rfl, rfl, rfl, rfl, ?_⟩
      simp only [fromDoc, orNull]
      split_ifs <;> simp_all

theorem removePendingAction_pendingSet (st : State) (env : Env) (id : String)
    (hrm : st.connected = true → env.failRemove = false) :
    pendingSet (removePendingAction st env id).2 = mapDelete (pendingSet st) id := by
  unfold removePendingAction pendingSet
  cases hc : st.connected with
  | false => simp
  | true => simp [hrm hc]

theorem removePendingAction_logIds (st : State) (env : Env) (id : String) :
    logIds (removePendingAction st env id).2 = logIds st := by
  unfold removePendingAction logIds
  split_ifs <;> rfl

theorem addLog_pendingSet (st : State) (env : Env) (l : LogEntry) :
    pendingSet (addLog st env l).2 = pendingSet st := by
  unfold addLog pendingSet
  simp only
  split_ifs <;> rfl

/-! ## The resolve handlers, case by case -/

theorem postActionUndo_eq (st : State) (env : Env) (id : String) :
    postActionUndo st env id =
      match getPendingAction st env id with
      | none => (.notFound, st)
      | some action =>
        match cancelAction action with
        | none => (.typeError, clearActionTimer st id)
        | some _ =>
          (.resolved "REVERSED" (addLog (clearActionTimer st id) env
              (logEntryOf action "REVERSED")).1,
            broadcastToUser
              (removePendingAction (addLog (clearActionTimer st id) env
                (logEntryOf action "REVERSED")).2 env id).2
              action.userId "action:resolved"
              (.resolved id "REVERSED" (addLog (clearActionTimer st id) env
                (logEntryOf action "REVERSED")).1 none)) := by
  unfold postActionUndo
  cases getPendingAction st env id with
  | none => rfl
  | some action => rfl

theorem commitActionResume_eq (st : State) (env : Env) (id : String) (auto : Bool)
    (action : PendingAction) :
    commitActionResume st env id auto action =
      (.resolved "COMMITTED" (addLog st env (logEntryOf action "COMMITTED")).1,
        broadcastToUser
          (removePendingAction (addLog st env (logEntryOf action "COMMITTED")).2 env id).2
          action.userId "action:resolved"
          (.resolved id "COMMITTED" (addLog st env (logEntryOf action "COMMITTED")).1
            (some auto))) := rfl

theorem absent_noop (st : State) (env : Env) (id : String)
    (hget : st.connected = true → env.failGet = false)
    (habs : mapGet (pendingSet st) id = none) :
    postActionUndo st env id = (.notFound, st) ∧
    (∀ isAutoCommit, commitAction st env id isAutoCommit = (.notFound, st)) ∧
    postActionCommit st env id = (.notFound, st) ∧
    socketUndo st env id = st ∧
    socketCommit st env id = st := by
  have hnone : getPendingAction st env id = none :=
    (getPendingAction_none st env id hget).mpr habs
  have hundo : postActionUndo st env id = (.notFound, st) := by
    rw [postActionUndo_eq, hnone]
  have hcommit : ∀ isAutoCommit, commitAction st env id isAutoCommit = (.notFound, st) := by
    intro isAutoCommit
    rw [commitAction_eq, hnone]
  refine ⟨hundo, hcommit, hcommit false, ?_, ?_⟩
  · rw [socketUndo_eq, hundo]
  · rw [socketCommit, hcommit]

/-- C3. Resolve on an absent id is a no-op: when `id` is not in the pending set
of the backend in use (and the Firestore read, if one is made, does not throw),
the undo request and `commitAction` answer not-found, and they and the socket
handlers `undo` and `commit` leave the whole state as it was: pending set,
activity log, timer table and the list of emitted events. -/
theorem resolve_absent_is_noop (st : State) (env : Env) (id : String)
    (hget : st.connected = true → env.failGet = false)
    (habs : mapGet (pendingSet st) id = none) :
    postActionUndo st env id = (.notFound, st) ∧
    (∀ isAutoCommit, commitAction st env id isAutoCommit = (.notFound, st)) ∧
    postActionCommit st env id = (.notFound, st) ∧
    socketUndo st env id = st ∧
    socketCommit st env id = st :=
  absent_noop st env id hget habs

/-- Witness for C3: the id `ABCDEF12` on a freshly started server. -/
theorem resolve_absent_is_noop_witness :
    ((State.init false).connected = true → (sampleEnv 0 "").failGet = false) ∧
    mapGet (pendingSet (State.init false)) "ABCDEF12" = none ∧
    postActionUndo (State.init false) (sampleEnv 0 "") "ABCDEF12"
      = (.notFound, State.init false) :=
  ⟨fun _ => rfl, rfl,
    (resolve_absent_is_noop (State.init false) (sampleEnv 0 "") "ABCDEF12"
      (fun _ => rfl) rfl).1⟩

/-! ## Keys and members of maps -/

section
variable {κ : Type} [DecidableEq κ] {α : Type}

theorem mapGet_eq_none_iff (m : List (κ × α)) (k : κ) :
    mapGet m k = none ↔ k ∉ m.map Prod.fst := by
  induction m with
  | nil => simp [mapGet]
  | cons p rest ih =>
    obtain ⟨k0, w⟩ := p
    by_cases h : k0 = k
    · simp [mapGet, h]
    · simp [mapGet, h, ih, Ne.symm h]

theorem mem_of_mapGet (m : List (κ × α)) (k : κ) (v : α) (h : mapGet m k = some v) :
    (k, v) ∈ m := by
  induction m with
  | nil => simp [mapGet] at h
  | cons p rest ih =>
    obtain ⟨k0, w⟩ := p
    by_cases h0 : k0 = k
    · subst h0
      simp [mapGet] at h
      simp [h]
    · simp [mapGet, h0] at h
      exact List.mem_cons_of_mem _ (ih h)

theorem mem_mapSet (m : List (κ × α)) (k : κ) (v : α) (p : κ × α) (h : p ∈ mapSet m k v) :
    p ∈ m ∨ p = (k, v) := by
  induction m with
  | nil => simp [mapSet] at h; exact Or.inr h
  | cons q rest ih =>
    obtain ⟨k0, w⟩ := q
    by_cases h0 : k0 = k
    · subst h0
      simp [mapSet] at h
      rcases h with h | h
      · exact Or.inr h
      · exact Or.inl (List.mem_cons_of_mem _ h)
    · simp [mapSet, h0] at h
      rcases h with h | h
      · exact Or.inl (by simp [h])
      · rcases ih h with h' | h'
        · exact Or.inl (List.mem_cons_of_mem _ h')
        · exact Or.inr h'

theorem mem_mapDelete (m : List (κ × α)) (k : κ) (p : κ × α) :
    p ∈ mapDelete m k ↔ p ∈ m ∧ p.1 ≠ k := by
  simp [mapDelete]

theorem mapSet_keys (m : List (κ × α)) (k : κ) (v : α) :
    (mapSet m k v).map Prod.fst =
      if k ∈ m.map Prod.fst then m.map Prod.fst else m.map Prod.fst ++ [k] := by
  induction m with
  | nil => simp [mapSet]
  | cons q rest ih =>
    obtain ⟨k0, w⟩ := q
    by_cases h0 : k0 = k
    · subst h0
      simp [mapSet]
    · have h1 : ¬ k = k0 := fun h => h0 h.symm
      simp only [mapSet, h0, if_false, List.map_cons, ih, List.mem_cons, h1, false_or]
      split_ifs <;> simp

end

/-! ## Effect of `addLog` on the ids of the activity log -/

theorem unshiftCapped_eq (logs : List LogEntry) (e : LogEntry) :
    unshiftCapped logs e = e :: logs ∨
      (100 ≤ logs.length ∧ unshiftCapped logs e = e :: logs.dropLast) := by
  unfold unshiftCapped
  split_ifs with h
  · right
    have hlen : 100 ≤ logs.length := by simp at h; omega
    refine ⟨hlen, ?_⟩
    have hne : logs ≠ [] := by
      intro h0; rw [h0] at hlen; simp at hlen
    exact List.dropLast_cons_of_ne_nil hne
  · left; rfl

theorem fsLogs_ids_mapSet (m : List ((String × String) × LogDoc)) (u id : String) (d : LogDoc) :
    (mapSet m (u, id) d).map (fun x => x.1.2) =
      if (u, id) ∈ m.map Prod.fst then m.map (fun x => x.1.2)
      else m.map (fun x => x.1.2) ++ [id] := by
  have h : ∀ l : List ((String × String) × LogDoc),
      l.map (fun x => x.1.2) = (l.map Prod.fst).map Prod.snd := by
    intro l; simp [List.map_map]
  rw [h, mapSet_keys, h m]
  split_ifs <;> simp

theorem addLog_logIds (st : State) (env : Env) (l : LogEntry)
    (hlog : st.connected = true → env.failLog = false) :
    (∀ i, (logIds (addLog st env l).2).count i ≤
        (logIds st).count i + (if i = l.id then 1 else 0)) ∧
    l.id ∈ logIds (addLog st env l).2 ∧
    ((logIds st).length < 100 →
      ∀ i, (logIds st).count i ≤ (logIds (addLog st env l).2).count i) := by
  unfold addLog logIds
  cases hc : st.connected with
  | false =>
    simp only [Bool.not_false, if_true, Bool.false_eq_true, if_false]
    rcases unshiftCapped_eq st.memoryActivityLogs { l with timestamp := env.timestamp }
      with h | ⟨hlen, h⟩
    · rw [h]
      refine ⟨?_, by simp, ?_⟩
      · intro i
        simp only [List.map_cons, List.count_cons]
        split_ifs <;> simp_all
      · intro _ i
        simp only [List.map_cons, List.count_cons]
        omega
    · rw [h]
      refine ⟨?_, by simp, ?_⟩
      · intro i
        simp only [List.map_cons, List.count_cons]
        have hsub : (st.memoryActivityLogs.dropLast.map (fun l => l.id)).count i ≤
            (st.memoryActivityLogs.map (fun l => l.id)).count i :=
          ((List.dropLast_sublist _).map _).count_le _
        split_ifs <;> simp_all
      · intro hlt
        simp at hlt
        omega
  | true =>
    simp only [Bool.not_true, Bool.false_eq_true, if_false, hlog hc, Bool.not_false, if_true]
    rw [fsLogs_ids_mapSet]
    split_ifs with hmem
    · refine ⟨fun i => by omega, ?_, fun _ i => le_refl _⟩
      simp only [List.mem_map] at hmem ⊢
      obtain ⟨x, hx, hxk⟩ := hmem
      exact ⟨x, hx, by rw [hxk]⟩
    · refine ⟨?_, by simp, ?_⟩
      · intro i
        rw [List.count_append]
        simp only [List.count_cons, List.count_nil]
        split_ifs <;> simp_all
      · intro _ i
        rw [List.count_append]
        omega

/-! ## Operations keep the log invariant -/

theorem addLog_logIds_mem (st : State) (env : Env) (l : LogEntry) (i : String)
    (hlog : st.connected = true → env.failLog = false)
    (hi : i ∈ logIds (addLog st env l).2) : i = l.id ∨ i ∈ logIds st := by
  by_cases h : i = l.id
  · exact Or.inl h
  · right
    have hc := (addLog_logIds st env l hlog).1 i
    rw [if_neg h] at hc
    have hpos : 0 < (logIds (addLog st env l).2).count i := List.count_pos_iff.mpr hi
    exact List.count_pos_iff.mp (by omega)

theorem addPendingAction_pendingSet (st : State) (env : Env) (a : PendingAction)
    (hadd : st.connected = true → env.failAdd = false) :
    ∃ x : PendingAction, x.id = a.id ∧
      pendingSet (addPendingAction st env a).2 = mapSet (pendingSet st) a.id x := by
  unfold addPendingAction pendingSet
  cases hc : st.connected with
  | false =>
    exact ⟨{ a with createdAt := env.storeNow, status := some "PENDING" }, rfl, by simp⟩
  | true =>
    exact ⟨{ a with userId := orNull a.userId, status := some "PENDING",
                    createdAt := env.storeNow }, rfl, by simp [hadd hc]⟩

theorem addPendingAction_logIds (st : State) (env : Env) (a : PendingAction) :
    logIds (addPendingAction st env a).2 = logIds st := by
  unfold addPendingAction logIds
  split_ifs <;> rfl

theorem startTimer_pendingSet (st : State) (a : PendingAction) :
    pendingSet (startTimer st a) = pendingSet st := rfl

theorem startTimer_logIds (st : State) (a : PendingAction) :
    logIds (startTimer st a) = logIds st := rfl

/-- The common tail of the resolve handlers (log, remove, broadcast) keeps the
invariant and leaves exactly one log entry with the resolved id. -/
theorem resolveTail_inv (st st0 : State) (env : Env) (used : List String) (id : String)
    (l : LogEntry) (u : Option String) (e : String) (d : Payload)
    (hinv : LogInv st used) (hc : st0.connected = st.connected)
    (hp : pendingSet st0 = pendingSet st) (hl : logIds st0 = logIds st)
    (hs : Sound st env) (hid : l.id = id) (hpend : mapGet (pendingSet st) id ≠ none) :
    LogInv (broadcastToUser (removePendingAction (addLog st0 env l).2 env id).2 u e d) used ∧
    (logIds (broadcastToUser (removePendingAction (addLog st0 env l).2 env id).2 u e d)).count id
      = 1 ∧
    pendingSet (broadcastToUser (removePendingAction (addLog st0 env l).2 env id).2 u e d)
      = mapDelete (pendingSet st) id := by
  obtain ⟨h1, h2, h3, h4, h5⟩ := hinv
  have hlog0 : st0.connected = true → env.failLog = false := fun h => (hs (hc ▸ h)).2.2.2.1
  have hrm0 : (addLog st0 env l).2.connected = true → env.failRemove = false := by
    intro h
    rw [addLog_connected] at h
    exact (hs (hc ▸ h)).2.2.1
  have hP : pendingSet (broadcastToUser (removePendingAction (addLog st0 env l).2 env id).2 u e d)
      = mapDelete (pendingSet st) id := by
    rw [broadcastToUser_pendingSet, removePendingAction_pendingSet _ _ _ hrm0,
      addLog_pendingSet, hp]
  have hL : logIds (broadcastToUser (removePendingAction (addLog st0 env l).2 env id).2 u e d)
      = logIds (addLog st0 env l).2 := by
    rw [broadcastToUser_logIds, removePendingAction_logIds]
  obtain ⟨hcount, hmem, _⟩ := addLog_logIds st0 env l hlog0
  have hidlog : id ∉ logIds st := by
    intro hin
    exact hpend (h4 id hin)
  have hcnt1 : (logIds (addLog st0 env l).2).count id = 1 := by
    have hle := hcount id
    rw [hl, List.count_eq_zero_of_not_mem hidlog, hid] at hle
    simp only [if_true] at hle
    have hpos : 0 < (logIds (addLog st0 env l).2).count id :=
      List.count_pos_iff.mpr (hid ▸ hmem)
    omega
  refine ⟨⟨?_, ?_, ?_, ?_, ?_⟩, ?_, hP⟩
  · intro i
    rw [hL]
    by_cases hi : i = id
    · rw [hi, hcnt1]
    · have hle := hcount i
      rw [hl, hid, if_neg hi] at hle
      exact le_trans hle (by simpa using h1 i)
  · intro i hi
    rw [hL] at hi
    rcases addLog_logIds_mem st0 env l i hlog0 hi with h | h
    · rw [h, hid]
      cases hm : mapGet (pendingSet st) id with
      | none => exact absurd hm hpend
      | some a => exact h3 _ (mem_of_mapGet _ _ _ hm)
    · exact h2 i (hl ▸ h)
  · intro p hp'
    rw [hP, mem_mapDelete] at hp'
    exact h3 p hp'.1
  · intro i hi
    rw [hL] at hi
    rw [hP]
    by_cases hieq : i = id
    · rw [hieq]; exact mapGet_mapDelete_self _ _
    · rcases addLog_logIds_mem st0 env l i hlog0 hi with h | h
      · exact absurd (h.trans hid) hieq
      · rw [mapGet_mapDelete_other _ _ _ (Ne.symm hieq)]
        exact h4 i (hl ▸ h)
  · intro p hp'
    rw [hP, mem_mapDelete] at hp'
    exact h5 p hp'.1
  · rw [hL, hcnt1]

theorem logInv_of_eq (st st0 : State) (used : List String) (hinv : LogInv st used)
    (hp : pendingSet st0 = pendingSet st) (hl : logIds st0 = logIds st) : LogInv st0 used := by
  unfold LogInv
  rw [hp, hl]
  exact hinv

theorem found_id (st : State) (env : Env) (used : List String) (id : String)
    (action : PendingAction) (hinv : LogInv st used) (hs : Sound st env)
    (hget : getPendingAction st env id = some action) :
    action.id = id ∧ mapGet (pendingSet st) id ≠ none := by
  obtain ⟨a0, hm, hid, _⟩ :=
    getPendingAction_some st env id action (fun h => (hs h).2.1) hget
  refine ⟨?_, by rw [hm]; simp⟩
  rw [hid]
  exact hinv.2.2.2.2 _ (mem_of_mapGet _ _ _ hm)

theorem postActionUndo_inv (st : State) (env : Env) (used : List String) (id : String)
    (hinv : LogInv st used) (hs : Sound st env) :
    LogInv (postActionUndo st env id).2 used ∧
    (∀ status log, (postActionUndo st env id).1 = .resolved status log →
      (logIds (postActionUndo st env id).2).count id = 1 ∧
      mapGet (pendingSet (postActionUndo st env id).2) id = none) := by
  rw [postActionUndo_eq]
  cases hget : getPendingAction st env id with
  | none => exact ⟨hinv, fun _ _ h => by simp at h⟩
  | some action =>
    simp only
    obtain ⟨hid, hpend⟩ := found_id st env used id action hinv hs hget
    cases cancelAction action with
    | none =>
      exact ⟨logInv_of_eq st _ used hinv (clearActionTimer_pendingSet st id)
        (clearActionTimer_logIds st id), fun _ _ h => by simp at h⟩
    | some r =>
      simp only
      obtain ⟨h1, h2, h3⟩ := resolveTail_inv st (clearActionTimer st id) env used id
        (logEntryOf action "REVERSED") action.userId "action:resolved"
        (.resolved id "REVERSED" (addLog (clearActionTimer st id) env
          (logEntryOf action "REVERSED")).1 none)
        hinv (clearActionTimer_connected st id) (clearActionTimer_pendingSet st id)
        (clearActionTimer_logIds st id) hs hid hpend
      exact ⟨h1, fun _ _ _ => ⟨h2, by rw [h3]; exact mapGet_mapDelete_self _ _⟩⟩

theorem commitAction_inv (st : State) (env : Env) (used : List String) (id : String)
    (auto : Bool) (hinv : LogInv st used) (hs : Sound st env) :
    LogInv (commitAction st env id auto).2 used ∧
    (∀ status log, (commitAction st env id auto).1 = .resolved status log →
      (logIds (commitAction st env id auto).2).count id = 1 ∧
      mapGet (pendingSet (commitAction st env id auto).2) id = none) := by
  rw [commitAction_eq]
  cases hget : getPendingAction st env id with
  | none => exact ⟨hinv, fun _ _ h => by simp at h⟩
  | some action =>
    simp only
    obtain ⟨hid, hpend⟩ := found_id st env used id action hinv hs hget
    cases executeAction action with
    | none =>
      exact ⟨logInv_of_eq st _ used hinv (clearActionTimer_pendingSet st id)
        (clearActionTimer_logIds st id), fun _ _ h => by simp at h⟩
    | some r =>
      simp only
      rw [commitActionResume_eq]
      obtain ⟨h1, h2, h3⟩ := resolveTail_inv st (clearActionTimer st id) env used id
        (logEntryOf action "COMMITTED") action.userId "action:resolved"
        (.resolved id "COMMITTED" (addLog (clearActionTimer st id) env
          (logEntryOf action "COMMITTED")).1 (some auto))
        hinv (clearActionTimer_connected st id) (clearActionTimer_pendingSet st id)
        (clearActionTimer_logIds st id) hs hid hpend
      exact ⟨h1, fun _ _ _ => ⟨h2, by rw [h3]; exact mapGet_mapDelete_self _ _⟩⟩

theorem create_inv (st : State) (env : Env) (used : List String) (a : PendingAction)
    (u : Option String) (e : String) (d : Payload)
    (hinv : LogInv st used) (hs : Sound st env) (hfresh : a.id ∉ used) :
    LogInv (broadcastToUser (startTimer (addPendingAction st env a).2 a) u e d)
      (used ++ [a.id]) := by
  obtain ⟨h1, h2, h3, h4, h5⟩ := hinv
  obtain ⟨x, hx, hP⟩ := addPendingAction_pendingSet st env a (fun h => (hs h).1)
  have hP' : pendingSet (broadcastToUser (startTimer (addPendingAction st env a).2 a) u e d)
      = mapSet (pendingSet st) a.id x := by
    rw [broadcastToUser_pendingSet, startTimer_pendingSet, hP]
  have hL : logIds (broadcastToUser (startTimer (addPendingAction st env a).2 a) u e d)
      = logIds st := by
    rw [broadcastToUser_logIds, startTimer_logIds, addPendingAction_logIds]
  unfold LogInv
  rw [hP', hL]
  refine ⟨h1, ?_, ?_, ?_, ?_⟩
  · intro i hi
    exact List.mem_append_left _ (h2 i hi)
  · intro p hp
    rcases mem_mapSet _ _ _ _ hp with h | h
    · exact List.mem_append_left _ (h3 p h)
    · rw [h]; simp
  · intro i hi
    have hne : a.id ≠ i := fun h => hfresh (h ▸ h2 i hi)
    rw [mapGet_mapSet_other _ _ _ _ hne]
    exact h4 i hi
  · intro p hp
    rcases mem_mapSet _ _ _ _ hp with h | h
    · exact h5 p h
    · rw [h]; exact hx

/-! ## The backend in use never changes -/

theorem postAction_connected (st : State) (env : Env) (body : CreateRequest) :
    (postAction st env body).2.connected = st.connected := by
  simp only [postAction, broadcastToUser_connected]
  exact addPendingAction_connected _ _ _

theorem socketIntercept_connected (st : State) (env : Env) (data : CreateRequest) :
    (socketIntercept st env data).connected = st.connected := by
  simp only [socketIntercept, broadcastToUser_connected]
  exact addPendingAction_connected _ _ _

theorem postActionUndo_connected (st : State) (env : Env) (id : String) :
    (postActionUndo st env id).2.connected = st.connected := by
  rw [postActionUndo_eq]
  split
  · rfl
  · split
    · exact clearActionTimer_connected st id
    · simp only [broadcastToUser_connected, removePendingAction_connected, addLog_connected,
        clearActionTimer_connected]

theorem commitAction_connected (st : State) (env : Env) (id : String) (auto : Bool) :
    (commitAction st env id auto).2.connected = st.connected := by
  rw [commitAction_eq]
  split
  · rfl
  · split
    · exact clearActionTimer_connected st id
    · simp only [commitActionResume_eq, broadcastToUser_connected,
        removePendingAction_connected, addLog_connected, clearActionTimer_connected]

theorem timerFire_connected (st : State) (env : Env) (h : Nat) :
    (timerFire st env h).2.connected = st.connected := by
  unfold timerFire
  split
  · rfl
  · rw [commitAction_connected]

theorem clearLogs_connected (st : State) (fail : Bool) (u : Option String) :
    (clearLogs st fail u).connected = st.connected := by
  unfold clearLogs
  split_ifs <;> try rfl
  cases u with
  | none => rfl
  | some u => simp only; split_ifs <;> rfl

theorem postSettings_connected (st : State) (g : JSValue) (u : Option String) :
    (postSettings st g u).2.connected = st.connected := by
  unfold postSettings
  cases u with
  | none => rfl
  | some u => simp only; split_ifs <;> rfl

theorem step_connected (st : State) (op : Op) : (step st op).connected = st.connected := by
  cases op with
  | create env body => exact postAction_connected st env body
  | intercept env data => exact socketIntercept_connected st env data
  | undo env id => exact postActionUndo_connected st env id
  | wsUndo env id => rw [step, socketUndo_eq]; exact postActionUndo_connected st env id
  | commit env id => exact commitAction_connected st env id false
  | wsCommit env id => exact commitAction_connected st env id false
  | fire env h => exact timerFire_connected st env h
  | settings g u => exact postSettings_connected st g u
  | clear fail => simp [step, deleteLogs, clearLogs_connected]

theorem run_connected (ops : List Op) (st : State) : (run st ops).connected = st.connected := by
  induction ops generalizing st with
  | nil => rfl
  | cons op rest ih =>
    show (run (step st op) rest).connected = st.connected
    rw [ih, step_connected]

/-! ## Runs keep the log invariant -/

theorem postSettings_pendingSet (st : State) (g : JSValue) (u : Option String) :
    pendingSet (postSettings st g u).2 = pendingSet st ∧
    logIds (postSettings st g u).2 = logIds st := by
  unfold postSettings
  cases u with
  | none => exact ⟨rfl, rfl⟩
  | some u => simp only; split_ifs <;> exact ⟨rfl, rfl⟩

theorem deleteLogs_effect (st : State) (fail : Bool) :
    pendingSet (deleteLogs st fail) = pendingSet st ∧
    (logIds (deleteLogs st fail) = logIds st ∨ logIds (deleteLogs st fail) = []) := by
  cases hc : st.connected <;> cases fail <;>
    simp [deleteLogs, clearLogs, pendingSet, logIds, hc, strTruthy]

theorem timerFire_inv (st : State) (env : Env) (used : List String) (h : Nat)
    (hinv : LogInv st used) (hs : Sound st env) :
    LogInv (timerFire st env h).2 used := by
  unfold timerFire
  split
  · exact hinv
  · rename_i t _
    exact (commitAction_inv
      { st with timeouts := st.timeouts.filter (fun t => decide (t.handle ≠ h)) } env used
      t.actionId true (logInv_of_eq st _ used hinv rfl rfl) hs).1

theorem step_inv (st : State) (op : Op) (used : List String) (hinv : LogInv st used)
    (hs : st.connected = true → op.reliable)
    (hfresh : ∀ i, op.createdId = some i → i ∉ used) :
    LogInv (step st op) (used ++ op.createdId.toList) := by
  cases op with
  | create env body =>
    exact create_inv st env used _ _ _ _ hinv hs (hfresh _ rfl)
  | intercept env data =>
    exact create_inv st env used _ _ _ _ hinv hs (hfresh _ rfl)
  | undo env id =>
    simpa [Op.createdId] using (postActionUndo_inv st env used id hinv hs).1
  | wsUndo env id =>
    rw [step, socketUndo_eq]
    simpa [Op.createdId] using (postActionUndo_inv st env used id hinv hs).1
  | commit env id =>
    simpa [Op.createdId] using (commitAction_inv st env used id false hinv hs).1
  | wsCommit env id =>
    simpa [Op.createdId] using (commitAction_inv st env used id false hinv hs).1
  | fire env h =>
    simpa [Op.createdId] using timerFire_inv st env used h hinv hs
  | settings g u =>
    have h := postSettings_pendingSet st g u
    simpa [Op.createdId] using logInv_of_eq st _ used hinv h.1 h.2
  | clear fail =>
    obtain ⟨hp, hl⟩ := deleteLogs_effect st fail
    rcases hl with hl | hl
    · simpa [Op.createdId] using logInv_of_eq st _ used hinv hp hl
    · obtain ⟨_, _, h3, _, h5⟩ := hinv
      simp only [Op.createdId, Option.toList, List.append_nil, step]
      unfold LogInv
      rw [hp, hl]
      exact ⟨by simp, by simp, h3, by simp, h5⟩

theorem run_inv (ops : List Op) (st : State) (used : List String) (hinv : LogInv st used)
    (hs : st.connected = true → ∀ op ∈ ops, op.reliable)
    (hnodup : (createdIds ops).Nodup) (hfresh : ∀ i ∈ createdIds ops, i ∉ used) :
    LogInv (run st ops) (used ++ createdIds ops) := by
  induction ops generalizing st used with
  | nil => simpa [createdIds, run] using hinv
  | cons op rest ih =>
    have hstep := step_inv st op used hinv (fun h => hs h op (List.mem_cons_self _ _))
      (fun i hi => hfresh i (by simp [createdIds, List.filterMap_cons, hi]))
    have hsplit : createdIds (op :: rest) = op.createdId.toList ++ createdIds rest := by
      cases hc : op.createdId <;> simp [createdIds, List.filterMap_cons, hc]
    rw [hsplit] at hnodup hfresh ⊢
    rw [← List.append_assoc]
    show LogInv (run (step st op) rest) _
    apply ih
    · exact hstep
    · intro h op' hop'
      rw [step_connected] at h
      exact hs h op' (List.mem_cons_of_mem _ hop')
    · exact (List.nodup_append.mp hnodup).2.1
    · intro i hi hmem
      rcases List.mem_append.mp hmem with h | h
      · exact hfresh i (List.mem_append_right _ hi) h
      · exact (List.nodup_append.mp hnodup).2.2 h hi

theorem init_inv (connected : Bool) : LogInv (State.init connected) [] := by
  unfold LogInv pendingSet logIds State.init
  cases connected <;> simp

/-! ## Log entries stay until evicted or cleared -/

theorem postActionUndo_logIds (st : State) (env : Env) (id : String) :
    logIds (postActionUndo st env id).2 = logIds st ∨
    ∃ l, logIds (postActionUndo st env id).2 = logIds (addLog (clearActionTimer st id) env l).2 := by
  rw [postActionUndo_eq]
  split
  · exact Or.inl rfl
  · split
    · exact Or.inl (clearActionTimer_logIds st id)
    · exact Or.inr ⟨_, by rw [broadcastToUser_logIds, removePendingAction_logIds]⟩

theorem commitAction_logIds (st : State) (env : Env) (id : String) (auto : Bool) :
    logIds (commitAction st env id auto).2 = logIds st ∨
    ∃ l, logIds (commitAction st env id auto).2
      = logIds (addLog (clearActionTimer st id) env l).2 := by
  rw [commitAction_eq]
  split
  · exact Or.inl rfl
  · split
    · exact Or.inl (clearActionTimer_logIds st id)
    · exact Or.inr ⟨_, by
        rw [commitActionResume_eq, broadcastToUser_logIds, removePendingAction_logIds]⟩

theorem count_mono_of_addLog (st st0 st1 : State) (env : Env) (hs : Sound st env)
    (hc : st0.connected = st.connected) (hl : logIds st0 = logIds st)
    (hlen : (logIds st).length < 100)
    (h : logIds st1 = logIds st ∨ ∃ l, logIds st1 = logIds (addLog st0 env l).2) :
    ∀ i, (logIds st).count i ≤ (logIds st1).count i := by
  intro i
  rcases h with h | ⟨l, h⟩
  · rw [h]
  · rw [h, ← hl]
    exact (addLog_logIds st0 env l (fun h' => (hs (hc ▸ h')).2.2.2.1)).2.2 (hl ▸ hlen) i

theorem step_keeps_log (st : State) (op : Op) (hs : st.connected = true → op.reliable)
    (hclear : ∀ fail, op ≠ .clear fail) (hlen : (logIds st).length < 100) :
    ∀ i, (logIds st).count i ≤ (logIds (step st op)).count i := by
  cases op with
  | create env body =>
    intro i
    simp only [step, postAction, broadcastToUser_logIds, startTimer_logIds,
      addPendingAction_logIds, le_refl]
  | intercept env data =>
    intro i
    simp only [step, socketIntercept, broadcastToUser_logIds, startTimer_logIds,
      addPendingAction_logIds, le_refl]
  | undo env id =>
    exact count_mono_of_addLog st _ _ env hs (clearActionTimer_connected st id)
      (clearActionTimer_logIds st id) hlen (postActionUndo_logIds st env id)
  | wsUndo env id =>
    rw [step, socketUndo_eq]
    exact count_mono_of_addLog st _ _ env hs (clearActionTimer_connected st id)
      (clearActionTimer_logIds st id) hlen (postActionUndo_logIds st env id)
  | commit env id =>
    exact count_mono_of_addLog st _ _ env hs (clearActionTimer_connected st id)
      (clearActionTimer_logIds st id) hlen (commitAction_logIds st env id false)
  | wsCommit env id =>
    exact count_mono_of_addLog st _ _ env hs (clearActionTimer_connected st id)
      (clearActionTimer_logIds st id) hlen (commitAction_logIds st env id false)
  | fire env h =>
    simp only [step, timerFire]
    split
    · exact fun i => le_refl _
    · rename_i t _
      exact count_mono_of_addLog st _ _ env hs
        (clearActionTimer_connected
          { st with timeouts := st.timeouts.filter (fun t => decide (t.handle ≠ h)) } t.actionId)
        (clearActionTimer_logIds
          { st with timeouts := st.timeouts.filter (fun t => decide (t.handle ≠ h)) } t.actionId)
        hlen (commitAction_logIds _ env t.actionId true)
  | settings g u =>
    intro i
    rw [step, (postSettings_pendingSet st g u).2]
  | clear fail => exact absurd rfl (hclear fail)

/-- C8. At most one log entry per id. After any sequence of completed
operations (create and `intercept`, undo and commit over either transport,
timer callbacks, settings updates, log clearing) whose generated ids are
pairwise distinct, run on the in-memory backend or on Firestore with no failing
call:
* no action id occurs twice in the activity log;
* an undo, commit or timer callback that resolves an action leaves exactly one
  log entry with its id;
* an operation other than clearing the log, run while the log holds fewer than
  100 entries, removes no entry. -/
theorem log_has_at_most_one_entry_per_id (connected : Bool) (ops : List Op)
    (hdistinct : (createdIds ops).Nodup)
    (hrel : connected = true → ∀ op ∈ ops, op.reliable) :
    (∀ i, (logIds (run (State.init connected) ops)).count i ≤ 1) ∧
    (∀ env id, Sound (run (State.init connected) ops) env →
      (∀ status log,
        (postActionUndo (run (State.init connected) ops) env id).1 = .resolved status log →
        (logIds (postActionUndo (run (State.init connected) ops) env id).2).count id = 1) ∧
      (∀ auto status log,
        (commitAction (run (State.init connected) ops) env id auto).1 = .resolved status log →
        (logIds (commitAction (run (State.init connected) ops) env id auto).2).count id = 1)) ∧
    (∀ op, (connected = true → op.reliable) → (∀ fail, op ≠ .clear fail) →
      (logIds (run (State.init connected) ops)).length < 100 →
      ∀ i, (logIds (run (State.init connected) ops)).count i ≤
        (logIds (step (run (State.init connected) ops) op)).count i) := by
  have hinv : LogInv (run (State.init connected) ops) ([] ++ createdIds ops) :=
    run_inv ops (State.init connected) [] (init_inv connected) hrel hdistinct
      (fun i _ h => by simp at h)
  refine ⟨hinv.1, ?_, ?_⟩
  · intro env id hs
    exact ⟨fun status log h => ((postActionUndo_inv _ env _ id hinv hs).2 status log h).1,
      fun auto status log h => ((commitAction_inv _ env _ id auto hinv hs).2 status log h).1⟩
  · intro op hop hclear hlen
    exact step_keeps_log _ op (fun h => hop (by rw [run_connected] at h; exact h)) hclear hlen


/-- Witness for C8: a create request followed by the undo of its action. -/
theorem log_has_at_most_one_entry_per_id_witness :
    (createdIds [.create (sampleEnv 0 "3f2a9c1e-77aa") (sampleRequest .undefined (some "u1")),
      .undo (sampleEnv 1 "") "3F2A9C1E"]).Nodup ∧
    ∀ i, (logIds (run (State.init false)
      [.create (sampleEnv 0 "3f2a9c1e-77aa") (sampleRequest .undefined (some "u1")),
        .undo (sampleEnv 1 "") "3F2A9C1E"])).count i ≤ 1 :=
  ⟨by decide,
    (log_has_at_most_one_entry_per_id false
      [.create (sampleEnv 0 "3f2a9c1e-77aa") (sampleRequest .undefined (some "u1")),
        .undo (sampleEnv 1 "") "3F2A9C1E"]
      (by decide) (fun h => by cases h)).1⟩

/-! ## A resolved id stays resolved -/

theorem mapGet_mapDelete_none {α : Type} (m : List (String × α)) (j k : String)
    (h : mapGet m k = none) : mapGet (mapDelete m j) k = none := by
  by_cases hjk : j = k
  · rw [hjk]; exact mapGet_mapDelete_self _ _
  · rw [mapGet_mapDelete_other _ _ _ hjk]; exact h

theorem addPendingAction_absent (st : State) (env : Env) (a : PendingAction) (k : String)
    (hk : a.id ≠ k) (h : mapGet (pendingSet st) k = none) :
    mapGet (pendingSet (addPendingAction st env a).2) k = none := by
  unfold addPendingAction
  unfold pendingSet at h ⊢
  cases hc : st.connected <;> cases hf : env.failAdd <;>
    simp [hc, mapGet_mapSet_other _ _ _ _ hk] at h ⊢ <;> exact h

theorem removePendingAction_absent (st : State) (env : Env) (j k : String)
    (h : mapGet (pendingSet st) k = none) :
    mapGet (pendingSet (removePendingAction st env j).2) k = none := by
  unfold removePendingAction
  unfold pendingSet at h ⊢
  cases hc : st.connected <;> cases hf : env.failRemove <;>
    simp [hc] at h ⊢ <;> first | exact mapGet_mapDelete_none _ _ _ h | exact h

theorem postActionUndo_absent (st : State) (env : Env) (j k : String)
    (h : mapGet (pendingSet st) k = none) :
    mapGet (pendingSet (postActionUndo st env j).2) k = none := by
  rw [postActionUndo_eq]
  split
  · exact h
  · split
    · rw [clearActionTimer_pendingSet]; exact h
    · rw [broadcastToUser_pendingSet]
      apply removePendingAction_absent
      rw [addLog_pendingSet, clearActionTimer_pendingSet]
      exact h

theorem commitAction_absent (st : State) (env : Env) (j k : String) (auto : Bool)
    (h : mapGet (pendingSet st) k = none) :
    mapGet (pendingSet (commitAction st env j auto).2) k = none := by
  rw [commitAction_eq]
  split
  · exact h
  · split
    · rw [clearActionTimer_pendingSet]; exact h
    · rw [commitActionResume_eq, broadcastToUser_pendingSet]
      apply removePendingAction_absent
      rw [addLog_pendingSet, clearActionTimer_pendingSet]
      exact h

theorem step_absent (st : State) (op : Op) (k : String)
    (hk : op.createdId ≠ some k) (h : mapGet (pendingSet st) k = none) :
    mapGet (pendingSet (step st op)) k = none := by
  cases op with
  | create env body =>
    simp only [step, postAction, broadcastToUser_pendingSet, startTimer_pendingSet]
    exact addPendingAction_absent st env _ k (fun h' => hk (by simp [Op.createdId, ← h'])) h
  | intercept env data =>
    simp only [step, socketIntercept, broadcastToUser_pendingSet, startTimer_pendingSet]
    exact addPendingAction_absent st env _ k (fun h' => hk (by simp [Op.createdId, ← h'])) h
  | undo env id => exact postActionUndo_absent st env id k h
  | wsUndo env id => rw [step, socketUndo_eq]; exact postActionUndo_absent st env id k h
  | commit env id => exact commitAction_absent st env id k false h
  | wsCommit env id => exact commitAction_absent st env id k false h
  | fire env hd =>
    simp only [step, timerFire]
    split
    · exact h
    · exact commitAction_absent _ env _ k true h
  | settings g u => rw [step, (postSettings_pendingSet st g u).1]; exact h
  | clear fail => rw [step, (deleteLogs_effect st fail).1]; exact h

theorem createdIds_cons (op : Op) (rest : List Op) :
    createdIds (op :: rest) = op.createdId.toList ++ createdIds rest := by
  cases hc : op.createdId <;> simp [createdIds, List.filterMap_cons, hc]

theorem run_absent (ops : List Op) (st : State) (k : String)
    (hk : k ∉ createdIds ops) (h : mapGet (pendingSet st) k = none) :
    mapGet (pendingSet (run st ops)) k = none := by
  induction ops generalizing st with
  | nil => exact h
  | cons op rest ih =>
    show mapGet (pendingSet (run (step st op) rest)) k = none
    apply ih
    · intro hmem
      exact hk (by rw [createdIds_cons]; exact List.mem_append_right _ hmem)
    · apply step_absent st op k _ h
      intro hc
      exact hk (by rw [createdIds_cons, hc]; simp)

theorem resolved_absent (st st1 : State) (env : Env) (id : String) (status : String)
    (log : LogEntry) (auto : Bool) (hs : Sound st env)
    (hres : postActionUndo st env id = (.resolved status log, st1) ∨
      commitAction st env id auto = (.resolved status log, st1)) :
    mapGet (pendingSet st1) id = none := by
  have hrm : ∀ st0 : State, st0.connected = st.connected →
      mapGet (pendingSet (removePendingAction st0 env id).2) id = none := by
    intro st0 h0
    rw [removePendingAction_pendingSet _ _ _ (fun h => (hs (h0 ▸ h)).2.2.1)]
    exact mapGet_mapDelete_self _ _
  rcases hres with h | h
  · rw [postActionUndo_eq] at h
    split at h
    · simp at h
    · split at h
      · simp at h
      · have h2 := (Prod.mk.inj h).2
        rw [← h2, broadcastToUser_pendingSet]
        exact hrm _ (by rw [addLog_connected, clearActionTimer_connected])
  · rw [commitAction_eq] at h
    split at h
    · simp at h
    · split at h
      · simp at h
      · rw [commitActionResume_eq] at h
        have h2 := (Prod.mk.inj h).2
        rw [← h2, broadcastToUser_pendingSet]
        exact hrm _ (by rw [addLog_connected, clearActionTimer_connected])

/-- Post-resolution calls when no store call of the resolution fails. Let an
undo or a commit of `id` have completed with a status, on the in-memory backend
or with no failing Firestore call. After any further operations that do not
create an action with the same id, an undo or commit of `id` (timer-triggered
or not, over either transport) answers not-found and leaves the state as it
was, so it adds no log entry and emits no event; and a timer callback for `id`
that still fires only consumes its timer. -/
theorem later_resolve_is_not_found (st st1 : State) (env : Env) (id : String)
    (status : String) (log : LogEntry) (auto : Bool) (ops : List Op) (env2 : Env)
    (hs : Sound st env)
    (hres : postActionUndo st env id = (.resolved status log, st1) ∨
      commitAction st env id auto = (.resolved status log, st1))
    (hnew : id ∉ createdIds ops)
    (hget : st.connected = true → env2.failGet = false) :
    postActionUndo (run st1 ops) env2 id = (.notFound, run st1 ops) ∧
    (∀ isAutoCommit, commitAction (run st1 ops) env2 id isAutoCommit
      = (.notFound, run st1 ops)) ∧
    socketUndo (run st1 ops) env2 id = run st1 ops ∧
    socketCommit (run st1 ops) env2 id = run st1 ops ∧
    (∀ handle t, (run st1 ops).timeouts.find? (fun t => decide (t.handle = handle)) = some t →
      t.actionId = id →
      (timerFire (run st1 ops) env2 handle).1 = .notFound ∧
      (timerFire (run st1 ops) env2 handle).2.memoryActivityLogs
        = (run st1 ops).memoryActivityLogs ∧
      (timerFire (run st1 ops) env2 handle).2.fsLogs = (run st1 ops).fsLogs ∧
      (timerFire (run st1 ops) env2 handle).2.emitted = (run st1 ops).emitted) := by
  have hst1 : st1.connected = st.connected := by
    rcases hres with h | h
    · have h2 : st1 = (postActionUndo st env id).2 := by rw [h]
      rw [h2, postActionUndo_connected]
    · have h2 : st1 = (commitAction st env id auto).2 := by rw [h]
      rw [h2, commitAction_connected]
  have habs : mapGet (pendingSet (run st1 ops)) id = none :=
    run_absent ops st1 id hnew (resolved_absent st st1 env id status log auto hs hres)
  have hget2 : (run st1 ops).connected = true → env2.failGet = false := by
    intro h
    rw [run_connected, hst1] at h
    exact hget h
  obtain ⟨h1, h2, _, h4, h5⟩ := absent_noop (run st1 ops) env2 id hget2 habs
  refine ⟨h1, h2, h4, h5, ?_⟩
  intro handle t hfind hid
  have hcommit := (absent_noop
    ({ run st1 ops with
       timeouts := (run st1 ops).timeouts.filter (fun t => decide (t.handle ≠ handle)) } : State)
    env2 id hget2 habs).2.1 true
  simp only [timerFire, hfind, hid]
  rw [hcommit]
  exact ⟨rfl, rfl, rfl, rfl⟩

theorem sample_undo :
    postActionUndo sampleCreated (sampleEnv 1 "") "3F2A9C1E"
      = (.resolved "REVERSED" sampleReversed,
          (postActionUndo sampleCreated (sampleEnv 1 "") "3F2A9C1E").2) := by
  have h : (postActionUndo sampleCreated (sampleEnv 1 "") "3F2A9C1E").1
      = .resolved "REVERSED" sampleReversed := by decide
  exact Prod.ext h rfl

/-- On the in-memory backend the sample action is undone, a settings update
follows, and a second undo is answered not-found. -/
theorem later_resolve_is_not_found_sample :
    Sound sampleCreated (sampleEnv 1 "") ∧
    "3F2A9C1E" ∉ createdIds [.settings (.num (.fin 20)) (some "u1")] ∧
    postActionUndo
      (run (postActionUndo sampleCreated (sampleEnv 1 "") "3F2A9C1E").2
        [.settings (.num (.fin 20)) (some "u1")]) (sampleEnv 2 "") "3F2A9C1E"
      = (.notFound, run (postActionUndo sampleCreated (sampleEnv 1 "") "3F2A9C1E").2
          [.settings (.num (.fin 20)) (some "u1")]) :=
  ⟨(fun h => by cases h), (by decide),
    (later_resolve_is_not_found sampleCreated _ (sampleEnv 1 "") "3F2A9C1E" "REVERSED"
      sampleReversed false [.settings (.num (.fin 20)) (some "u1")] (sampleEnv 2 "")
      (fun h => by cases h) (Or.inl sample_undo) (by decide) (fun _ => rfl)).1⟩

/-- C2, evaluated. On Firestore the sample action is undone while the delete of
its document throws: `removePendingAction` catches the error and deletes from
the in-memory map instead, the handler ignores its result and answers
`REVERSED`, and the document stays in `pendingActions`. A second undo of the
same id, every call succeeding, finds the document and answers `REVERSED`
again with a further `action:resolved` event; a commit would answer
`COMMITTED`. -/
theorem failed_delete_allows_second_resolution :
    (postActionUndo sampleCreatedFirestore (sampleEnvDeleteFails 1) "3F2A9C1E").1
      = .resolved "REVERSED" sampleReversed ∧
    (removePendingAction sampleCreatedFirestore (sampleEnvDeleteFails 1) "3F2A9C1E").1 = false ∧
    mapHas sampleUndoneDeleteFailed.fsPending "3F2A9C1E" = true ∧
    (postActionUndo sampleUndoneDeleteFailed (sampleEnv 2 "") "3F2A9C1E").1
      = .resolved "REVERSED" sampleReversed ∧
    (postActionCommit sampleUndoneDeleteFailed (sampleEnv 2 "") "3F2A9C1E").1
      = .resolved "COMMITTED" sampleCommitted ∧
    sampleUndoneDeleteFailed.emitted.map (fun e => e.event)
      = ["action:intercepted", "action:resolved"] ∧
    (postActionUndo sampleUndoneDeleteFailed (sampleEnv 2 "") "3F2A9C1E").2.emitted.map
      (fun e => e.event) = ["action:intercepted", "action:resolved", "action:resolved"] := by
  refine ⟨?_, ?_, ?_, ?_, ?_, ?_, ?_⟩ <;> decide

/-! ## Concurrent resolution and adapter failures, evaluated -/

/-- C1, evaluated. The sample action `3F2A9C1E` is pending. A commit starts and
waits on the adapter; an undo request then runs to its end and answers
`REVERSED`; the commit goes on and answers `COMMITTED`. Both callers obtain a
status and the activity log holds two entries with the id. -/
theorem overlapping_undo_and_commit_both_resolve :
    commitActionBegin sampleCreated (sampleEnv 1 "") "3F2A9C1E"
      = (.executing sampleAction,
          (commitActionBegin sampleCreated (sampleEnv 1 "") "3F2A9C1E").2) ∧
    (postActionUndo (commitActionBegin sampleCreated (sampleEnv 1 "") "3F2A9C1E").2
      (sampleEnv 2 "") "3F2A9C1E").1 = .resolved "REVERSED" sampleReversed ∧
    (commitActionResume
      (postActionUndo (commitActionBegin sampleCreated (sampleEnv 1 "") "3F2A9C1E").2
        (sampleEnv 2 "") "3F2A9C1E").2
      (sampleEnv 3 "") "3F2A9C1E" false sampleAction).1 = .resolved "COMMITTED" sampleCommitted ∧
    (commitActionResume
      (postActionUndo (commitActionBegin sampleCreated (sampleEnv 1 "") "3F2A9C1E").2
        (sampleEnv 2 "") "3F2A9C1E").2
      (sampleEnv 3 "") "3F2A9C1E" false sampleAction).2.memoryActivityLogs
      = [sampleCommitted, sampleReversed] := by
  refine ⟨Prod.ext ?_ rfl, ?_, ?_, ?_⟩ <;> decide

/-- C6, evaluated. A create request with type `constructor` is accepted, with
platform `Object`. The undo of that pending action throws inside
`cancelAction`: no status is returned and no log entry is appended, and the
action stays pending with its timer cleared. `commitAction` throws likewise. -/
theorem undo_of_inherited_type_throws :
    mapGet sampleInherited.memoryPendingActions "3F2A9C1E"
      = some { id := "3F2A9C1E", type := "constructor", label := "Submit form",
               metadata := "{}", platform := some "Object", graceWindow := .fin 15,
               userId := some "u1", createdAt := 0, status := some "PENDING" } ∧
    (postActionUndo sampleInherited (sampleEnv 1 "") "3F2A9C1E").1 = .typeError ∧
    (postActionUndo sampleInherited (sampleEnv 1 "") "3F2A9C1E").2.memoryActivityLogs = [] ∧
    mapHas (postActionUndo sampleInherited (sampleEnv 1 "") "3F2A9C1E").2.memoryPendingActions
      "3F2A9C1E" = true ∧
    (postActionUndo sampleInherited (sampleEnv 1 "") "3F2A9C1E").2.timeouts = [] ∧
    (commitAction sampleInherited (sampleEnv 1 "") "3F2A9C1E" true).1 = .typeError ∧
    (commitAction sampleInherited (sampleEnv 1 "") "3F2A9C1E" true).2.memoryActivityLogs = [] := by
  refine ⟨?_, ?_, ?_, ?_, ?_, ?_, ?_⟩ <;> decide

/-! ## Stored objects sit under their own id -/

theorem wellFormed_of_eq (st st0 : State) (h : WellFormed st)
    (h1 : st0.memoryPendingActions = st.memoryPendingActions)
    (h2 : st0.fsPending = st.fsPending) (h3 : st0.fsLogs = st.fsLogs) : WellFormed st0 := by
  unfold WellFormed
  rw [h1, h2, h3]
  exact h

theorem addPendingAction_wellFormed (st : State) (env : Env) (a : PendingAction)
    (h : WellFormed st) : WellFormed (addPendingAction st env a).2 := by
  obtain ⟨h1, h2, h3⟩ := h
  unfold addPendingAction
  split_ifs
  · refine ⟨?_, h2, h3⟩
    intro p hp
    rcases mem_mapSet _ _ _ _ hp with hp | hp
    · exact h1 p hp
    · rw [hp]
  · refine ⟨h1, ?_, h3⟩
    intro p hp
    rcases mem_mapSet _ _ _ _ hp with hp | hp
    · exact h2 p hp
    · rw [hp]
  · refine ⟨?_, h2, h3⟩
    intro p hp
    rcases mem_mapSet _ _ _ _ hp with hp | hp
    · exact h1 p hp
    · rw [hp]

theorem removePendingAction_wellFormed (st : State) (env : Env) (id : String)
    (h : WellFormed st) : WellFormed (removePendingAction st env id).2 := by
  obtain ⟨h1, h2, h3⟩ := h
  unfold removePendingAction
  split_ifs
  · exact ⟨fun p hp => h1 p ((mem_mapDelete _ _ _).mp hp).1, h2, h3⟩
  · exact ⟨h1, fun p hp => h2 p ((mem_mapDelete _ _ _).mp hp).1, h3⟩
  · exact ⟨fun p hp => h1 p ((mem_mapDelete _ _ _).mp hp).1, h2, h3⟩

theorem addLog_wellFormed (st : State) (env : Env) (l : LogEntry)
    (h : WellFormed st) : WellFormed (addLog st env l).2 := by
  obtain ⟨h1, h2, h3⟩ := h
  unfold addLog
  simp only
  split_ifs
  · exact ⟨h1, h2, h3⟩
  · refine ⟨h1, h2, ?_⟩
    intro d hd
    rcases mem_mapSet _ _ _ _ hd with hd | hd
    · exact h3 d hd
    · rw [hd]
  · exact ⟨h1, h2, h3⟩

theorem clearLogs_wellFormed (st : State) (fail : Bool) (u : Option String)
    (h : WellFormed st) : WellFormed (clearLogs st fail u) := by
  obtain ⟨h1, h2, h3⟩ := h
  unfold clearLogs
  split_ifs
  · exact ⟨h1, h2, h3⟩
  · exact ⟨h1, h2, h3⟩
  · cases u with
    | none => exact ⟨h1, h2, h3⟩
    | some u =>
      simp only
      split_ifs
      · exact ⟨h1, h2, fun d hd => h3 d (List.mem_filter.mp hd).1⟩
      · exact ⟨h1, h2, h3⟩
  · exact ⟨h1, h2, h3⟩

theorem broadcastToUser_wellFormed (st : State) (u : Option String) (e : String) (d : Payload)
    (h : WellFormed st) : WellFormed (broadcastToUser st u e d) := by
  unfold broadcastToUser; split_ifs <;> exact h

theorem clearActionTimer_wellFormed (st : State) (id : String)
    (h : WellFormed st) : WellFormed (clearActionTimer st id) := by
  unfold clearActionTimer; split <;> exact h

theorem postActionUndo_wellFormed (st : State) (env : Env) (id : String)
    (h : WellFormed st) : WellFormed (postActionUndo st env id).2 := by
  rw [postActionUndo_eq]
  split
  · exact h
  · split
    · exact clearActionTimer_wellFormed st id h
    · exact broadcastToUser_wellFormed _ _ _ _ (removePendingAction_wellFormed _ _ _
        (addLog_wellFormed _ _ _ (clearActionTimer_wellFormed st id h)))

theorem commitAction_wellFormed (st : State) (env : Env) (id : String) (auto : Bool)
    (h : WellFormed st) : WellFormed (commitAction st env id auto).2 := by
  rw [commitAction_eq]
  split
  · exact h
  · split
    · exact clearActionTimer_wellFormed st id h
    · rw [commitActionResume_eq]
      exact broadcastToUser_wellFormed _ _ _ _ (removePendingAction_wellFormed _ _ _
        (addLog_wellFormed _ _ _ (clearActionTimer_wellFormed st id h)))

theorem step_wellFormed (st : State) (op : Op) (h : WellFormed st) :
    WellFormed (step st op) := by
  cases op with
  | create env body =>
    exact broadcastToUser_wellFormed _ _ _ _
      (wellFormed_of_eq _ _ (addPendingAction_wellFormed st env _ h) rfl rfl rfl)
  | intercept env data =>
    exact broadcastToUser_wellFormed _ _ _ _
      (wellFormed_of_eq _ _ (addPendingAction_wellFormed st env _ h) rfl rfl rfl)
  | undo env id => exact postActionUndo_wellFormed st env id h
  | wsUndo env id => rw [step, socketUndo_eq]; exact postActionUndo_wellFormed st env id h
  | commit env id => exact commitAction_wellFormed st env id false h
  | wsCommit env id => exact commitAction_wellFormed st env id false h
  | fire env hd =>
    simp only [step, timerFire]
    split
    · exact h
    · exact commitAction_wellFormed _ env _ true (wellFormed_of_eq st _ h rfl rfl rfl)
  | settings g u =>
    simp only [step, postSettings]
    cases u with
    | none => exact h
    | some u => simp only; split_ifs <;> exact h
  | clear fail =>
    exact wellFormed_of_eq _ _ (clearLogs_wellFormed st fail none h) rfl rfl rfl

theorem reachable_wellFormed (st : State) (h : Reachable st) : WellFormed st := by
  obtain ⟨c, ops, rfl⟩ := h
  have hrun : ∀ (ops : List Op) (s : State), WellFormed s → WellFormed (run s ops) := by
    intro ops
    induction ops with
    | nil => exact fun s hs => hs
    | cons op rest ih => exact fun s hs => ih (step s op) (step_wellFormed s op hs)
  apply hrun
  simp [WellFormed, State.init]

/-! ## Listing after a resolution -/

theorem mapSet_of_not_mem {κ : Type} [DecidableEq κ] {α : Type} (m : List (κ × α)) (k : κ)
    (v : α) (h : k ∉ m.map Prod.fst) : mapSet m k v = m ++ [(k, v)] := by
  induction m with
  | nil => rfl
  | cons q rest ih =>
    obtain ⟨k0, w⟩ := q
    simp only [List.map_cons, List.mem_cons, not_or] at h
    have h0 : ¬ k0 = k := fun h' => h.1 h'.symm
    simp only [mapSet, h0, if_false, List.cons_append, ih h.2]

theorem addLog_fst (st : State) (env : Env) (l : LogEntry) :
    (addLog st env l).1 = { l with timestamp := env.timestamp } := by
  unfold addLog
  simp only
  split_ifs <;> rfl

theorem getAllLogs_congr (st st0 : State) (env : Env) (u : Option String)
    (hc : st0.connected = st.connected) (hm : st0.memoryActivityLogs = st.memoryActivityLogs)
    (hf : st0.fsLogs = st.fsLogs) : getAllLogs st0 env u = getAllLogs st env u := by
  unfold getAllLogs userLogDocs
  rw [hc, hm, hf]

theorem filter_id_eq_nil (logs : List LogEntry) (id : String) (p : LogEntry → Bool)
    (h : id ∉ logs.map (fun l => l.id)) :
    (logs.filter p).filter (fun x => decide (x.id = id)) = [] := by
  rw [List.filter_eq_nil_iff]
  intro x hx hid
  apply h
  simp only [decide_eq_true_eq] at hid
  exact List.mem_map.mpr ⟨x, (List.mem_filter.mp hx).1, hid⟩

theorem insertionSort_append_newest (L : List (String × LogDoc)) (e : String × LogDoc)
    (h : ∀ d ∈ L, d.2.createdAt < e.2.createdAt) :
    (L ++ [e]).insertionSort (laterFirst LogDoc.createdAt)
      = e :: L.insertionSort (laterFirst LogDoc.createdAt) := by
  induction L with
  | nil => rfl
  | cons a rest ih =>
    have hrest : ∀ d ∈ rest, d.2.createdAt < e.2.createdAt :=
      fun d hd => h d (List.mem_cons_of_mem _ hd)
    have ha : a.2.createdAt < e.2.createdAt := h a (List.mem_cons_self _ _)
    have hnot : ¬ laterFirst LogDoc.createdAt a e := by
      unfold laterFirst
      omega
    show List.orderedInsert (laterFirst LogDoc.createdAt) a
        ((rest ++ [e]).insertionSort (laterFirst LogDoc.createdAt)) = _
    rw [ih hrest]
    simp only [List.orderedInsert, hnot, if_false, List.insertionSort]

/-- After `addLog` of an entry with a fresh id for owner `u`, the list
`getAllLogs(u)` holds exactly one entry with that id, and it has the status of
the entry added. -/
theorem getAllLogs_after_addLog (st : State) (env env3 : Env) (l : LogEntry) (u : String)
    (hu : u ≠ "") (hl : l.userId = some u) (hs : Sound st env) (hs3 : Sound st env3)
    (hwf : WellFormed st) (hfresh : l.id ∉ logIds st)
    (hroom : st.connected = true → (userLogDocs st u).length < 100 ∨
      ∀ d ∈ userLogDocs st u, d.2.createdAt < env.storeNow) :
    ∃ e, (getAllLogs (addLog st env l).2 env3 (some u)).filter (fun x => decide (x.id = l.id))
        = [e] ∧ e.status = l.status := by
  unfold logIds at hfresh
  cases hc : st.connected with
  | false =>
    rw [hc] at hfresh
    simp only [Bool.false_eq_true, if_false] at hfresh
    have hget : getAllLogs (addLog st env l).2 env3 (some u) =
        (unshiftCapped st.memoryActivityLogs { l with timestamp := env.timestamp }).filter
          (fun x => decide (x.userId = some u)) := by
      simp [getAllLogs, addLog, hc, strTruthy, hu]
    rw [hget]
    refine ⟨{ l with timestamp := env.timestamp }, ?_, rfl⟩
    rcases unshiftCapped_eq st.memoryActivityLogs { l with timestamp := env.timestamp }
      with h | ⟨_, h⟩
    · rw [h, List.filter_cons_of_pos (by simp [hl]), List.filter_cons_of_pos (by simp),
        filter_id_eq_nil _ _ _ hfresh]
    · rw [h, List.filter_cons_of_pos (by simp [hl]), List.filter_cons_of_pos (by simp),
        filter_id_eq_nil _ _ _ (fun hmem => hfresh
          (((List.dropLast_sublist _).map _).subset hmem))]
  | true =>
    rw [hc] at hfresh
    simp only [if_true] at hfresh
    have hrel := hs hc
    have hrel3 := hs3 hc
    have hkey : (u, l.id) ∉ st.fsLogs.map Prod.fst := by
      intro hmem
      apply hfresh
      obtain ⟨x, hx, hxk⟩ := List.mem_map.mp hmem
      exact List.mem_map.mpr ⟨x, hx, by rw [hxk]⟩
    let doc : LogDoc :=
      { actionId := l.id, label := l.label, platform := l.platform, metaText := l.metaText,
        status := l.status, timestamp := env.timestamp, createdAt := env.storeNow }
    have hfs : (addLog st env l).2.fsLogs = st.fsLogs ++ [((u, l.id), doc)] := by
      have : strOr l.userId "anonymous" = u := by simp [strOr, hl, hu]
      simp only [addLog, hc, hrel.2.2.2.1, this, Bool.not_true, Bool.false_eq_true, if_false,
        Bool.not_false, if_true]
      exact mapSet_of_not_mem _ _ _ hkey
    have hdocs : userLogDocs (addLog st env l).2 u = userLogDocs st u ++ [(l.id, doc)] := by
      unfold userLogDocs
      rw [hfs, List.filter_append, List.map_append]
      simp
    have hconn : (addLog st env l).2.connected = true := by rw [addLog_connected, hc]
    have hget : getAllLogs (addLog st env l).2 env3 (some u) =
        (((userLogDocs (addLog st env l).2 u).insertionSort (laterFirst LogDoc.createdAt)).take
          100).map (fun d => logFromDoc d.2) := by
      simp [getAllLogs, hconn, hrel3.2.2.2.2, hu]
    have hold : ∀ L : List (String × LogDoc), L ⊆ userLogDocs st u →
        (L.map (fun d => logFromDoc d.2)).filter (fun x => decide (x.id = l.id)) = [] := by
      intro L hL
      rw [List.filter_eq_nil_iff]
      intro x hx hid
      simp only [decide_eq_true_eq] at hid
      obtain ⟨d, hd, hdx⟩ := List.mem_map.mp hx
      have hd' := hL hd
      unfold userLogDocs at hd'
      obtain ⟨d0, hd0, hd0d⟩ := List.mem_map.mp hd'
      have hd0mem := (List.mem_filter.mp hd0).1
      apply hfresh
      refine List.mem_map.mpr ⟨d0, hd0mem, ?_⟩
      rw [← hid, ← hdx, ← hd0d]
      exact (hwf.2.2 d0 hd0mem).symm
    rw [hget]
    rcases hroom hc with hlt | hnew
    · have hlen : ((userLogDocs (addLog st env l).2 u).insertionSort
          (laterFirst LogDoc.createdAt)).length ≤ 100 := by
        rw [List.length_insertionSort, hdocs, List.length_append]
        simp only [List.length_singleton]
        omega
      rw [List.take_of_length_le hlen]
      have hperm : List.Perm
          ((((userLogDocs (addLog st env l).2 u).insertionSort
            (laterFirst LogDoc.createdAt)).map (fun d => logFromDoc d.2)).filter
              (fun x => decide (x.id = l.id)))
          (((userLogDocs (addLog st env l).2 u).map (fun d => logFromDoc d.2)).filter
            (fun x => decide (x.id = l.id))) :=
        ((List.perm_insertionSort _ _).map _).filter _
      have hlist : ((userLogDocs (addLog st env l).2 u).map (fun d => logFromDoc d.2)).filter
          (fun x => decide (x.id = l.id)) = [logFromDoc doc] := by
        rw [hdocs, List.map_append, List.filter_append, hold _ (fun _ h => h)]
        simp [logFromDoc, doc]
      rw [hlist] at hperm
      exact ⟨logFromDoc doc, List.perm_singleton.mp hperm, rfl⟩
    · rw [hdocs, insertionSort_append_newest _ _ hnew]
      refine ⟨logFromDoc doc, ?_, rfl⟩
      show (List.map (fun d => logFromDoc d.2)
        (List.take (99 + 1) ((l.id, doc) ::
          (userLogDocs st u).insertionSort (laterFirst LogDoc.createdAt)))).filter
            (fun x => decide (x.id = l.id)) = [logFromDoc doc]
      rw [List.take_succ_cons, List.map_cons, List.filter_cons_of_pos (by simp [logFromDoc, doc]),
        hold _ (fun d hd => (List.perm_insertionSort _ _).subset (List.take_subset _ _ hd))]

theorem addPendingAction_stored (st : State) (env : Env) (a : PendingAction)
    (hadd : st.connected = true → env.failAdd = false) :
    ∃ x : PendingAction, x.id = a.id ∧ orNull x.userId = orNull a.userId ∧ x.type = a.type ∧
      pendingSet (addPendingAction st env a).2 = mapSet (pendingSet st) a.id x := by
  unfold addPendingAction pendingSet
  cases hc : st.connected with
  | false =>
    exact ⟨{ a with createdAt := env.storeNow, status := some "PENDING" }, rfl, rfl, rfl,
      by simp⟩
  | true =>
    refine ⟨{ a with userId := orNull a.userId, status := some "PENDING",
                     createdAt := env.storeNow }, rfl, ?_, rfl, by simp [hadd hc]⟩
    simp only [orNull]
    split_ifs <;> simp_all

theorem wellFormed_pendingSet (st : State) (h : WellFormed st) :
    ∀ q ∈ pendingSet st, q.2.id = q.1 := by
  unfold pendingSet
  split_ifs
  · exact h.2.1
  · exact h.1

theorem getAllPendingActions_mem (st : State) (env : Env) (p : PendingAction)
    (hlist : st.connected = true → env.failList = false)
    (hp : p ∈ getAllPendingActions st env) : ∃ q ∈ pendingSet st, p.id = q.2.id := by
  unfold getAllPendingActions at hp
  unfold pendingSet
  cases hc : st.connected with
  | false =>
    simp only [hc, Bool.not_false, if_true] at hp
    obtain ⟨q, hq, hqp⟩ := List.mem_map.mp hp
    exact ⟨q, by simpa using hq, by rw [← hqp]⟩
  | true =>
    simp only [hc, hlist hc, Bool.not_true, Bool.false_eq_true, if_false, Bool.not_false,
      if_true] at hp
    obtain ⟨q, hq, hqp⟩ := List.mem_map.mp hp
    refine ⟨q, ?_, by rw [← hqp]; rfl⟩
    simpa using (List.perm_insertionSort _ _).subset hq

theorem postAction_logs (st : State) (env : Env) (body : CreateRequest) :
    (postAction st env body).2.memoryActivityLogs = st.memoryActivityLogs ∧
    (postAction st env body).2.fsLogs = st.fsLogs := by
  have h : ∀ a, (addPendingAction st env a).2.memoryActivityLogs = st.memoryActivityLogs ∧
      (addPendingAction st env a).2.fsLogs = st.fsLogs := by
    intro a
    unfold addPendingAction
    split_ifs <;> exact ⟨rfl, rfl⟩
  unfold postAction broadcastToUser
  simp only
  split_ifs <;> exact h _

theorem clearActionTimer_logs (st : State) (id : String) :
    (clearActionTimer st id).memoryActivityLogs = st.memoryActivityLogs ∧
    (clearActionTimer st id).fsLogs = st.fsLogs := by
  unfold clearActionTimer; split <;> exact ⟨rfl, rfl⟩

theorem removePendingAction_logs (st : State) (env : Env) (id : String) :
    (removePendingAction st env id).2.memoryActivityLogs = st.memoryActivityLogs ∧
    (removePendingAction st env id).2.fsLogs = st.fsLogs := by
  unfold removePendingAction; split_ifs <;> exact ⟨rfl, rfl⟩

theorem broadcastToUser_logs (st : State) (u : Option String) (e : String) (d : Payload) :
    (broadcastToUser st u e d).memoryActivityLogs = st.memoryActivityLogs ∧
    (broadcastToUser st u e d).fsLogs = st.fsLogs := by
  unfold broadcastToUser; split_ifs <;> exact ⟨rfl, rfl⟩

theorem logIds_congr (st st0 : State) (hc : st0.connected = st.connected)
    (hm : st0.memoryActivityLogs = st.memoryActivityLogs) (hf : st0.fsLogs = st.fsLogs) :
    logIds st0 = logIds st := by
  unfold logIds
  rw [hc, hm, hf]

/-- C7. Create-then-undo. In a reachable state, on the in-memory backend or
with no failing Firestore call, let a create request for a non-empty owner id
`u` return an action whose id is not yet in the activity log, and let the undo
of that id complete (the adapter call does not throw). Then the undo answers
`REVERSED`, the pending list holds no action with that id, and the log list of
`u` holds exactly one entry with that id, whose status is `REVERSED`. On
Firestore the log query returns the 100 newest documents, so there the owner
is taken to have fewer than 100 log documents or the store's clock to be later
than that of every one of them. -/
theorem create_then_undo (st : State) (env1 env2 env3 : Env) (body : CreateRequest)
    (u : String) (hreach : Reachable st) (hu : body.userId = some u) (hne : u ≠ "")
    (hs1 : Sound st env1) (hs2 : Sound st env2) (hs3 : Sound st env3)
    (hfresh : (postAction st env1 body).1.id ∉ logIds st)
    (hroom : st.connected = true → (userLogDocs st u).length < 100 ∨
      ∀ d ∈ userLogDocs st u, d.2.createdAt < env2.storeNow)
    (hdone : (postActionUndo (postAction st env1 body).2 env2
      (postAction st env1 body).1.id).1 ≠ .typeError) :
    (∃ log, (postActionUndo (postAction st env1 body).2 env2
      (postAction st env1 body).1.id).1 = .resolved "REVERSED" log) ∧
    (∀ p ∈ getPending (postActionUndo (postAction st env1 body).2 env2
        (postAction st env1 body).1.id).2 env3,
      p.id ≠ (postAction st env1 body).1.id) ∧
    (∃ e, (getLogs (postActionUndo (postAction st env1 body).2 env2
        (postAction st env1 body).1.id).2 env3 (some u)).filter
          (fun l => decide (l.id = (postAction st env1 body).1.id)) = [e] ∧
      e.status = "REVERSED") := by
  have hwf := reachable_wellFormed st hreach
  set a := (postAction st env1 body).1 with ha
  set st1 := (postAction st env1 body).2 with hst1
  have hc1 : st1.connected = st.connected := postAction_connected st env1 body
  have hwf1 : WellFormed st1 := step_wellFormed st (.create env1 body) hwf
  have hauser : a.userId = some u := by
    simp [ha, postAction, hu, orNull, strTruthy, hne]
  -- the pending set after the create request
  obtain ⟨x, hxid, hxuser, _, hP⟩ := addPendingAction_stored st env1 a (fun h => (hs1 h).1)
  have hP1 : pendingSet st1 = mapSet (pendingSet st) a.id x := by
    rw [← hP, hst1]
    simp only [postAction, broadcastToUser_pendingSet, startTimer_pendingSet]
    rfl
  have hsound1 : Sound st1 env2 := fun h => hs2 (hc1 ▸ h)
  have hmapget : mapGet (pendingSet st1) a.id = some x := by
    rw [hP1, mapGet_mapSet_self]
  -- the undo finds the action
  cases hget : getPendingAction st1 env2 a.id with
  | none =>
    rw [(getPendingAction_none st1 env2 a.id (fun h => (hsound1 h).2.1)).mp hget] at hmapget
    cases hmapget
  | some action =>
    obtain ⟨a0, hm0, hid0, _, _, _, _, huser0⟩ :=
      getPendingAction_some st1 env2 a.id action (fun h => (hsound1 h).2.1) hget
    rw [hmapget] at hm0
    cases hm0
    have hactid : action.id = a.id := by rw [hid0, hxid]
    have hactuser : orNull action.userId = some u := by
      rw [huser0, hxuser, hauser]
      simp [orNull, strTruthy, hne]
    rw [postActionUndo_eq, hget] at hdone ⊢
    simp only at hdone ⊢
    cases hcancel : cancelAction action with
    | none => simp [hcancel] at hdone
    | some r =>
      simp only
      set st1c := clearActionTimer st1 a.id with hst1c
      set l := logEntryOf action "REVERSED" with hl
      have hcc : st1c.connected = st.connected := by
        rw [hst1c, clearActionTimer_connected, hc1]
      have hlogs_c : st1c.memoryActivityLogs = st.memoryActivityLogs ∧ st1c.fsLogs = st.fsLogs := by
        rw [hst1c]
        exact ⟨(clearActionTimer_logs st1 a.id).1.trans (postAction_logs st env1 body).1,
          (clearActionTimer_logs st1 a.id).2.trans (postAction_logs st env1 body).2⟩
      have hlid : l.id = a.id := hactid
      refine ⟨⟨_, rfl⟩, ?_, ?_⟩
      · intro p hp
        obtain ⟨q, hq, hpq⟩ := getAllPendingActions_mem _ env3 p (fun h => by
          rw [broadcastToUser_connected, removePendingAction_connected, addLog_connected,
            hcc] at h
          exact (hs3 h).2.2.2.2) hp
        have hwf2 : WellFormed (broadcastToUser (removePendingAction (addLog st1c env2 l).2
            env2 a.id).2 action.userId "action:resolved"
            (.resolved a.id "REVERSED" (addLog st1c env2 l).1 none)) :=
          broadcastToUser_wellFormed _ _ _ _ (removePendingAction_wellFormed _ _ _
            (addLog_wellFormed _ _ _ (clearActionTimer_wellFormed st1 a.id hwf1)))
        have hqid := wellFormed_pendingSet _ hwf2 q hq
        rw [broadcastToUser_pendingSet, removePendingAction_pendingSet _ _ _ (fun h => by
          rw [addLog_connected, hcc] at h
          exact (hs2 h).2.2.1), mem_mapDelete] at hq
        rw [hpq, hqid]
        exact hq.2
      · have hcongr : getLogs (broadcastToUser (removePendingAction (addLog st1c env2 l).2
            env2 a.id).2 action.userId "action:resolved"
            (.resolved a.id "REVERSED" (addLog st1c env2 l).1 none)) env3 (some u)
            = getAllLogs (addLog st1c env2 l).2 env3 (some u) := by
          unfold getLogs
          apply getAllLogs_congr
          · rw [broadcastToUser_connected, removePendingAction_connected]
          · rw [(broadcastToUser_logs _ _ _ _).1, (removePendingAction_logs _ _ _).1]
          · rw [(broadcastToUser_logs _ _ _ _).2, (removePendingAction_logs _ _ _).2]
        rw [hcongr, ← hlid]
        have hfresh' : l.id ∉ logIds st1c := by
          rw [hlid, logIds_congr st st1c hcc hlogs_c.1 hlogs_c.2]
          exact hfresh
        have hroom' : st1c.connected = true → (userLogDocs st1c u).length < 100 ∨
            ∀ d ∈ userLogDocs st1c u, d.2.createdAt < env2.storeNow := by
          intro h
          have : userLogDocs st1c u = userLogDocs st u := by
            unfold userLogDocs; rw [hlogs_c.2]
          rw [this]
          exact hroom (hcc ▸ h)
        exact getAllLogs_after_addLog st1c env2 env3 l u hne hactuser
          (fun h => hs2 (hcc ▸ h)) (fun h => hs3 (hcc ▸ h))
          (clearActionTimer_wellFormed st1 a.id hwf1) hfresh' hroom'

/-- Witness for C7: scenario 3 on a freshly started in-memory server. -/
theorem create_then_undo_witness :
    Reachable (State.init false) ∧
    (postAction (State.init false) (sampleEnv 0 "3f2a9c1e-77aa")
      (sampleRequest .undefined (some "u1"))).1.id ∉ logIds (State.init false) ∧
    (postActionUndo (postAction (State.init false) (sampleEnv 0 "3f2a9c1e-77aa")
        (sampleRequest .undefined (some "u1"))).2 (sampleEnv 1 "")
      (postAction (State.init false) (sampleEnv 0 "3f2a9c1e-77aa")
        (sampleRequest .undefined (some "u1"))).1.id).1 ≠ .typeError ∧
    ∃ e, (getLogs (postActionUndo (postAction (State.init false) (sampleEnv 0 "3f2a9c1e-77aa")
        (sampleRequest .undefined (some "u1"))).2 (sampleEnv 1 "")
        (postAction (State.init false) (sampleEnv 0 "3f2a9c1e-77aa")
          (sampleRequest .undefined (some "u1"))).1.id).2 (sampleEnv 2 "") (some "u1")).filter
          (fun l => decide (l.id = (postAction (State.init false) (sampleEnv 0 "3f2a9c1e-77aa")
            (sampleRequest .undefined (some "u1"))).1.id)) = [e] ∧
      e.status = "REVERSED" :=
  ⟨⟨false, [], rfl⟩, (by decide), (by decide),
    (create_then_undo (State.init false) (sampleEnv 0 "3f2a9c1e-77aa") (sampleEnv 1 "")
      (sampleEnv 2 "") (sampleRequest .undefined (some "u1")) "u1" ⟨false, [], rfl⟩ rfl
      (by decide) (fun h => by cases h) (fun h => by cases h) (fun h => by cases h)
      (by decide) (fun h => by cases h) (by decide)).2.2⟩

/-- What the resolve handlers answer when the adapter call returns: the undo
answers `REVERSED` and `commitAction` answers `COMMITTED`, each with the log
entry built from the pending action's id, label, platform, metadata text and
owner id. -/
theorem resolve_entry_when_adapter_returns (st : State) (env : Env) (id : String)
    (action : PendingAction) (hget : getPendingAction st env id = some action) :
    (cancelAction action ≠ none →
      (postActionUndo st env id).1 = .resolved "REVERSED"
        { id := action.id, label := action.label, platform := action.platform,
          metaText := action.metadata, status := "REVERSED",
          userId := orNull action.userId, timestamp := env.timestamp }) ∧
    (executeAction action ≠ none → ∀ auto,
      (commitAction st env id auto).1 = .resolved "COMMITTED"
        { id := action.id, label := action.label, platform := action.platform,
          metaText := action.metadata, status := "COMMITTED",
          userId := orNull action.userId, timestamp := env.timestamp }) := by
  constructor
  · intro hc
    rw [postActionUndo_eq, hget]
    simp only
    cases hcancel : cancelAction action with
    | none => exact absurd hcancel hc
    | some r => simp only [addLog_fst, logEntryOf]
  · intro hc auto
    rw [commitAction_eq, hget]
    simp only
    cases hexec : executeAction action with
    | none => exact absurd hexec hc
    | some r => simp only [commitActionResume_eq, addLog_fst, logEntryOf]

/-! ## Settings validation -/

/-- C11. Settings validation: `POST /api/settings` with no owner id (absent,
`null` or the empty string) answers 400 with `success: false` and
`'UserId required'`, whatever `graceWindow` it carries, and leaves the state,
the settings map included, as it was. -/
theorem settings_update_without_owner_is_rejected (st : State) (graceWindow : JSValue)
    (userId : Option String) (hno : strTruthy userId = false) :
    postSettings st graceWindow userId = (none, st) ∧
    (postSettings st graceWindow userId).2.userSettings = st.userSettings ∧
    ∀ v, getSettings (postSettings st graceWindow userId).2 v = getSettings st v := by
  have h : postSettings st graceWindow userId = (none, st) := by
    unfold postSettings
    cases userId with
    | none => rfl
    | some u =>
      have hu : u = "" := by simpa [strTruthy] using hno
      simp [hu]
  rw [h]
  exact ⟨rfl, rfl, fun _ => rfl⟩

/-- Witness for C11: an update with `graceWindow: 20` and no `userId`, after
owner `u1` has stored a setting. -/
theorem settings_update_without_owner_is_rejected_witness :
    strTruthy none = false ∧
    postSettings (run (State.init false) [.settings (.num (.fin 20)) (some "u1")])
      (.num (.fin 10)) none
      = (none, run (State.init false) [.settings (.num (.fin 20)) (some "u1")]) :=
  ⟨rfl, (settings_update_without_owner_is_rejected
    (run (State.init false) [.settings (.num (.fin 20)) (some "u1")])
    (.num (.fin 10)) none rfl).1⟩

/-! ## Adapter registry -/

theorem toLower_toLower (c : Char) : c.toLower.toLower = c.toLower := by
  by_cases h : c.toNat ≥ 65 ∧ c.toNat ≤ 90
  · have h1 : c.toLower = Char.ofNat (c.toNat + 32) := by
      simp only [Char.toLower, h, and_self, if_true]
    rw [h1]
    obtain ⟨ha, hb⟩ := h
    generalize c.toNat = n at ha hb
    interval_cases n <;> decide
  · have h1 : c.toLower = c := by
      simp only [Char.toLower, h, if_false]
    rw [h1, h1]

theorem toLowerCase_idem (s : String) : toLowerCase (toLowerCase s) = toLowerCase s := by
  unfold toLowerCase
  simp only [List.map_map]
  congr 1
  apply List.map_congr_left
  intro c _
  exact toLower_toLower c

/-- C20. Registry lookup is by lower-cased category: `getAdapter(c)` equals
`getAdapter` of the lower-cased `c` for every string `c`; the nine registered
keys give: `email`, `gmail` the e-mail adapter; `file`, `delete` the file
adapter; `git`, `github`, `push` the git adapter; `form`, `submit` the form
adapter; and a category written in upper or mixed case is looked up under
its lower-case form: every string that spells a registered key in whatever
letter case gives the adapter of that key, so `GMAIL` and `Email` give the
e-mail adapter, `FILE` and `Delete` the file adapter, `Git`, `GitHub` and
`PUSH` the git adapter, none of them the default. -/
theorem getAdapter_by_lowercased_category :
    (∀ c : String, getAdapter (some c) = getAdapter (some (toLowerCase c))) ∧
    getAdapter (some "email") = .emailAdapter ∧ getAdapter (some "gmail") = .emailAdapter ∧
    getAdapter (some "file") = .fileAdapter ∧ getAdapter (some "delete") = .fileAdapter ∧
    getAdapter (some "git") = .gitAdapter ∧ getAdapter (some "github") = .gitAdapter ∧
    getAdapter (some "push") = .gitAdapter ∧
    getAdapter (some "form") = .formAdapter ∧ getAdapter (some "submit") = .formAdapter ∧
    (∀ c k : String,
      k ∈ ["email", "gmail", "file", "delete", "git", "github", "push", "form", "submit"] →
      c.data.map Char.toLower = k.data → getAdapter (some c) = getAdapter (some k)) ∧
    toLowerCase "GitHub" = "github" ∧ toLowerCase "GMAIL" = "gmail" ∧
    getAdapter (some "GMAIL") = .emailAdapter ∧ getAdapter (some "Email") = .emailAdapter ∧
    getAdapter (some "FILE") = .fileAdapter ∧ getAdapter (some "Delete") = .fileAdapter ∧
    getAdapter (some "Git") = .gitAdapter ∧ getAdapter (some "GitHub") = .gitAdapter ∧
    getAdapter (some "PUSH") = .gitAdapter ∧
    getAdapter (some "Form") = .formAdapter ∧ getAdapter (some "SUBMIT") = .formAdapter ∧
    getAdapter (some "GMAIL") ≠ getAdapter (some "unregistered") := by
  have hlow : ∀ c : String, getAdapter (some c) = getAdapter (some (toLowerCase c)) := by
    intro c
    simp only [getAdapter, toLowerCase_idem]
  refine ⟨hlow, by decide, by decide, by decide, by decide, by decide, by decide, by decide,
    by decide, by decide, ?_, by decide, by decide, by decide, by decide, by decide, by decide,
    by decide, by decide, by decide, by decide, by decide, by decide⟩
  intro c k _ hck
  have h : toLowerCase c = k := by
    unfold toLowerCase
    rw [hck]
  rw [hlow c, h]

/-- Witness for C20: `GitHub` spells the key `github` and gives the git
adapter. -/
theorem getAdapter_by_lowercased_category_witness :
    "github" ∈ ["email", "gmail", "file", "delete", "git", "github", "push", "form", "submit"] ∧
    "GitHub".data.map Char.toLower = "github".data ∧
    getAdapter (some "GitHub") = getAdapter (some "github") ∧
    getAdapter (some "github") = .gitAdapter :=
  ⟨by decide, by decide,
    getAdapter_by_lowercased_category.2.2.2.2.2.2.2.2.2.2.1 "GitHub" "github" (by decide)
      (by decide),
    by decide⟩

/-- The lookup `adapters[type]` finds nothing for a name that is none of the
nine registered keys nor one of the two lower-case property names the object
inherits. -/
theorem adapters_eq_none (t : String)
    (h : t ∉ ["email", "gmail", "file", "delete", "git", "github", "push", "form", "submit",
        "constructor", "__proto__"]) : adapters t = none := by
  simp only [List.mem_cons, List.mem_singleton, List.not_mem_nil, or_false, not_or] at h
  obtain ⟨h1, h2, h3, h4, h5, h6, h7, h8, h9, h10, h11⟩ := h
  unfold adapters
  rw [if_neg h1, if_neg h2, if_neg h3, if_neg h4, if_neg h5, if_neg h6, if_neg h7, if_neg h8,
    if_neg h9, if_neg h10, if_neg h11]

/-- C19, evaluated. The category `constructor` is none of the nine registered
keys, yet `getAdapter` does not return the form adapter for it: the lookup
finds the inherited `Object` function, whose name is `Object` and which has
neither `cancel` nor `execute`. The same holds for `__proto__`, whose name is
`undefined`, and for upper-case spellings. -/
theorem getAdapter_inherited_name_is_not_form :
    "constructor" ∉ ["email", "gmail", "file", "delete", "git", "github", "push", "form",
      "submit"] ∧
    getAdapter (some "constructor") = .objectConstructor ∧
    getAdapterName (some "constructor") = some "Object" ∧
    (getAdapter (some "constructor")).cancel = none ∧
    getAdapter (some "__proto__") = .objectPrototype ∧
    getAdapterName (some "__proto__") = none ∧
    getAdapter (some "Constructor") = .objectConstructor ∧
    getAdapter (some "constructor") ≠ .formAdapter := by
  refine ⟨?_, ?_, ?_, ?_, ?_, ?_, ?_, ?_⟩ <;> decide

/-- The default of the registry where it does apply: an absent category, and
every string whose lower-case form is none of the nine keys nor `constructor`
nor `__proto__`, gives the form adapter, named `WebForm`. -/
theorem getAdapter_default (c : Option String)
    (h : ∀ s, c = some s →
      toLowerCase s ∉ ["email", "gmail", "file", "delete", "git", "github", "push", "form",
        "submit", "constructor", "__proto__"]) :
    getAdapter c = .formAdapter ∧ getAdapterName c = some "WebForm" := by
  have hg : getAdapter c = .formAdapter := by
    cases c with
    | none => decide
    | some s =>
      have hs := adapters_eq_none (toLowerCase s) (h s rfl)
      unfold getAdapter
      simp only
      split_ifs with hne
      · rw [hs]
      · decide
  exact ⟨hg, by rw [getAdapterName, hg]; rfl⟩

/-! ## Clearing the log -/

theorem spliceOwned_eq (userId : Option String) (n : Nat) (logs : List LogEntry)
    (hn : n ≤ logs.length) :
    spliceOwned userId n logs =
      (logs.take n).filter (fun l => !decide (l.userId = userId)) ++ logs.drop n := by
  induction n generalizing logs with
  | zero => simp [spliceOwned]
  | succ i ih =>
    have hi : i < logs.length := hn
    have hget : logs[i]? = some logs[i] := List.getElem?_eq_getElem hi
    have htake : logs.take (i + 1) = logs.take i ++ [logs[i]] := by
      rw [List.take_succ, hget]; rfl
    have hdrop : logs.drop i = logs[i] :: logs.drop (i + 1) := List.drop_eq_getElem_cons hi
    unfold spliceOwned
    rw [hget]
    simp only
    split_ifs with hu
    · have hlen : i ≤ (logs.eraseIdx i).length := by
        rw [List.length_eraseIdx]; simp only [hi, if_true]; omega
      rw [ih _ hlen, List.eraseIdx_eq_take_drop_succ, htake, List.filter_append]
      have h1 : (logs.take i ++ logs.drop (i + 1)).take i = logs.take i := by
        apply List.take_left'
        simp only [List.length_take]; omega
      have h2 : (logs.take i ++ logs.drop (i + 1)).drop i = logs.drop (i + 1) := by
        apply List.drop_left'
        simp only [List.length_take]; omega
      rw [h1, h2]
      simp [hu]
    · rw [ih _ (Nat.le_of_lt hi), htake, List.filter_append, hdrop]
      simp [hu]

theorem spliceOwned_eq_filter (userId : Option String) (logs : List LogEntry) :
    spliceOwned userId logs.length logs =
      logs.filter (fun l => !decide (l.userId = userId)) := by
  rw [spliceOwned_eq userId logs.length logs (le_refl _)]
  simp

/-! ## Listing the log -/

/-- C12, evaluated. On the in-memory backend, with one log entry of owner `u1`
and one of owner `u2`, the log list for an absent owner id is not empty: it
holds both entries. -/
theorem logs_without_owner_lists_everything :
    sampleTwoOwners.connected = false ∧
    getLogs sampleTwoOwners (sampleEnv 4 "") none = [sampleCommittedU2, sampleReversed] ∧
    getAllLogs sampleTwoOwners (sampleEnv 4 "") none ≠ [] := by
  refine ⟨?_, ?_, ?_⟩ <;> decide

/-- On Firestore the log list for an absent owner id is empty. -/
theorem getAllLogs_firestore_no_owner (st : State) (env : Env) (hc : st.connected = true) :
    getAllLogs st env none = [] := by
  unfold getAllLogs
  simp only [hc, Bool.not_true, Bool.false_eq_true, if_false]
  split_ifs <;> rfl

/-- C13. Log scoping, for a non-empty owner id `u`. On the in-memory backend
`getAllLogs(u)` returns entries of the log whose owner id is `u`, and every
entry of the log with owner id `u` is returned. On Firestore, with no failing
call, every entry returned is built from a document of `users/u/logs`, and
every document of that collection is returned when there are at most 100, the
limit of the query. -/
theorem logs_are_scoped_to_owner (st : State) (env : Env) (u : String) (hu : u ≠ "")
    (hs : Sound st env) :
    (st.connected = false →
      (∀ e ∈ getAllLogs st env (some u), e.userId = some u ∧ e ∈ st.memoryActivityLogs) ∧
      (∀ e ∈ st.memoryActivityLogs, e.userId = some u → e ∈ getAllLogs st env (some u))) ∧
    (st.connected = true →
      (∀ e ∈ getAllLogs st env (some u),
        ∃ d ∈ st.fsLogs, d.1.1 = u ∧ e = logFromDoc d.2) ∧
      ((userLogDocs st u).length ≤ 100 →
        ∀ d ∈ st.fsLogs, d.1.1 = u → logFromDoc d.2 ∈ getAllLogs st env (some u))) := by
  constructor
  · intro hc
    have hget : getAllLogs st env (some u) =
        st.memoryActivityLogs.filter (fun l => decide (l.userId = some u)) := by
      simp [getAllLogs, hc, strTruthy, hu]
    rw [hget]
    constructor
    · intro e he
      have h := List.mem_filter.mp he
      exact ⟨by simpa using h.2, h.1⟩
    · intro e he heu
      exact List.mem_filter.mpr ⟨he, by simpa using heu⟩
  · intro hc
    have hget : getAllLogs st env (some u) =
        (((userLogDocs st u).insertionSort (laterFirst LogDoc.createdAt)).take 100).map
          (fun d => logFromDoc d.2) := by
      simp [getAllLogs, hc, (hs hc).2.2.2.2, hu]
    rw [hget]
    constructor
    · intro e he
      obtain ⟨d, hd, hde⟩ := List.mem_map.mp he
      have hd' : d ∈ userLogDocs st u :=
        (List.perm_insertionSort _ _).subset (List.take_subset _ _ hd)
      unfold userLogDocs at hd'
      obtain ⟨d0, hd0, hd0d⟩ := List.mem_map.mp hd'
      have hf := List.mem_filter.mp hd0
      exact ⟨d0, hf.1, by simpa using hf.2, by rw [← hde, ← hd0d]⟩
    · intro hlen d hd hdu
      have hlen' : ((userLogDocs st u).insertionSort (laterFirst LogDoc.createdAt)).length
          ≤ 100 := by
        rw [List.length_insertionSort]; exact hlen
      rw [List.take_of_length_le hlen']
      apply List.mem_map.mpr
      refine ⟨(d.1.2, d.2), ?_, rfl⟩
      apply (List.perm_insertionSort _ _).symm.subset
      unfold userLogDocs
      exact List.mem_map.mpr ⟨d, List.mem_filter.mpr ⟨hd, by simpa using hdu⟩, rfl⟩

/-- Witness for C13: the log list of owner `u1` in `sampleTwoOwners`. -/
theorem logs_are_scoped_to_owner_witness :
    "u1" ≠ "" ∧ Sound sampleTwoOwners (sampleEnv 4 "") ∧
    (∀ e ∈ getAllLogs sampleTwoOwners (sampleEnv 4 "") (some "u1"),
      e.userId = some "u1" ∧ e ∈ sampleTwoOwners.memoryActivityLogs) :=
  ⟨(by decide), (fun h => by cases h),
    ((logs_are_scoped_to_owner sampleTwoOwners (sampleEnv 4 "") "u1" (by decide)
      (fun h => by cases h)).1 (by decide)).1⟩

/-! ## Statistics -/

/-- C16, evaluated. On the in-memory backend, with one pending action owned by
`u1` and none owned by `u2`, `getStats('u2')` reports `pendingCount: 1`: the
count is the size of the whole pending map. With no pending action at all the
same request reports 0, so the value depends on another owner's action. -/
theorem stats_pending_count_is_global :
    sampleCreated.connected = false ∧
    (getPending sampleCreated (sampleEnv 1 "")).filter
      (fun p => decide (p.userId = some "u2")) = [] ∧
    getApiStats sampleCreated (sampleEnv 1 "") (some "u2")
      = { totalActions := 0, mistakesPrevented := 0, actionsCommitted := 0,
          pendingCount := 1 } ∧
    getApiStats (State.init false) (sampleEnv 1 "") (some "u2")
      = { totalActions := 0, mistakesPrevented := 0, actionsCommitted := 0,
          pendingCount := 0 } := by
  refine ⟨?_, ?_, ?_, ?_⟩ <;> decide

/-- What `getStats(u)` does compute, for a non-empty owner id `u`: the three
log counts are taken over the entries of `u` on both backends, and on
Firestore (no failing call) the pending count is the number of pending
documents whose `userId` is `u`. -/
theorem getStats_by_owner (st : State) (env : Env) (u : String) (hu : u ≠ "")
    (hs : Sound st env) :
    (st.connected = false →
      (getStats st env (some u)).totalActions = (getAllLogs st env (some u)).length ∧
      (getStats st env (some u)).mistakesPrevented =
        ((getAllLogs st env (some u)).filter (fun l => decide (l.status = "REVERSED"))).length ∧
      (getStats st env (some u)).actionsCommitted =
        ((getAllLogs st env (some u)).filter (fun l => decide (l.status = "COMMITTED"))).length ∧
      (getStats st env (some u)).pendingCount = st.memoryPendingActions.length) ∧
    (st.connected = true →
      (getStats st env (some u)).totalActions = (userLogDocs st u).length ∧
      (getStats st env (some u)).mistakesPrevented =
        ((userLogDocs st u).filter (fun d => decide (d.2.status = "REVERSED"))).length ∧
      (getStats st env (some u)).actionsCommitted =
        ((userLogDocs st u).filter (fun d => decide (d.2.status = "COMMITTED"))).length ∧
      (getStats st env (some u)).pendingCount =
        (st.fsPending.filter (fun d => decide (d.2.userId = some u))).length) := by
  constructor
  · intro hc
    simp [getStats, getAllLogs, hc, strTruthy, hu]
  · intro hc
    simp [getStats, hc, (hs hc).2.2.2.2, hu]

/-! ## Clearing the log -/

/-- C17. Store `clearLogs` is owner-scoped, for a non-empty owner id `u`, on the
in-memory backend and on Firestore when the call does not fail. Afterwards no
log entry has owner id `u`; the entries of the others are those present
before, in the same order (the log is the old one with the entries of `u`
taken out); and nothing else in the state changes. -/
theorem clearLogs_is_owner_scoped (st : State) (fail : Bool) (u : String) (hu : u ≠ "")
    (hf : st.connected = true → fail = false) :
    (st.connected = false →
      clearLogs st fail (some u) =
        { st with memoryActivityLogs :=
            st.memoryActivityLogs.filter (fun l => !decide (l.userId = some u)) } ∧
      (∀ e ∈ (clearLogs st fail (some u)).memoryActivityLogs, e.userId ≠ some u) ∧
      (∀ v : Option String, v ≠ some u →
        (clearLogs st fail (some u)).memoryActivityLogs.filter (fun l => decide (l.userId = v))
          = st.memoryActivityLogs.filter (fun l => decide (l.userId = v)))) ∧
    (st.connected = true →
      clearLogs st fail (some u) =
        { st with fsLogs := st.fsLogs.filter (fun d => !decide (d.1.1 = u)) } ∧
      userLogDocs (clearLogs st fail (some u)) u = [] ∧
      (∀ v, v ≠ u → userLogDocs (clearLogs st fail (some u)) v = userLogDocs st v)) := by
  constructor
  · intro hc
    have hclear : clearLogs st fail (some u) =
        { st with memoryActivityLogs :=
            st.memoryActivityLogs.filter (fun l => !decide (l.userId = some u)) } := by
      simp [clearLogs, hc, strTruthy, hu, spliceOwned_eq_filter]
    rw [hclear]
    refine ⟨rfl, ?_, ?_⟩
    · intro e he
      have h := (List.mem_filter.mp he).2
      simpa using h
    · intro v hv
      simp only [List.filter_filter]
      apply List.filter_congr
      intro e _
      by_cases hev : e.userId = v
      · have : e.userId ≠ some u := fun h => hv (hev ▸ h)
        simp [hev, this, hv]
      · simp [hev]
  · intro hc
    have hclear : clearLogs st fail (some u) =
        { st with fsLogs := st.fsLogs.filter (fun d => !decide (d.1.1 = u)) } := by
      simp [clearLogs, hc, hf hc, hu]
    rw [hclear]
    refine ⟨rfl, ?_, ?_⟩
    · simp only [userLogDocs, List.filter_filter]
      rw [List.map_eq_nil_iff, List.filter_eq_nil_iff]
      intro d _
      simp
    · intro v hv
      simp only [userLogDocs, List.filter_filter]
      congr 1
      apply List.filter_congr
      intro d _
      by_cases hdv : d.1.1 = v
      · have : d.1.1 ≠ u := fun h => hv (hdv ▸ h)
        simp [hdv, this, hv]
      · simp [hdv]

/-- Witness for C17: `clearLogs('u1')` on `sampleTwoOwners` leaves the entry of
`u2`. -/
theorem clearLogs_is_owner_scoped_witness :
    "u1" ≠ "" ∧ (sampleTwoOwners.connected = true → false = false) ∧
    (clearLogs sampleTwoOwners false (some "u1")).memoryActivityLogs = [sampleCommittedU2] ∧
    (∀ e ∈ (clearLogs sampleTwoOwners false (some "u1")).memoryActivityLogs,
      e.userId ≠ some "u1") :=
  ⟨(by decide), (fun _ => rfl), (by decide),
    ((clearLogs_is_owner_scoped sampleTwoOwners false "u1" (by decide) (fun _ => rfl)).1
      (by decide)).2.1⟩

/-- C18, evaluated. The handler of `DELETE /api/logs` reads no owner id from
the request. On the in-memory backend, with one log entry of `u1` and one of
`u2`, a Clear logs request empties the whole log, the entry of the other owner
included, and emits `logs:cleared` to every socket. On Firestore the same
request deletes nothing. -/
theorem delete_logs_is_not_owner_scoped :
    sampleTwoOwners.memoryActivityLogs = [sampleCommittedU2, sampleReversed] ∧
    (deleteLogs sampleTwoOwners false).memoryActivityLogs = [] ∧
    (deleteLogs sampleTwoOwners false).emitted.getLast?
      = some { room := none, event := "logs:cleared", data := .empty } ∧
    (run (State.init true) sampleTwoOwnersOps).fsLogs.map (fun d => d.1)
      = [("u1", "3F2A9C1E"), ("u2", "B81D04C7")] ∧
    (deleteLogs (run (State.init true) sampleTwoOwnersOps) false).fsLogs
      = (run (State.init true) sampleTwoOwnersOps).fsLogs := by
  refine ⟨?_, ?_, ?_, ?_, ?_⟩ <;> decide

/-! ## Order and cap of the log -/

theorem unshiftCapped_eq_take (logs : List LogEntry) (e : LogEntry) (h : logs.length ≤ 100) :
    unshiftCapped logs e = (e :: logs).take 100 := by
  unfold unshiftCapped
  split_ifs with hlen
  · rw [List.dropLast_eq_take]
    simp only [List.length_cons] at hlen ⊢
    have : logs.length + 1 - 1 = 100 := by omega
    rw [this]
  · simp only [List.length_cons] at hlen
    rw [List.take_of_length_le (by simp only [List.length_cons]; omega)]

theorem take_append_take {α : Type} (n : Nat) (A B : List α) :
    (A ++ B.take n).take n = (A ++ B).take n := by
  rw [List.take_append_eq_append_take, List.take_append_eq_append_take, List.take_take]
  congr 2
  omega

theorem addLogs_memory (calls : List (Env × LogEntry)) (st : State)
    (hc : st.connected = false) (hlen : st.memoryActivityLogs.length ≤ 100) :
    (addLogs st calls).connected = false ∧
    (addLogs st calls).memoryActivityLogs =
      ((calls.map returnedEntry).reverse ++ st.memoryActivityLogs).take 100 := by
  induction calls generalizing st with
  | nil => exact ⟨hc, by simp [addLogs, List.take_of_length_le hlen]⟩
  | cons c rest ih =>
    obtain ⟨env, l⟩ := c
    have h1 : (addLog st env l).2.connected = false := by rw [addLog_connected, hc]
    have h2 : (addLog st env l).2.memoryActivityLogs =
        (returnedEntry (env, l) :: st.memoryActivityLogs).take 100 := by
      simp only [addLog, hc, Bool.not_false, if_true, returnedEntry]
      exact unshiftCapped_eq_take _ _ hlen
    have h3 : (addLog st env l).2.memoryActivityLogs.length ≤ 100 := by
      rw [h2]; exact List.length_take_le _ _
    obtain ⟨ih1, ih2⟩ := ih (addLog st env l).2 h1 h3
    refine ⟨ih1, ?_⟩
    show (addLogs (addLog st env l).2 rest).memoryActivityLogs = _
    rw [ih2, h2, take_append_take]
    simp

theorem addLog_firestore (st : State) (env : Env) (l : LogEntry)
    (hc : st.connected = true) (hf : env.failLog = false)
    (hfresh : l.id ∉ st.fsLogs.map (fun d => d.1.2)) :
    (addLog st env l).2.fsLogs = st.fsLogs ++ [((logOwner l, l.id), loggedDoc env l)] := by
  have hkey : (logOwner l, l.id) ∉ st.fsLogs.map Prod.fst := by
    intro hmem
    apply hfresh
    obtain ⟨x, hx, hxk⟩ := List.mem_map.mp hmem
    exact List.mem_map.mpr ⟨x, hx, by rw [hxk]⟩
  simp only [addLog, hc, hf, Bool.not_true, Bool.false_eq_true, if_false, Bool.not_false,
    if_true]
  exact mapSet_of_not_mem _ _ _ hkey

theorem addLogs_firestore (calls : List (Env × LogEntry)) (st : State)
    (hc : st.connected = true) (hf : ∀ c ∈ calls, c.1.failLog = false)
    (hnodup : (calls.map (fun c => c.2.id)).Nodup)
    (hfresh : ∀ c ∈ calls, c.2.id ∉ st.fsLogs.map (fun d => d.1.2)) :
    (addLogs st calls).connected = true ∧
    (addLogs st calls).fsLogs =
      st.fsLogs ++ calls.map (fun c => ((logOwner c.2, c.2.id), loggedDoc c.1 c.2)) := by
  induction calls generalizing st with
  | nil => exact ⟨hc, by simp [addLogs]⟩
  | cons c rest ih =>
    obtain ⟨env, l⟩ := c
    have h1 : (addLog st env l).2.connected = true := by rw [addLog_connected, hc]
    have h2 := addLog_firestore st env l hc (hf _ (List.mem_cons_self _ _))
      (hfresh _ (List.mem_cons_self _ _))
    simp only [List.map_cons, List.nodup_cons] at hnodup
    obtain ⟨ih1, ih2⟩ := ih (addLog st env l).2 h1
      (fun c hcm => hf c (List.mem_cons_of_mem _ hcm)) hnodup.2
      (by
        intro c hcm hmem
        rw [h2, List.map_append, List.mem_append] at hmem
        rcases hmem with hmem | hmem
        · exact hfresh c (List.mem_cons_of_mem _ hcm) hmem
        · simp only [List.map_cons, List.map_nil, List.mem_singleton] at hmem
          exact hnodup.1 (List.mem_map.mpr ⟨c, hcm, hmem⟩))
    refine ⟨ih1, ?_⟩
    show (addLogs (addLog st env l).2 rest).fsLogs = _
    rw [ih2, h2]
    simp

theorem insertionSort_increasing (L : List (String × LogDoc))
    (h : L.Pairwise (fun a b => a.2.createdAt < b.2.createdAt)) :
    L.insertionSort (laterFirst LogDoc.createdAt) = L.reverse := by
  induction L using List.reverseRecOn with
  | nil => rfl
  | append_singleton L e ih =>
    obtain ⟨hL, _, hlt⟩ := List.pairwise_append.mp h
    rw [insertionSort_append_newest L e (fun d hd => hlt d hd e (List.mem_singleton_self e)),
      ih hL]
    simp

theorem userLogDocs_after_addLogs (calls : List (Env × LogEntry)) (u : String)
    (hf : ∀ c ∈ calls, c.1.failLog = false)
    (hnodup : (calls.map (fun c => c.2.id)).Nodup) :
    userLogDocs (addLogs (State.init true) calls) u =
      (calls.filter (fun c => decide (logOwner c.2 = u))).map
        (fun c => (c.2.id, loggedDoc c.1 c.2)) := by
  obtain ⟨_, hfs⟩ := addLogs_firestore calls (State.init true) rfl hf hnodup
    (fun c _ h => by simp [State.init] at h)
  unfold userLogDocs
  rw [hfs]
  simp only [State.init, List.nil_append, List.filter_map, List.map_map]
  rfl

theorem laterFirst_total : IsTotal (String × LogDoc) (laterFirst LogDoc.createdAt) :=
  ⟨fun a b => by
    unfold laterFirst
    rcases Nat.lt_trichotomy a.2.createdAt b.2.createdAt with h | h | h
    · right; left; exact h
    · rcases le_total a.1 b.1 with h' | h'
      · right; right; exact ⟨h, h'⟩
      · left; right; exact ⟨h.symm, h'⟩
    · left; left; exact h⟩

theorem laterFirst_trans : IsTrans (String × LogDoc) (laterFirst LogDoc.createdAt) :=
  ⟨fun a b c hab hbc => by
    unfold laterFirst at *
    rcases hab with h1 | ⟨h1, h1'⟩ <;> rcases hbc with h2 | ⟨h2, h2'⟩
    · left; omega
    · left; omega
    · left; omega
    · right; exact ⟨by omega, le_trans h2' h1'⟩⟩

/-- On Firestore the entries listed come from documents sorted by `createdAt`,
latest first, and are at most 100. -/
theorem getAllLogs_firestore_sorted (st : State) (env : Env) (u : String)
    (hc : st.connected = true) :
    (getAllLogs st env (some u)).length ≤ 100 ∧
    ∃ docs : List (String × LogDoc), List.Sorted (laterFirst LogDoc.createdAt) docs ∧
      getAllLogs st env (some u) = docs.map (fun d => logFromDoc d.2) := by
  haveI := laterFirst_total
  haveI := laterFirst_trans
  unfold getAllLogs
  simp only [hc, Bool.not_true, Bool.false_eq_true, if_false]
  split_ifs
  · refine ⟨?_, _, (List.sorted_insertionSort _ _).sublist (List.take_sublist _ _), rfl⟩
    simp only [List.length_map]
    exact List.length_take_le _ _
  · exact ⟨by simp, [], List.sorted_nil, rfl⟩
  · exact ⟨by simp, [], List.sorted_nil, rfl⟩

/-- C14. Log order and cap, for a non-empty owner id `u` and any sequence of
`addLog` calls on an empty log. On the in-memory backend `getAllLogs(u)` is the
list of the returned entries, latest call first, cut to its first 100 and then
filtered by owner: at most 100 entries, in the reverse of the order of the
calls. On Firestore, in any state, the list has at most 100 entries and comes
from documents sorted by their `createdAt`, latest first; and when no call
fails, the ids are pairwise distinct and the store's clock is strictly later at
each call, it is the entries written for `u`, latest call first, cut to 100. -/
theorem logs_newest_first_and_capped (calls : List (Env × LogEntry)) (env : Env) (u : String)
    (hu : u ≠ "") :
    (getAllLogs (addLogs (State.init false) calls) env (some u) =
        (((calls.map returnedEntry).reverse).take 100).filter
          (fun l => decide (l.userId = some u)) ∧
      (getAllLogs (addLogs (State.init false) calls) env (some u)).length ≤ 100 ∧
      List.Sublist (getAllLogs (addLogs (State.init false) calls) env (some u))
        (calls.map returnedEntry).reverse) ∧
    (∀ st : State, st.connected = true →
      (getAllLogs st env (some u)).length ≤ 100 ∧
      ∃ docs : List (String × LogDoc), List.Sorted (laterFirst LogDoc.createdAt) docs ∧
        getAllLogs st env (some u) = docs.map (fun d => logFromDoc d.2)) ∧
    ((∀ c ∈ calls, c.1.failLog = false) → env.failList = false →
      calls.Pairwise (fun a b => a.1.storeNow < b.1.storeNow) →
      (calls.map (fun c => c.2.id)).Nodup →
      getAllLogs (addLogs (State.init true) calls) env (some u) =
        (((calls.filter (fun c => decide (logOwner c.2 = u))).map
          (fun c => logFromDoc (loggedDoc c.1 c.2))).reverse).take 100) := by
  refine ⟨?_, ?_, ?_⟩
  · obtain ⟨hc, hlogs⟩ := addLogs_memory calls (State.init false) rfl (by simp [State.init])
    have hget : getAllLogs (addLogs (State.init false) calls) env (some u) =
        (((calls.map returnedEntry).reverse).take 100).filter
          (fun l => decide (l.userId = some u)) := by
      have hlogs' : (addLogs (State.init false) calls).memoryActivityLogs =
          ((calls.map returnedEntry).reverse).take 100 := by
        simpa [State.init] using hlogs
      simp [getAllLogs, hc, hlogs', strTruthy, hu]
    rw [hget]
    refine ⟨rfl, ?_, ?_⟩
    · exact le_trans (List.length_filter_le _ _) (List.length_take_le _ _)
    · exact (List.filter_sublist _).trans (List.take_sublist _ _)
  · intro st hc
    exact getAllLogs_firestore_sorted st env u hc
  · intro hf hlist hclock hnodup
    obtain ⟨hc, _⟩ := addLogs_firestore calls (State.init true) rfl hf hnodup
      (fun c _ h => by simp [State.init] at h)
    have hdocs := userLogDocs_after_addLogs calls u hf hnodup
    have hpair : ((calls.filter (fun c => decide (logOwner c.2 = u))).map
        (fun c => (c.2.id, loggedDoc c.1 c.2))).Pairwise
          (fun a b => a.2.createdAt < b.2.createdAt) := by
      rw [List.pairwise_map]
      exact hclock.sublist (List.filter_sublist _)
    have hget : getAllLogs (addLogs (State.init true) calls) env (some u) =
        (((userLogDocs (addLogs (State.init true) calls) u).insertionSort
          (laterFirst LogDoc.createdAt)).take 100).map (fun d => logFromDoc d.2) := by
      simp [getAllLogs, hc, hlist, hu]
    rw [hget, hdocs, insertionSort_increasing _ hpair, List.map_take, List.map_reverse,
      List.map_map]
    rfl

/-- Witness for C14: two `addLog` calls for owner `u1` on the in-memory
backend. -/
theorem logs_newest_first_and_capped_witness :
    "u1" ≠ "" ∧
    getAllLogs (addLogs (State.init false)
        [(sampleEnv 1 "", sampleReversed), (sampleEnv 2 "", sampleCommitted)])
      (sampleEnv 3 "") (some "u1") = [sampleCommitted, sampleReversed] ∧
    (getAllLogs (addLogs (State.init false)
        [(sampleEnv 1 "", sampleReversed), (sampleEnv 2 "", sampleCommitted)])
      (sampleEnv 3 "") (some "u1")).length ≤ 100 :=
  ⟨(by decide), (by decide),
    (logs_newest_first_and_capped
      [(sampleEnv 1 "", sampleReversed), (sampleEnv 2 "", sampleCommitted)]
      (sampleEnv 3 "") "u1" (by decide)).1.2.1⟩

/-! ## `addLog` and the entries already logged -/

set_option maxRecDepth 100000 in
/-- C15, counterexample. The in-memory log holds 100 entries; one more
`addLog` evicts the oldest, which was in the log before the call and is not
afterwards. On Firestore, `addLog` of an entry with the owner and id of an
earlier one replaces it: the earlier entry is no longer listed. -/
theorem addLog_evicts_oldest :
    sampleFullLog.memoryActivityLogs.length = 100 ∧
    returnedEntry (sampleEnv 0 "", sampleLogEntry 0) ∈ sampleFullLog.memoryActivityLogs ∧
    returnedEntry (sampleEnv 0 "", sampleLogEntry 0) ∉
      (addLog sampleFullLog (sampleEnv 100 "") sampleReversed).2.memoryActivityLogs ∧
    getAllLogs (addLogs (State.init true) [(sampleEnv 1 "", sampleReversed)]) (sampleEnv 3 "")
      (some "u1") = [{ sampleReversed with userId := none }] ∧
    getAllLogs (addLogs (State.init true)
        [(sampleEnv 1 "", sampleReversed), (sampleEnv 2 "", sampleCommitted)]) (sampleEnv 3 "")
      (some "u1") = [{ sampleCommitted with userId := none }] := by
  refine ⟨?_, ?_, ?_, ?_, ?_⟩ <;> decide

theorem unshiftCapped_cases (logs : List LogEntry) (e : LogEntry) :
    (logs.length < 100 → unshiftCapped logs e = e :: logs) ∧
    (100 ≤ logs.length → unshiftCapped logs e = e :: logs.dropLast) := by
  unfold unshiftCapped
  simp only [List.length_cons]
  constructor
  · intro h
    rw [if_neg (by omega)]
  · intro h
    rw [if_pos (by omega)]
    have hne : logs ≠ [] := by
      intro h0; rw [h0] at h; simp at h
    exact List.dropLast_cons_of_ne_nil hne

theorem mem_dropLast_or_last (logs : List LogEntry) (x : LogEntry) (hx : x ∈ logs) :
    x ∈ logs.dropLast ∨ logs.getLast? = some x := by
  induction logs with
  | nil => cases hx
  | cons a rest ih =>
    cases rest with
    | nil =>
      right
      simp only [List.mem_singleton] at hx
      simp [hx]
    | cons b rest' =>
      rcases List.mem_cons.mp hx with h | h
      · left; simp [h]
      · rcases ih h with h' | h'
        · left; simp only [List.dropLast_cons₂]; exact List.mem_cons_of_mem _ h'
        · right; simpa using h'

/-- C15, as amended. `addLog(e)` returns `e` with the generated timestamp. On
the in-memory backend the returned entry is at the head of the log afterwards,
and every entry that was in the log before is still there, in the same order
and unchanged, except that the oldest entry is dropped when the log already
held 100. On Firestore, when the write does not fail, the document named by
the entry's owner and id holds the new entry and every other document is
unchanged. -/
theorem addLog_keeps_earlier_entries (st : State) (env : Env) (e : LogEntry) :
    (addLog st env e).1 = { e with timestamp := env.timestamp } ∧
    (st.connected = false →
      (addLog st env e).1 ∈ (addLog st env e).2.memoryActivityLogs ∧
      (st.memoryActivityLogs.length < 100 →
        (addLog st env e).2.memoryActivityLogs = (addLog st env e).1 :: st.memoryActivityLogs) ∧
      (100 ≤ st.memoryActivityLogs.length →
        (addLog st env e).2.memoryActivityLogs
          = (addLog st env e).1 :: st.memoryActivityLogs.dropLast) ∧
      (∀ x ∈ st.memoryActivityLogs,
        x ∈ (addLog st env e).2.memoryActivityLogs ∨
        (100 ≤ st.memoryActivityLogs.length ∧ st.memoryActivityLogs.getLast? = some x))) ∧
    (st.connected = true → env.failLog = false →
      mapGet (addLog st env e).2.fsLogs (logOwner e, e.id) = some (loggedDoc env e) ∧
      (∀ k, k ≠ (logOwner e, e.id) →
        mapGet (addLog st env e).2.fsLogs k = mapGet st.fsLogs k)) := by
  refine ⟨addLog_fst st env e, ?_, ?_⟩
  · intro hc
    have hlogs : (addLog st env e).2.memoryActivityLogs =
        unshiftCapped st.memoryActivityLogs { e with timestamp := env.timestamp } := by
      simp [addLog, hc]
    obtain ⟨hlt, hge⟩ := unshiftCapped_cases st.memoryActivityLogs
      { e with timestamp := env.timestamp }
    rw [hlogs, addLog_fst]
    refine ⟨?_, hlt, hge, ?_⟩
    · rcases Nat.lt_or_ge st.memoryActivityLogs.length 100 with h | h
      · rw [hlt h]; exact List.mem_cons_self _ _
      · rw [hge h]; exact List.mem_cons_self _ _
    · intro x hx
      rcases Nat.lt_or_ge st.memoryActivityLogs.length 100 with h | h
      · left; rw [hlt h]; exact List.mem_cons_of_mem _ hx
      · rw [hge h]
        rcases mem_dropLast_or_last _ x hx with h' | h'
        · left; exact List.mem_cons_of_mem _ h'
        · right; exact ⟨h, h'⟩
  · intro hc hf
    have hfs : (addLog st env e).2.fsLogs =
        mapSet st.fsLogs (logOwner e, e.id) (loggedDoc env e) := by
      simp [addLog, hc, hf, logOwner, loggedDoc]
    rw [hfs]
    exact ⟨mapGet_mapSet_self _ _ _, fun k hk => mapGet_mapSet_other _ _ _ _ (Ne.symm hk)⟩

/-! ## Cancel, and the platform label -/

/-- The adapter call of a resolve handler returns for every action whose
lower-cased type is neither `constructor` nor `__proto__`: `cancelAction`
then resolves to a result with `success: true`, and so does `executeAction`. -/
theorem cancelAction_returns (action : PendingAction)
    (h : toLowerCase action.type ≠ "constructor" ∧ toLowerCase action.type ≠ "__proto__") :
    (∃ r, cancelAction action = some r ∧ r.success = true) ∧
    (∃ r, executeAction action = some r ∧ r.success = true) := by
  have hcases : getAdapter (some action.type) = .emailAdapter ∨
      getAdapter (some action.type) = .fileAdapter ∨
      getAdapter (some action.type) = .gitAdapter ∨
      getAdapter (some action.type) = .formAdapter := by
    unfold getAdapter
    simp only
    split_ifs with hne
    · unfold adapters
      rw [if_neg h.1, if_neg h.2]
      split_ifs <;> simp
    · right; right; right; decide
  unfold cancelAction executeAction
  rcases hcases with hc | hc | hc | hc <;> rw [hc] <;>
    exact ⟨⟨_, rfl, rfl⟩, ⟨_, rfl, rfl⟩⟩

/-- C21, evaluated. For a pending action of type `constructor`, created by an
ordinary create request, `cancelAction` throws: the registry lookup yields the
inherited `Object` function, which has no `cancel` method. An action of type
`__proto__` fares the same. -/
theorem cancelAction_throws_for_inherited_type :
    mapGet sampleInherited.memoryPendingActions "3F2A9C1E"
      = some { id := "3F2A9C1E", type := "constructor", label := "Submit form",
               metadata := "{}", platform := some "Object", graceWindow := .fin 15,
               userId := some "u1", createdAt := 0, status := some "PENDING" } ∧
    cancelAction { id := "3F2A9C1E", type := "constructor", label := "Submit form",
                   metadata := "{}", platform := some "Object", graceWindow := .fin 15,
                   userId := some "u1", createdAt := 0, status := some "PENDING" } = none ∧
    cancelAction { id := "3F2A9C1E", type := "__proto__", label := "Submit form",
                   metadata := "{}", platform := none, graceWindow := .fin 15,
                   userId := some "u1", createdAt := 0, status := some "PENDING" } = none := by
  refine ⟨?_, ?_, ?_⟩ <;> decide

/-- The platform label cached at creation is the name of the adapter the
resolve handlers later pick from the stored type, for every category. -/
theorem platform_matches_dispatch (st : State) (env : Env) (body : CreateRequest) :
    (postAction st env body).1.platform = getAdapterName body.type ∧
    (postAction st env body).1.platform
      = (getAdapter (some (postAction st env body).1.type)).name := by
  refine ⟨rfl, ?_⟩
  show getAdapterName body.type = (getAdapter (some (strOr body.type "unknown"))).name
  unfold getAdapterName
  congr 1
  cases hb : body.type with
  | none => decide
  | some s =>
    unfold strOr
    simp only
    split_ifs with hs
    · rfl
    · have : s = "" := by simpa using hs
      subst this
      decide

/-- C28, evaluated. For a create request with type `constructor` the platform
label cached on the action is `Object`, which is none of `Gmail`, `System`,
`GitHub`, `WebForm`; for type `__proto__` the label is `undefined`. It is still
the name of what the resolve handlers later look up from the stored type. -/
theorem platform_label_of_inherited_type :
    (postAction (State.init false) (sampleEnv 0 "3f2a9c1e-77aa") inheritedRequest).1.platform
      = some "Object" ∧
    (getAdapter (some (postAction (State.init false) (sampleEnv 0 "3f2a9c1e-77aa")
      inheritedRequest).1.type)).name = some "Object" ∧
    some "Object" ∉ [some "Gmail", some "System", some "GitHub", some "WebForm"] ∧
    (postAction (State.init false) (sampleEnv 0 "3f2a9c1e-77aa")
      { inheritedRequest with type := some "__proto__" }).1.platform = none := by
  refine ⟨?_, ?_, ?_, ?_⟩ <;> decide

/-! ## The two create handlers -/

/-- For a request with no owner id whose `graceWindow` is absent or truthy, the
`intercept` handler and the create request handler do the same: same action,
same state afterwards (store insertion, timer, emitted event). -/
theorem intercept_agrees_when_grace_truthy (st : State) (env : Env) (data : CreateRequest)
    (hno : data.userId = none)
    (hg : data.graceWindow = .undefined ∨ data.graceWindow.truthy = true) :
    socketIntercept st env data = (postAction st env data).2 := by
  have hgw : clampGrace (data.graceWindow.or (.num (.fin 15))) =
      clampGrace (match userSettingOf st data.userId with
        | some userSetting => .num userSetting.graceWindow
        | none => (match data.graceWindow with
          | .undefined => .num (.fin 15)
          | v => v)) := by
    rw [hno]
    simp only [userSettingOf]
    rcases hg with h | h
    · rw [h]; rfl
    · have h1 : data.graceWindow.or (.num (.fin 15)) = data.graceWindow := by
        simp [JSValue.or, h]
      rw [h1]
      cases hd : data.graceWindow <;> simp_all [JSValue.truthy]
  unfold socketIntercept postAction
  simp only [hgw, hno, orNull, strTruthy]
  rfl

/-- C23, evaluated. For an `intercept` request with no owner id and
`graceWindow: 0` the socket handler builds an action with grace window 15,
while the create request handler builds one with grace window 5; the same
happens for `graceWindow: null`. The stored actions and the timers differ
accordingly. -/
theorem intercept_differs_on_zero_grace_window :
    mapGet (socketIntercept (State.init false) (sampleEnv 0 "3f2a9c1e-77aa")
      (sampleRequest (.num (.fin 0)) none)).memoryPendingActions "3F2A9C1E"
      = some { sampleAction with userId := none, graceWindow := .fin 15 } ∧
    mapGet (postAction (State.init false) (sampleEnv 0 "3f2a9c1e-77aa")
      (sampleRequest (.num (.fin 0)) none)).2.memoryPendingActions "3F2A9C1E"
      = some { sampleAction with userId := none, graceWindow := .fin 5 } ∧
    mapGet (socketIntercept (State.init false) (sampleEnv 0 "3f2a9c1e-77aa")
      (sampleRequest .null none)).memoryPendingActions "3F2A9C1E"
      = some { sampleAction with userId := none, graceWindow := .fin 15 } ∧
    mapGet (postAction (State.init false) (sampleEnv 0 "3f2a9c1e-77aa")
      (sampleRequest .null none)).2.memoryPendingActions "3F2A9C1E"
      = some { sampleAction with userId := none, graceWindow := .fin 5 } ∧
    (socketIntercept (State.init false) (sampleEnv 0 "3f2a9c1e-77aa")
      (sampleRequest (.num (.fin 0)) none)).timeouts
      = [{ handle := 0, actionId := "3F2A9C1E", delay := .fin 15000 }] ∧
    (postAction (State.init false) (sampleEnv 0 "3f2a9c1e-77aa")
      (sampleRequest (.num (.fin 0)) none)).2.timeouts
      = [{ handle := 0, actionId := "3F2A9C1E", delay := .fin 5000 }] := by
  refine ⟨?_, ?_, ?_, ?_, ?_, ?_⟩ <;>
    simp [socketIntercept, postAction, sampleRequest, sampleEnv, sampleAction, State.init,
      addPendingAction, startTimer, broadcastToUser, mapGet, mapSet, clampGrace, userSettingOf,
      JSValue.or, JSValue.truthy, JSNum.truthy, JSValue.toNumber, mathMax, mathMin,
      JSNum.timesThousand, orNull, strTruthy, strOr, metadataOrEmpty, getAdapterName,
      getAdapter, adapters, toLowerCase, toUpperCase, substring0, Adapter.name] <;>
    norm_num

/-! ## The two backends -/

/-- C24, evaluated. On a Firestore-backed server the write of a create request
fails. `addPendingAction` still returns the action and keeps it in the
in-memory map. A later `getPendingAction` and `getAllPendingActions` whose
Firestore reads succeed do not return it (the document does not exist), so the
undo request answers not-found; only reads that themselves fail fall back to
the in-memory map and return it. -/
theorem failed_write_is_invisible_to_working_reads :
    (addPendingAction (State.init true) (sampleEnvWriteFails 0 "3f2a9c1e-77aa") sampleBuilt).1
      = sampleBuilt ∧
    mapGet sampleWriteFailed.memoryPendingActions "3F2A9C1E" = some sampleBuilt ∧
    getPendingAction sampleWriteFailed (sampleEnv 1 "") "3F2A9C1E" = none ∧
    getAllPendingActions sampleWriteFailed (sampleEnv 1 "") = [] ∧
    (postActionUndo sampleWriteFailed (sampleEnv 1 "") "3F2A9C1E").1 = .notFound ∧
    getPendingAction sampleWriteFailed { sampleEnv 1 "" with failGet := true } "3F2A9C1E"
      = some sampleBuilt ∧
    getAllPendingActions sampleWriteFailed { sampleEnv 1 "" with failList := true }
      = [sampleBuilt] := by
  refine ⟨?_, ?_, ?_, ?_, ?_, ?_, ?_⟩ <;> decide

/-- What does hold of the fallback: whenever the Firestore write fails,
`addPendingAction` returns its argument and the in-memory map holds it, so a
read that itself fails returns it. -/
theorem failed_write_kept_in_memory (st : State) (env env2 : Env) (a : PendingAction)
    (hc : st.connected = true) (hfail : env.failAdd = true) (hread : env2.failGet = true) :
    (addPendingAction st env a).1 = a ∧
    mapGet (addPendingAction st env a).2.memoryPendingActions a.id = some a ∧
    getPendingAction (addPendingAction st env a).2 env2 a.id = some a := by
  have hst : (addPendingAction st env a).2 =
      { st with memoryPendingActions := mapSet st.memoryPendingActions a.id a } := by
    simp [addPendingAction, hc, hfail]
  have h1 : (addPendingAction st env a).1 = a := by
    simp [addPendingAction, hc, hfail]
  rw [hst]
  refine ⟨h1, mapGet_mapSet_self _ _ _, ?_⟩
  simp [getPendingAction, hc, hread, mapGet_mapSet_self]

/-- C25, evaluated. The same requests (owner `u1` creates and undoes an
action, owner `u2` creates and commits one) are run on the in-memory backend
and on Firestore with no failing call. The store then answers differently:
the log list for an absent owner id is the whole log in memory and empty on
Firestore; the entries listed for `u1` carry the owner id in memory only; and
after one create request by `u1`, the statistics of `u2` count one pending
action in memory and none on Firestore, the stored action carries `status`
in memory only, and removing an unknown id answers `false` in memory and
`true` on Firestore. -/
theorem backends_answer_differently :
    getAllLogs (run (State.init false) sampleTwoOwnersOps) (sampleEnv 4 "") none
      = [sampleCommittedU2, sampleReversed] ∧
    getAllLogs (run (State.init true) sampleTwoOwnersOps) (sampleEnv 4 "") none = [] ∧
    getAllLogs (run (State.init false) sampleTwoOwnersOps) (sampleEnv 4 "") (some "u1")
      = [sampleReversed] ∧
    getAllLogs (run (State.init true) sampleTwoOwnersOps) (sampleEnv 4 "") (some "u1")
      = [{ sampleReversed with userId := none }] ∧
    (getStats (run (State.init false)
        [.create (sampleEnv 0 "3f2a9c1e-77aa") (sampleRequest .undefined (some "u1"))])
      (sampleEnv 1 "") (some "u2")).pendingCount = 1 ∧
    (getStats (run (State.init true)
        [.create (sampleEnv 0 "3f2a9c1e-77aa") (sampleRequest .undefined (some "u1"))])
      (sampleEnv 1 "") (some "u2")).pendingCount = 0 ∧
    getPendingAction (run (State.init false)
        [.create (sampleEnv 0 "3f2a9c1e-77aa") (sampleRequest .undefined (some "u1"))])
      (sampleEnv 1 "") "3F2A9C1E" = some { sampleBuilt with status := some "PENDING" } ∧
    getPendingAction (run (State.init true)
        [.create (sampleEnv 0 "3f2a9c1e-77aa") (sampleRequest .undefined (some "u1"))])
      (sampleEnv 1 "") "3F2A9C1E" = some sampleBuilt ∧
    (removePendingAction (State.init false) (sampleEnv 1 "") "3F2A9C1E").1 = false ∧
    (removePendingAction (State.init true) (sampleEnv 1 "") "3F2A9C1E").1 = true := by
  refine ⟨?_, ?_, ?_, ?_, ?_, ?_, ?_, ?_, ?_, ?_⟩ <;> decide

/-! ## Format of the action id -/

theorem toUpper_hex (c : Char) (h : isHexDigit c = true) : isDigitOrUpper c.toUpper = true := by
  by_cases hl : c.toNat ≥ 97 ∧ c.toNat ≤ 122
  · have h1 : c.toUpper = Char.ofNat (c.toNat - 32) := by
      simp only [Char.toUpper, hl, and_self, if_true]
    rw [h1]
    have hb : c.toNat ≤ 102 := by
      simp only [isHexDigit, Bool.or_eq_true, Bool.and_eq_true, decide_eq_true_eq] at h
      omega
    obtain ⟨ha, _⟩ := hl
    generalize c.toNat = n at ha hb
    interval_cases n <;> decide
  · have h1 : c.toUpper = c := by
      simp only [Char.toUpper, hl, if_false]
    rw [h1]
    simp only [isHexDigit, isDigitOrUpper, Bool.or_eq_true, Bool.and_eq_true,
      decide_eq_true_eq] at h ⊢
    omega

/-- C26. Id format: for every text in the layout of a UUID, the id the create
handlers assign, `uuid.substring(0, 8).toUpperCase()`, has exactly 8
characters, each a digit `0`-`9` or an upper-case letter. The id of the action
a create request answers with is that text. -/
theorem created_id_is_eight_upper_alphanumerics (uuid : String) (h : IsUuid uuid) :
    (toUpperCase (substring0 uuid 8)).data.length = 8 ∧
    (∀ c ∈ (toUpperCase (substring0 uuid 8)).data, isDigitOrUpper c = true) ∧
    (∀ (st : State) (env : Env) (body : CreateRequest), env.uuid = uuid →
      (postAction st env body).1.id = toUpperCase (substring0 uuid 8)) := by
  obtain ⟨hlen, hlay⟩ := h
  refine ⟨?_, ?_, ?_⟩
  · simp only [toUpperCase, substring0, List.length_map, List.length_take]
    omega
  · intro c hc
    simp only [toUpperCase, substring0, List.mem_map] at hc
    obtain ⟨c0, hc0, hcc⟩ := hc
    obtain ⟨i, hi, hget⟩ := List.getElem_of_mem hc0
    have hi8 : i < 8 := by
      simp only [List.length_take] at hi
      omega
    have hget' : uuid.data[i]? = some c0 := by
      rw [List.getElem_take] at hget
      rw [← hget]
      exact List.getElem?_eq_getElem _
    have hl := hlay i (by omega)
    rw [if_neg (by omega)] at hl
    obtain ⟨c1, hc1, hhex⟩ := hl
    rw [hget'] at hc1
    cases hc1
    rw [← hcc]
    exact toUpper_hex c0 hhex
  · intro st env body hu
    rw [← hu]
    rfl

/-- Witness for C26: a version 4 UUID. -/
theorem created_id_is_eight_upper_alphanumerics_witness :
    IsUuid "3f2a9c1e-77aa-4b1c-9d2e-5f60718293ab" ∧
    toUpperCase (substring0 "3f2a9c1e-77aa-4b1c-9d2e-5f60718293ab" 8) = "3F2A9C1E" ∧
    (toUpperCase (substring0 "3f2a9c1e-77aa-4b1c-9d2e-5f60718293ab" 8)).data.length = 8 := by
  have h : IsUuid "3f2a9c1e-77aa-4b1c-9d2e-5f60718293ab" := by
    refine ⟨by decide, ?_⟩
    intro i hi
    interval_cases i <;> simp <;> decide
  exact ⟨h, by decide, (created_id_is_eight_upper_alphanumerics _ h).1⟩

/-! ## What the handlers emit -/

theorem broadcastToUser_emitted (st : State) (u : Option String) (ev : String) (d : Payload) :
    (broadcastToUser st u ev d).emitted =
      st.emitted ++ [{ room := orNull u, event := ev, data := d }] := by
  unfold broadcastToUser orNull
  split_ifs <;> rfl

theorem addPendingAction_emitted (st : State) (env : Env) (a : PendingAction) :
    (addPendingAction st env a).2.emitted = st.emitted := by
  unfold addPendingAction; split_ifs <;> rfl

theorem removePendingAction_emitted (st : State) (env : Env) (id : String) :
    (removePendingAction st env id).2.emitted = st.emitted := by
  unfold removePendingAction; split_ifs <;> rfl

theorem addLog_emitted (st : State) (env : Env) (l : LogEntry) :
    (addLog st env l).2.emitted = st.emitted := by
  unfold addLog; simp only; split_ifs <;> rfl

theorem clearActionTimer_emitted (st : State) (id : String) :
    (clearActionTimer st id).emitted = st.emitted := by
  unfold clearActionTimer; split <;> rfl

theorem getPendingAction_congr (st st0 : State) (env : Env) (id : String)
    (hc : st0.connected = st.connected)
    (hm : st0.memoryPendingActions = st.memoryPendingActions)
    (hf : st0.fsPending = st.fsPending) :
    getPendingAction st0 env id = getPendingAction st env id := by
  unfold getPendingAction
  rw [hc, hm, hf]

/-- The emissions of an undo whose adapter call returns. -/
theorem postActionUndo_emitted (st : State) (env : Env) (id : String) (action : PendingAction)
    (hget : getPendingAction st env id = some action) (hc : cancelAction action ≠ none) :
    postActionUndo st env id =
      (.resolved "REVERSED" { logEntryOf action "REVERSED" with timestamp := env.timestamp },
        (postActionUndo st env id).2) ∧
    (postActionUndo st env id).2.emitted = st.emitted ++
      [{ room := orNull action.userId, event := "action:resolved",
         data := .resolved id "REVERSED"
           { logEntryOf action "REVERSED" with timestamp := env.timestamp } none }] := by
  rw [postActionUndo_eq, hget]
  simp only
  cases hcancel : cancelAction action with
  | none => exact absurd hcancel hc
  | some r =>
    simp only [addLog_fst, broadcastToUser_emitted, removePendingAction_emitted, addLog_emitted,
      clearActionTimer_emitted, and_self]

/-- The emissions of a `commitAction` whose adapter call returns. -/
theorem commitAction_emitted (st : State) (env : Env) (id : String) (auto : Bool)
    (action : PendingAction)
    (hget : getPendingAction st env id = some action) (he : executeAction action ≠ none) :
    commitAction st env id auto =
      (.resolved "COMMITTED" { logEntryOf action "COMMITTED" with timestamp := env.timestamp },
        (commitAction st env id auto).2) ∧
    (commitAction st env id auto).2.emitted = st.emitted ++
      [{ room := orNull action.userId, event := "action:resolved",
         data := .resolved id "COMMITTED"
           { logEntryOf action "COMMITTED" with timestamp := env.timestamp } (some auto) }] := by
  rw [commitAction_eq, hget]
  simp only
  cases hexec : executeAction action with
  | none => exact absurd hexec he
  | some r =>
    simp only [commitActionResume_eq, addLog_fst, broadcastToUser_emitted,
      removePendingAction_emitted, addLog_emitted, clearActionTimer_emitted, and_self]

/-- The emissions of a timer callback that finds its action pending and whose
adapter call returns. -/
theorem timerFire_emitted (st : State) (env : Env) (handle : Nat) (t : Timeout)
    (action : PendingAction)
    (ht : st.timeouts.find? (fun t => decide (t.handle = handle)) = some t)
    (hget : getPendingAction st env t.actionId = some action)
    (he : executeAction action ≠ none) :
    (timerFire st env handle).1 =
      .resolved "COMMITTED" { logEntryOf action "COMMITTED" with timestamp := env.timestamp } ∧
    (timerFire st env handle).2.emitted = st.emitted ++
      [{ room := orNull action.userId, event := "action:resolved",
         data := .resolved t.actionId "COMMITTED"
           { logEntryOf action "COMMITTED" with timestamp := env.timestamp } (some true) }] := by
  unfold timerFire
  rw [ht]
  simp only
  have hget' : getPendingAction
      { st with timeouts := st.timeouts.filter (fun t => decide (t.handle ≠ handle)) }
      env t.actionId = some action := by
    exact (getPendingAction_congr st _ env t.actionId rfl rfl rfl).trans hget
  obtain ⟨h1, h2⟩ := commitAction_emitted _ env t.actionId true action hget' he
  constructor
  · rw [h1]
  · rw [h2]

/-! ## The auto flag -/

/-- C27 as stated fails: the `action:resolved` payload of an explicit undo is
`{ id, status: 'REVERSED', log }`, with no `auto` key at all, so its `auto` is
absent rather than `false`. Here the sample action is undone over
`POST /api/action/3F2A9C1E/undo`. -/
theorem undo_payload_has_no_auto_flag :
    (postActionUndo sampleCreated (sampleEnv 1 "") "3F2A9C1E").2.emitted.getLast? =
      some { room := some "u1", event := "action:resolved",
             data := .resolved "3F2A9C1E" "REVERSED" sampleReversed none } ∧
    Payload.resolved "3F2A9C1E" "REVERSED" sampleReversed none ≠
      Payload.resolved "3F2A9C1E" "REVERSED" sampleReversed (some false) := by
  refine ⟨?_, ?_⟩ <;> decide

/-- C27, amended. Auto flag: for a pending action whose adapter calls return,
an explicit undo emits one `action:resolved` event with the payload
`{ id, status: 'REVERSED', log }` and no `auto` key; `commitAction` emits one
with `{ id, status: 'COMMITTED', log, auto }` where `auto` is the flag it was
called with, which is `false` for the explicit commit over either transport
and `true` for the deadline timer; and when the timer of the still-pending
action fires, the action is resolved with status `COMMITTED` and the payload
carries `auto = true`. Each event goes to the owner of the action. -/
theorem resolved_payload_auto_flag (st : State) (env : Env) (id : String)
    (action : PendingAction)
    (hget : getPendingAction st env id = some action)
    (hc : cancelAction action ≠ none) (he : executeAction action ≠ none) :
    (postActionUndo st env id).2.emitted = st.emitted ++
      [{ room := orNull action.userId, event := "action:resolved",
         data := .resolved id "REVERSED"
           { logEntryOf action "REVERSED" with timestamp := env.timestamp } none }] ∧
    (socketUndo st env id).emitted = (postActionUndo st env id).2.emitted ∧
    (postActionCommit st env id).2.emitted = st.emitted ++
      [{ room := orNull action.userId, event := "action:resolved",
         data := .resolved id "COMMITTED"
           { logEntryOf action "COMMITTED" with timestamp := env.timestamp } (some false) }] ∧
    (socketCommit st env id).emitted = (postActionCommit st env id).2.emitted ∧
    (∀ handle t, st.timeouts.find? (fun t => decide (t.handle = handle)) = some t →
      t.actionId = id →
      (timerFire st env handle).1 =
        .resolved "COMMITTED"
          { logEntryOf action "COMMITTED" with timestamp := env.timestamp } ∧
      (timerFire st env handle).2.emitted = st.emitted ++
        [{ room := orNull action.userId, event := "action:resolved",
           data := .resolved id "COMMITTED"
             { logEntryOf action "COMMITTED" with timestamp := env.timestamp }
             (some true) }]) := by
  refine ⟨(postActionUndo_emitted st env id action hget hc).2, ?_,
    (commitAction_emitted st env id false action hget he).2, rfl, ?_⟩
  · rw [socketUndo_eq]
  · intro handle t ht hid
    subst hid
    exact timerFire_emitted st env handle t action ht hget he

/-- Witness for C27: the sample action, whose timer has the handle 0. -/
theorem resolved_payload_auto_flag_witness :
    getPendingAction sampleCreated (sampleEnv 1 "") "3F2A9C1E" =
      some { sampleBuilt with status := some "PENDING" } ∧
    (timerFire sampleCreated (sampleEnv 1 "") 0).1 =
      .resolved "COMMITTED" sampleCommitted ∧
    (timerFire sampleCreated (sampleEnv 1 "") 0).2.emitted.getLast? =
      some { room := some "u1", event := "action:resolved",
             data := .resolved "3F2A9C1E" "COMMITTED" sampleCommitted (some true) } := by
  have h := (resolved_payload_auto_flag sampleCreated (sampleEnv 1 "") "3F2A9C1E"
    { sampleBuilt with status := some "PENDING" } (by decide) (by decide) (by decide)).2.2.2.2
    0 { handle := 0, actionId := "3F2A9C1E", delay := (JSNum.fin 15).timesThousand } rfl rfl
  refine ⟨by decide, ?_, ?_⟩
  · rw [h.1]; decide
  · rw [h.2]; decide

/-! ## Event scoping -/

theorem userRoom_inj (u v : String) : "user:" ++ u = "user:" ++ v ↔ u = v := by
  constructor
  · intro h
    have h2 : ("user:" ++ u).data = ("user:" ++ v).data := by rw [h]
    simp only [String.data_append, List.append_cancel_left_eq] at h2
    exact String.ext h2
  · intro h
    rw [h]

/-- The emission `broadcastToUser(userId, …)` makes reaches every session when
`userId` is falsy and otherwise exactly the sessions that joined with it. -/
theorem scopedTo_orNull (u : Option String) (ev : String) (d : Payload) :
    ScopedTo { room := orNull u, event := ev, data := d } u := by
  intro s
  cases u with
  | none => simp [delivered, orNull, strTruthy]
  | some x =>
    by_cases hx : x = ""
    · simp [delivered, orNull, strTruthy, hx]
    · cases hs : s.userId with
      | none => simp [delivered, orNull, strTruthy, hx, joinedRooms, hs]
      | some v =>
        by_cases hv : v = ""
        · subst hv
          have : ¬ "" = x := fun h => hx h.symm
          simp [delivered, orNull, strTruthy, hx, joinedRooms, hs, this]
        · simp [delivered, orNull, strTruthy, hx, joinedRooms, hs, hv, userRoom_inj, eq_comm]

theorem startTimer_emitted (st : State) (a : PendingAction) :
    (startTimer st a).emitted = st.emitted := rfl

theorem postAction_emitted (st : State) (env : Env) (body : CreateRequest) :
    (postAction st env body).2.emitted = st.emitted ++
      [{ room := orNull (postAction st env body).1.userId, event := "action:intercepted",
         data := .action (postAction st env body).1 }] := by
  simp only [postAction, broadcastToUser_emitted, startTimer_emitted, addPendingAction_emitted]

theorem socketIntercept_emitted (st : State) (env : Env) (data : CreateRequest) :
    ∃ a : PendingAction, a.userId = none ∧
      (socketIntercept st env data).emitted = st.emitted ++
        [{ room := orNull a.userId, event := "action:intercepted", data := .action a }] := by
  refine ⟨
    { id := toUpperCase (substring0 env.uuid 8), type := strOr data.type "unknown",
      label := strOr data.label "Unknown Action", metadata := metadataOrEmpty data.metadata,
      platform := getAdapterName data.type,
      graceWindow := clampGrace (data.graceWindow.or (.num (.fin 15))), userId := none,
      createdAt := env.now, status := none }, rfl, ?_⟩
  simp only [socketIntercept, broadcastToUser_emitted, startTimer_emitted,
    addPendingAction_emitted]

theorem newEmissions_of_eq (st : State) (op : Op) (L : List Emission)
    (h : (step st op).emitted = st.emitted ++ L) : newEmissions st op = L := by
  unfold newEmissions
  rw [h]
  exact List.drop_left _ _

/-- What a resolve handler emits: nothing, or one `action:resolved` event about
the action it read, sent to that action's owner. -/
theorem resolve_emitted (st : State) (env : Env) (id : String) :
    ((postActionUndo st env id).2.emitted = st.emitted ∨
      ∃ a log, getPendingAction st env id = some a ∧ log.userId = orNull a.userId ∧
        (postActionUndo st env id).2.emitted = st.emitted ++
          [{ room := orNull a.userId, event := "action:resolved",
             data := .resolved id "REVERSED" log none }]) ∧
    (∀ auto, (commitAction st env id auto).2.emitted = st.emitted ∨
      ∃ a log, getPendingAction st env id = some a ∧ log.userId = orNull a.userId ∧
        (commitAction st env id auto).2.emitted = st.emitted ++
          [{ room := orNull a.userId, event := "action:resolved",
             data := .resolved id "COMMITTED" log (some auto) }]) := by
  cases hget : getPendingAction st env id with
  | none =>
    constructor
    · left
      rw [postActionUndo_eq, hget]
    · intro auto
      left
      rw [commitAction_eq, hget]
  | some a =>
    constructor
    · cases hc : cancelAction a with
      | none =>
        left
        rw [postActionUndo_eq, hget]
        simp only [hc, clearActionTimer_emitted]
      | some r =>
        right
        exact ⟨a, _, rfl, rfl,
          (postActionUndo_emitted st env id a hget (by rw [hc]; exact Option.some_ne_none r)).2⟩
    · intro auto
      cases hc : executeAction a with
      | none =>
        left
        rw [commitAction_eq, hget]
        simp only [hc, clearActionTimer_emitted]
      | some r =>
        right
        exact ⟨a, _, rfl, rfl,
          (commitAction_emitted st env id auto a hget
            (by rw [hc]; exact Option.some_ne_none r)).2⟩

/-- The shape of the emissions of one operation, lifecycle events only. -/
theorem scoped_of_emitted (e : Emission) (a : PendingAction) (ev : String) (d : Payload)
    (L : List Emission) (he : e ∈ L)
    (hL : L = [{ room := orNull a.userId, event := ev, data := d }]) :
    e.data = d ∧ ScopedTo e a.userId := by
  subst hL
  simp only [List.mem_singleton] at he
  subst he
  exact ⟨rfl, scopedTo_orNull a.userId ev d⟩

/-- Events follow the owner id stored on the action: every `action:intercepted`
or `action:resolved` event an operation emits is about one action, the one in
its payload or the pending action the resolve handler read, whose owner id is
also the `userId` of the payload's log entry; when that stored owner id is `u`
the event is delivered to every session that connected with `userId = u` and
to no other session, and when the action has none the event is delivered to
every session. The socket `intercept` handler stores no owner id, whoever
sent the event. -/
theorem events_follow_stored_owner (st : State) (op : Op) (e : Emission)
    (he : e ∈ newEmissions st op)
    (hev : e.event = "action:intercepted" ∨ e.event = "action:resolved") :
    (∃ a, e.event = "action:intercepted" ∧ e.data = .action a ∧ ScopedTo e a.userId ∧
      (∀ env body, op = .create env body → a = (postAction st env body).1) ∧
      (∀ env data, op = .intercept env data → a.userId = none)) ∨
    (∃ a id status log auto, e.event = "action:resolved" ∧
      e.data = .resolved id status log auto ∧ Op.target st op = some a ∧
      log.userId = orNull a.userId ∧ ScopedTo e a.userId) := by
  cases op with
  | create env body =>
    left
    have hL := newEmissions_of_eq st (.create env body) _ (postAction_emitted st env body)
    rw [hL] at he
    simp only [List.mem_singleton] at he
    subst he
    refine ⟨_, rfl, rfl, scopedTo_orNull _ _ _, ?_, ?_⟩
    · intro env' body' h
      cases h
      rfl
    · intro env' data' h
      cases h
  | intercept env data =>
    left
    obtain ⟨a, ha, hem⟩ := socketIntercept_emitted st env data
    have hL := newEmissions_of_eq st (.intercept env data) _ hem
    rw [hL] at he
    simp only [List.mem_singleton] at he
    subst he
    refine ⟨a, rfl, rfl, scopedTo_orNull _ _ _, ?_, fun _ _ _ => ha⟩
    intro env' body' h
    cases h
  | undo env id =>
    right
    rcases (resolve_emitted st env id).1 with h | ⟨a, log, hget, hlog, hem⟩
    · have hL := newEmissions_of_eq st (.undo env id) [] (by simpa [step] using h)
      rw [hL] at he
      cases he
    · have hL := newEmissions_of_eq st (.undo env id) _ hem
      rw [hL] at he
      simp only [List.mem_singleton] at he
      subst he
      exact ⟨a, id, _, log, _, rfl, rfl, hget, hlog, scopedTo_orNull _ _ _⟩
  | wsUndo env id =>
    right
    rcases (resolve_emitted st env id).1 with h | ⟨a, log, hget, hlog, hem⟩
    · have hL := newEmissions_of_eq st (.wsUndo env id) []
        (by simpa [step, socketUndo_eq] using h)
      rw [hL] at he
      cases he
    · have hL := newEmissions_of_eq st (.wsUndo env id) _
        (by simpa [step, socketUndo_eq] using hem)
      rw [hL] at he
      simp only [List.mem_singleton] at he
      subst he
      exact ⟨a, id, _, log, _, rfl, rfl, hget, hlog, scopedTo_orNull _ _ _⟩
  | commit env id =>
    right
    rcases (resolve_emitted st env id).2 false with h | ⟨a, log, hget, hlog, hem⟩
    · have hL := newEmissions_of_eq st (.commit env id) []
        (by simpa [step, postActionCommit] using h)
      rw [hL] at he
      cases he
    · have hL := newEmissions_of_eq st (.commit env id) _ hem
      rw [hL] at he
      simp only [List.mem_singleton] at he
      subst he
      exact ⟨a, id, _, log, _, rfl, rfl, hget, hlog, scopedTo_orNull _ _ _⟩
  | wsCommit env id =>
    right
    rcases (resolve_emitted st env id).2 false with h | ⟨a, log, hget, hlog, hem⟩
    · have hL := newEmissions_of_eq st (.wsCommit env id) []
        (by simpa [step, socketCommit] using h)
      rw [hL] at he
      cases he
    · have hL := newEmissions_of_eq st (.wsCommit env id) _ hem
      rw [hL] at he
      simp only [List.mem_singleton] at he
      subst he
      exact ⟨a, id, _, log, _, rfl, rfl, hget, hlog, scopedTo_orNull _ _ _⟩
  | fire env handle =>
    right
    cases ht : st.timeouts.find? (fun t => decide (t.handle = handle)) with
    | none =>
      have hL := newEmissions_of_eq st (.fire env handle) []
        (by simp [step, timerFire, ht])
      rw [hL] at he
      cases he
    | some t =>
      have hstep : step st (.fire env handle) =
          (commitAction
            { st with timeouts := st.timeouts.filter (fun t => decide (t.handle ≠ handle)) }
            env t.actionId true).2 := by
        simp only [step, timerFire, ht]
      rcases (resolve_emitted
          { st with timeouts := st.timeouts.filter (fun t => decide (t.handle ≠ handle)) }
          env t.actionId).2 true with h | ⟨a, log, hget, hlog, hem⟩
      · have hL := newEmissions_of_eq st (.fire env handle) []
          (by rw [hstep, h]; simp)
        rw [hL] at he
        cases he
      · have hL := newEmissions_of_eq st (.fire env handle) _ (by rw [hstep, hem])
        rw [hL] at he
        simp only [List.mem_singleton] at he
        subst he
        refine ⟨a, t.actionId, _, log, _, rfl, rfl, ?_, hlog, scopedTo_orNull _ _ _⟩
        simp only [Op.target, ht]
        exact (getPendingAction_congr st _ env t.actionId rfl rfl rfl).symm.trans hget
  | settings g u =>
    have hL := newEmissions_of_eq st (.settings g u) [] (by
      simp only [step, postSettings, List.append_nil]
      split
      · split <;> rfl
      · rfl)
    rw [hL] at he
    cases he
  | clear fail =>
    have hL := newEmissions_of_eq st (.clear fail)
      [{ room := none, event := "logs:cleared", data := .empty }] (by
      simp only [step, deleteLogs]
      congr 1
      unfold clearLogs
      split_ifs <;> rfl)
    rw [hL] at he
    simp only [List.mem_singleton] at he
    subst he
    rcases hev with h | h <;> exact absurd h (by decide)

/-- The undo of the sample action, which was created over `POST /api/action`
by owner `u1`, emits one event, which reaches the session of `u1` and neither
the session of `u2` nor the one with no owner. -/
theorem events_follow_stored_owner_sample :
    newEmissions sampleCreated (.undo (sampleEnv 1 "") "3F2A9C1E") = [sampleResolvedEvent] ∧
    sampleSessions.map (delivered sampleResolvedEvent) = [true, false, false] ∧
    ∃ a, Op.target sampleCreated (.undo (sampleEnv 1 "") "3F2A9C1E") = some a ∧
      a.userId = some "u1" ∧ ScopedTo sampleResolvedEvent a.userId := by
  refine ⟨by decide, by decide, ?_⟩
  rcases events_follow_stored_owner sampleCreated (.undo (sampleEnv 1 "") "3F2A9C1E")
      sampleResolvedEvent (by decide) (Or.inr rfl) with
    ⟨_, h, _⟩ | ⟨a, _, _, _, _, _, _, ht, _, hs⟩
  · exact absurd h (by decide)
  · refine ⟨a, ht, ?_, hs⟩
    have h2 : Op.target sampleCreated (.undo (sampleEnv 1 "") "3F2A9C1E") =
        some { sampleBuilt with status := some "PENDING" } := by decide
    rw [h2] at ht
    cases ht
    rfl

/-- C22, evaluated. Owner `u1` creates an action over the socket, with the
event `intercept` carrying `userId: 'u1'`, and undoes it over the socket. The
handler reads neither the `userId` of the event data nor that of the sending
socket, so the stored action has no owner id and both the `action:intercepted`
and the `action:resolved` event are sent with `io.emit`: the session of owner
`u2` receives them, as does the session with no owner. The same request over
`POST /api/action` is sent to the room of `u1` only. -/
theorem intercept_event_reaches_other_owners :
    ((run (State.init false)
        [.intercept (sampleEnv 0 "3f2a9c1e-77aa") (sampleRequest .undefined (some "u1")),
         .wsUndo (sampleEnv 1 "") "3F2A9C1E"]).emitted.map
      (fun e => (e.room, e.event, sampleSessions.map (delivered e)))) =
    [(none, "action:intercepted", [true, true, true]),
     (none, "action:resolved", [true, true, true])] ∧
    delivered
      { room := none, event := "action:intercepted",
        data := .action { sampleBuilt with userId := none } }
      { id := "s2", userId := some "u2" } = true ∧
    getPendingAction
      (socketIntercept (State.init false) (sampleEnv 0 "3f2a9c1e-77aa")
        (sampleRequest .undefined (some "u1")))
      (sampleEnv 1 "") "3F2A9C1E"
      = some { sampleBuilt with userId := none, status := some "PENDING" } ∧
    ((run (State.init false)
        [.create (sampleEnv 0 "3f2a9c1e-77aa") (sampleRequest .undefined (some "u1")),
         .undo (sampleEnv 1 "") "3F2A9C1E"]).emitted.map
      (fun e => (e.room, e.event, sampleSessions.map (delivered e)))) =
    [(some "u1", "action:intercepted", [true, false, false]),
     (some "u1", "action:resolved", [true, false, false])] := by
  refine ⟨?_, ?_, ?_, ?_⟩ <;> decide

/-! ## The timer table and the pending set -/

theorem mapHas_mapSet {κ : Type} [DecidableEq κ] {α : Type} (m : List (κ × α)) (k j : κ)
    (v : α) : mapHas (mapSet m k v) j = (decide (k = j) || mapHas m j) := by
  unfold mapHas
  by_cases h : k = j
  · subst h
    simp [mapGet_mapSet_self]
  · simp [mapGet_mapSet_other _ _ _ _ h, h]

theorem mapHas_mapDelete {κ : Type} [DecidableEq κ] {α : Type} (m : List (κ × α)) (k j : κ) :
    mapHas (mapDelete m k) j = (!decide (k = j) && mapHas m j) := by
  unfold mapHas
  by_cases h : k = j
  · subst h
    simp [mapGet_mapDelete_self]
  · simp [mapGet_mapDelete_other _ _ _ h, h]

theorem clearActionTimer_has (st : State) (id j : String) :
    mapHas (clearActionTimer st id).actionTimers j =
      (!decide (id = j) && mapHas st.actionTimers j) := by
  unfold clearActionTimer
  cases hg : mapGet st.actionTimers id with
  | some h => simp only [mapHas_mapDelete]
  | none =>
    by_cases hj : id = j
    · subst hj
      simp [mapHas, hg]
    · simp [hj]

theorem clearActionTimer_memoryPending (st : State) (id : String) :
    (clearActionTimer st id).memoryPendingActions = st.memoryPendingActions := by
  unfold clearActionTimer; split <;> rfl

theorem addLog_actionTimers (st : State) (env : Env) (l : LogEntry) :
    (addLog st env l).2.actionTimers = st.actionTimers := by
  unfold addLog; simp only; split_ifs <;> rfl

theorem removePendingAction_actionTimers (st : State) (env : Env) (id : String) :
    (removePendingAction st env id).2.actionTimers = st.actionTimers := by
  unfold removePendingAction; split_ifs <;> rfl

theorem broadcastToUser_actionTimers (st : State) (u : Option String) (ev : String)
    (d : Payload) : (broadcastToUser st u ev d).actionTimers = st.actionTimers := by
  unfold broadcastToUser; split_ifs <;> rfl

theorem addLog_memoryPending (st : State) (env : Env) (l : LogEntry) :
    (addLog st env l).2.memoryPendingActions = st.memoryPendingActions := by
  unfold addLog; simp only; split_ifs <;> rfl

theorem removePendingAction_memory (st : State) (env : Env) (id : String)
    (hc : st.connected = false) :
    (removePendingAction st env id).2.memoryPendingActions =
      mapDelete st.memoryPendingActions id := by
  unfold removePendingAction; simp [hc]

theorem broadcastToUser_memoryPending (st : State) (u : Option String) (ev : String)
    (d : Payload) :
    (broadcastToUser st u ev d).memoryPendingActions = st.memoryPendingActions := by
  unfold broadcastToUser; split_ifs <;> rfl

/-- The tail of a resolve handler on the in-memory backend: log, remove,
broadcast. -/
theorem resolveTail_memory (st : State) (env : Env) (l : LogEntry) (id : String)
    (u : Option String) (ev : String) (d : Payload) (hc : st.connected = false) :
    (broadcastToUser (removePendingAction (addLog st env l).2 env id).2 u ev d).actionTimers
      = st.actionTimers ∧
    (broadcastToUser (removePendingAction (addLog st env l).2 env id).2 u ev d).memoryPendingActions
      = mapDelete st.memoryPendingActions id := by
  have h1 : (addLog st env l).2.connected = false := by rw [addLog_connected, hc]
  constructor
  · rw [broadcastToUser_actionTimers, removePendingAction_actionTimers, addLog_actionTimers]
  · rw [broadcastToUser_memoryPending, removePendingAction_memory _ _ _ h1,
      addLog_memoryPending]

theorem tracks_after_resolve (st st1 : State) (id : String) (h : TimersTrackPending st)
    (ht : ∀ j, mapHas st1.actionTimers j = (!decide (id = j) && mapHas st.actionTimers j))
    (hp : st1.memoryPendingActions = mapDelete st.memoryPendingActions id) :
    TimersTrackPending st1 := by
  intro j
  rw [ht, hp, mapHas_mapDelete, h j]

theorem postActionUndo_tracks (st : State) (env : Env) (id : String)
    (hc : st.connected = false) (h : TimersTrackPending st)
    (hok : (postActionUndo st env id).1.threw = false) :
    TimersTrackPending (postActionUndo st env id).2 := by
  rw [postActionUndo_eq] at hok ⊢
  cases hget : getPendingAction st env id with
  | none => exact h
  | some a =>
    rw [hget] at hok
    simp only at hok ⊢
    cases hcancel : cancelAction a with
    | none =>
      rw [hcancel] at hok
      simp [Resolution.threw] at hok
    | some r =>
      simp only
      have hc1 : (clearActionTimer st id).connected = false := by
        rw [clearActionTimer_connected, hc]
      obtain ⟨h1, h2⟩ := resolveTail_memory (clearActionTimer st id) env
        (logEntryOf a "REVERSED") id a.userId "action:resolved"
        (.resolved id "REVERSED" (addLog (clearActionTimer st id) env
          (logEntryOf a "REVERSED")).1 none) hc1
      refine tracks_after_resolve st _ id h ?_ ?_
      · intro j
        rw [h1, clearActionTimer_has]
      · rw [h2, clearActionTimer_memoryPending]

theorem commitAction_tracks (st : State) (env : Env) (id : String) (auto : Bool)
    (hc : st.connected = false) (h : TimersTrackPending st)
    (hok : (commitAction st env id auto).1.threw = false) :
    TimersTrackPending (commitAction st env id auto).2 := by
  rw [commitAction_eq] at hok ⊢
  cases hget : getPendingAction st env id with
  | none => exact h
  | some a =>
    rw [hget] at hok
    simp only at hok ⊢
    cases hexec : executeAction a with
    | none =>
      rw [hexec] at hok
      simp [Resolution.threw] at hok
    | some r =>
      simp only [commitActionResume_eq]
      have hc1 : (clearActionTimer st id).connected = false := by
        rw [clearActionTimer_connected, hc]
      obtain ⟨h1, h2⟩ := resolveTail_memory (clearActionTimer st id) env
        (logEntryOf a "COMMITTED") id a.userId "action:resolved"
        (.resolved id "COMMITTED" (addLog (clearActionTimer st id) env
          (logEntryOf a "COMMITTED")).1 (some auto)) hc1
      refine tracks_after_resolve st _ id h ?_ ?_
      · intro j
        rw [h1, clearActionTimer_has]
      · rw [h2, clearActionTimer_memoryPending]

theorem addPendingAction_memory (st : State) (env : Env) (a : PendingAction)
    (hc : st.connected = false) :
    (addPendingAction st env a).2.actionTimers = st.actionTimers ∧
    (addPendingAction st env a).2.memoryPendingActions =
      mapSet st.memoryPendingActions a.id
        { a with createdAt := env.storeNow, status := some "PENDING" } := by
  unfold addPendingAction
  simp [hc]

theorem create_tracks (st : State) (env : Env) (a : PendingAction) (u : Option String)
    (ev : String) (d : Payload) (hc : st.connected = false) (h : TimersTrackPending st) :
    TimersTrackPending (broadcastToUser (startTimer (addPendingAction st env a).2 a) u ev d) := by
  intro j
  obtain ⟨h1, h2⟩ := addPendingAction_memory st env a hc
  rw [broadcastToUser_actionTimers, broadcastToUser_memoryPending]
  show mapHas (mapSet (addPendingAction st env a).2.actionTimers a.id _) j =
    mapHas (addPendingAction st env a).2.memoryPendingActions j
  rw [h1, h2, mapHas_mapSet, mapHas_mapSet, h j]

theorem step_tracks (st : State) (op : Op) (hc : st.connected = false)
    (h : TimersTrackPending st) (hok : op.completes st = true) :
    TimersTrackPending (step st op) := by
  cases op with
  | create env body => exact create_tracks st env _ _ _ _ hc h
  | intercept env data => exact create_tracks st env _ _ _ _ hc h
  | undo env id =>
    exact postActionUndo_tracks st env id hc h (by simpa [Op.completes] using hok)
  | wsUndo env id =>
    simp only [step, socketUndo_eq]
    exact postActionUndo_tracks st env id hc h (by simpa [Op.completes] using hok)
  | commit env id =>
    exact commitAction_tracks st env id false hc h
      (by simpa [Op.completes, postActionCommit] using hok)
  | wsCommit env id =>
    exact commitAction_tracks st env id false hc h (by simpa [Op.completes] using hok)
  | fire env handle =>
    simp only [Op.completes, Bool.not_eq_true', timerFire] at hok
    simp only [step, timerFire]
    cases ht : st.timeouts.find? (fun t => decide (t.handle = handle)) with
    | none => exact h
    | some t =>
      rw [ht] at hok
      exact commitAction_tracks _ env t.actionId true hc h hok
  | settings g u =>
    intro j
    simp only [step, postSettings]
    split
    · split
      · exact h j
      · exact h j
    · exact h j
  | clear fail =>
    intro j
    have : (step st (.clear fail)).actionTimers = st.actionTimers ∧
        (step st (.clear fail)).memoryPendingActions = st.memoryPendingActions := by
      simp only [step, deleteLogs, clearLogs, hc]
      split_ifs <;> exact ⟨rfl, rfl⟩
    rw [this.1, this.2]
    exact h j

theorem run_tracks (ops : List Op) (st : State) (hc : st.connected = false)
    (h : TimersTrackPending st) (hok : runCompletes st ops = true) :
    TimersTrackPending (run st ops) := by
  induction ops generalizing st with
  | nil => exact h
  | cons op rest ih =>
    simp only [runCompletes, Bool.and_eq_true] at hok
    have : run st (op :: rest) = run (step st op) rest := rfl
    rw [this]
    exact ih (step st op) (by rw [step_connected, hc]) (step_tracks st op hc h hok.1) hok.2

/-- No timer entry survives a resolution, on either backend. -/
theorem resolved_has_no_timer (st : State) (env : Env) (id : String) :
    ((postActionUndo st env id).1 ≠ .notFound →
      mapGet (postActionUndo st env id).2.actionTimers id = none) ∧
    (∀ auto, (commitAction st env id auto).1 ≠ .notFound →
      mapGet (commitAction st env id auto).2.actionTimers id = none) := by
  have key : ∀ (st1 : State) (l : LogEntry) (u : Option String) (ev : String) (d : Payload),
      (broadcastToUser (removePendingAction (addLog st1 env l).2 env id).2 u ev d).actionTimers
        = st1.actionTimers := by
    intro st1 l u ev d
    rw [broadcastToUser_actionTimers, removePendingAction_actionTimers, addLog_actionTimers]
  have hclear : mapGet (clearActionTimer st id).actionTimers id = none := by
    have := clearActionTimer_has st id id
    simpa [mapHas] using this
  constructor
  · intro hne
    rw [postActionUndo_eq] at hne ⊢
    cases hget : getPendingAction st env id with
    | none => rw [hget] at hne; exact absurd rfl hne
    | some a =>
      simp only
      cases hcancel : cancelAction a with
      | none => exact hclear
      | some r =>
        simp only
        rw [key]
        exact hclear
  · intro auto hne
    rw [commitAction_eq] at hne ⊢
    cases hget : getPendingAction st env id with
    | none => rw [hget] at hne; exact absurd rfl hne
    | some a =>
      simp only
      cases hexec : executeAction a with
      | none => exact hclear
      | some r =>
        simp only [commitActionResume_eq]
        rw [key]
        exact hclear

/-- C29. Timer table tracks the pending set: on the in-memory backend, after
every sequence of operations that each run to their end (create, undo, commit
and timer callbacks over either transport, also settings updates and log
clearing), an id has an entry in `actionTimers` if and only if an action with
that id is in the pending map; and a resolve handler that found its action
leaves no timer entry for the id, on either backend. -/
theorem timer_table_tracks_pending_set (ops : List Op)
    (hok : runCompletes (State.init false) ops = true) :
    (∀ id, mapHas (run (State.init false) ops).actionTimers id = true ↔
      mapHas (run (State.init false) ops).memoryPendingActions id = true) ∧
    (∀ st env id, ((postActionUndo st env id).1 ≠ .notFound →
        mapGet (postActionUndo st env id).2.actionTimers id = none) ∧
      (∀ auto, (commitAction st env id auto).1 ≠ .notFound →
        mapGet (commitAction st env id auto).2.actionTimers id = none)) := by
  refine ⟨?_, resolved_has_no_timer⟩
  intro id
  have h := run_tracks ops (State.init false) rfl (fun _ => rfl) hok id
  rw [h]

/-- Witness for C29: two owners, one undo and one commit, then a third action
left pending. -/
theorem timer_table_tracks_pending_set_witness :
    runCompletes (State.init false)
      (sampleTwoOwnersOps ++
        [.create (sampleEnv 4 "3f2a9c1e-77aa") (sampleRequest .undefined (some "u1"))]) = true ∧
    (run (State.init false)
      (sampleTwoOwnersOps ++
        [.create (sampleEnv 4 "3f2a9c1e-77aa") (sampleRequest .undefined (some "u1"))])
      ).actionTimers = [("3F2A9C1E", 2)] ∧
    (mapHas (run (State.init false)
      (sampleTwoOwnersOps ++
        [.create (sampleEnv 4 "3f2a9c1e-77aa") (sampleRequest .undefined (some "u1"))])
      ).actionTimers "3F2A9C1E" = true ↔
     mapHas (run (State.init false)
      (sampleTwoOwnersOps ++
        [.create (sampleEnv 4 "3f2a9c1e-77aa") (sampleRequest .undefined (some "u1"))])
      ).memoryPendingActions "3F2A9C1E" = true) :=
  ⟨by decide, by decide,
    (timer_table_tracks_pending_set _ (by decide)).1 "3F2A9C1E"⟩

/-- The run C29 leaves out: the undo of an action of an inherited type throws
after it has cleared the timer, and the action stays pending with no timer
entry. -/
theorem thrown_undo_leaves_pending_without_timer :
    cancelAction { sampleAction with type := "constructor" } = none ∧
    runCompletes (State.init false)
      [.create (sampleEnv 0 "3f2a9c1e-77aa") inheritedRequest,
       .undo (sampleEnv 1 "") "3F2A9C1E"] = false ∧
    mapHas (run (State.init false)
      [.create (sampleEnv 0 "3f2a9c1e-77aa") inheritedRequest,
       .undo (sampleEnv 1 "") "3F2A9C1E"]).actionTimers "3F2A9C1E" = false ∧
    mapHas (run (State.init false)
      [.create (sampleEnv 0 "3f2a9c1e-77aa") inheritedRequest,
       .undo (sampleEnv 1 "") "3F2A9C1E"]).memoryPendingActions "3F2A9C1E" = true := by
  refine ⟨?_, ?_, ?_, ?_⟩ <;> decide

/-! ## Statuses in the log and the statistics -/

theorem logStatusOk_of_eq (st st0 : State) (h : LogStatusOk st)
    (hm : st0.memoryActivityLogs = st.memoryActivityLogs) (hf : st0.fsLogs = st.fsLogs) :
    LogStatusOk st0 := by
  unfold LogStatusOk
  rw [hm, hf]
  exact h

theorem addLog_statusOk (st : State) (env : Env) (l : LogEntry) (h : LogStatusOk st)
    (hl : l.status = "REVERSED" ∨ l.status = "COMMITTED") :
    LogStatusOk (addLog st env l).2 := by
  unfold addLog
  simp only
  split_ifs
  · refine ⟨?_, h.2⟩
    intro x hx
    have hx' : x ∈ { l with timestamp := env.timestamp } :: st.memoryActivityLogs := by
      unfold unshiftCapped at hx
      split_ifs at hx
      · exact List.dropLast_subset _ hx
      · exact hx
    rcases List.mem_cons.mp hx' with rfl | hx''
    · exact hl
    · exact h.1 x hx''
  · refine ⟨h.1, ?_⟩
    intro d hd
    rcases mem_mapSet _ _ _ _ hd with hd' | rfl
    · exact h.2 d hd'
    · exact hl
  · refine ⟨?_, h.2⟩
    intro x hx
    rcases List.mem_cons.mp hx with rfl | hx''
    · exact hl
    · exact h.1 x hx''

theorem clearLogs_statusOk (st : State) (fail : Bool) (u : Option String)
    (h : LogStatusOk st) : LogStatusOk (clearLogs st fail u) := by
  unfold clearLogs
  split_ifs
  · refine ⟨?_, h.2⟩
    intro x hx
    simp only [spliceOwned_eq_filter] at hx
    exact h.1 x (List.mem_filter.mp hx).1
  · exact ⟨fun x hx => (by cases hx), h.2⟩
  · cases u with
    | none => exact h
    | some v =>
      simp only
      split_ifs
      · exact ⟨h.1, fun d hd => h.2 d (List.mem_filter.mp hd).1⟩
      · exact h
  · exact h

theorem resolveTail_statusOk (st : State) (env : Env) (a : PendingAction) (id status : String)
    (u : Option String) (ev : String) (d : Payload) (h : LogStatusOk st)
    (hs : status = "REVERSED" ∨ status = "COMMITTED") :
    LogStatusOk
      (broadcastToUser (removePendingAction (addLog st env (logEntryOf a status)).2 env id).2
        u ev d) :=
  logStatusOk_of_eq _ _ (addLog_statusOk st env (logEntryOf a status) h hs)
    ((broadcastToUser_logs _ _ _ _).1.trans (removePendingAction_logs _ _ _).1)
    ((broadcastToUser_logs _ _ _ _).2.trans (removePendingAction_logs _ _ _).2)

theorem postActionUndo_statusOk (st : State) (env : Env) (id : String) (h : LogStatusOk st) :
    LogStatusOk (postActionUndo st env id).2 := by
  have hclear : LogStatusOk (clearActionTimer st id) :=
    logStatusOk_of_eq _ _ h (clearActionTimer_logs st id).1 (clearActionTimer_logs st id).2
  rw [postActionUndo_eq]
  split
  · exact h
  · split
    · exact hclear
    · exact resolveTail_statusOk _ env _ id "REVERSED" _ _ _ hclear (Or.inl rfl)

theorem commitAction_statusOk (st : State) (env : Env) (id : String) (auto : Bool)
    (h : LogStatusOk st) : LogStatusOk (commitAction st env id auto).2 := by
  have hclear : LogStatusOk (clearActionTimer st id) :=
    logStatusOk_of_eq _ _ h (clearActionTimer_logs st id).1 (clearActionTimer_logs st id).2
  rw [commitAction_eq]
  split
  · exact h
  · split
    · exact hclear
    · rw [commitActionResume_eq]
      exact resolveTail_statusOk _ env _ id "COMMITTED" _ _ _ hclear (Or.inr rfl)

theorem socketIntercept_logs (st : State) (env : Env) (data : CreateRequest) :
    (socketIntercept st env data).memoryActivityLogs = st.memoryActivityLogs ∧
    (socketIntercept st env data).fsLogs = st.fsLogs := by
  have h : ∀ a, (addPendingAction st env a).2.memoryActivityLogs = st.memoryActivityLogs ∧
      (addPendingAction st env a).2.fsLogs = st.fsLogs := by
    intro a
    unfold addPendingAction
    split_ifs <;> exact ⟨rfl, rfl⟩
  unfold socketIntercept broadcastToUser
  simp only
  split_ifs <;> exact h _

theorem step_statusOk (st : State) (op : Op) (h : LogStatusOk st) :
    LogStatusOk (step st op) := by
  cases op with
  | create env body =>
    exact logStatusOk_of_eq _ _ h (postAction_logs st env body).1 (postAction_logs st env body).2
  | intercept env data =>
    exact logStatusOk_of_eq _ _ h (socketIntercept_logs st env data).1
      (socketIntercept_logs st env data).2
  | undo env id => exact postActionUndo_statusOk st env id h
  | wsUndo env id => rw [step, socketUndo_eq]; exact postActionUndo_statusOk st env id h
  | commit env id => exact commitAction_statusOk st env id false h
  | wsCommit env id => exact commitAction_statusOk st env id false h
  | fire env hd =>
    simp only [step, timerFire]
    split
    · exact h
    · exact commitAction_statusOk _ env _ true (logStatusOk_of_eq st _ h rfl rfl)
  | settings g u =>
    simp only [step, postSettings]
    cases u with
    | none => exact h
    | some u => simp only; split_ifs <;> exact h
  | clear fail =>
    exact logStatusOk_of_eq _ _ (clearLogs_statusOk st fail none h) rfl rfl

theorem reachable_statusOk (st : State) (h : Reachable st) : LogStatusOk st := by
  obtain ⟨c, ops, rfl⟩ := h
  have hrun : ∀ (ops : List Op) (s : State), LogStatusOk s → LogStatusOk (run s ops) := by
    intro ops
    induction ops with
    | nil => exact fun s hs => hs
    | cons op rest ih => exact fun s hs => ih (step s op) (step_statusOk s op hs)
  apply hrun
  simp [LogStatusOk, State.init]

/-- A list whose elements all have one of two distinct statuses splits into
the two filters. -/
theorem length_eq_filters {α : Type} (status : α → String) (L : List α)
    (h : ∀ x ∈ L, status x = "REVERSED" ∨ status x = "COMMITTED") :
    L.length = (L.filter (fun x => decide (status x = "REVERSED"))).length +
      (L.filter (fun x => decide (status x = "COMMITTED"))).length := by
  induction L with
  | nil => rfl
  | cons x rest ih =>
    have ih' := ih (fun y hy => h y (List.mem_cons_of_mem _ hy))
    rcases h x (List.mem_cons_self _ _) with hx | hx
    · have h2 : decide (("REVERSED" : String) = "COMMITTED") = false := by decide
      simp only [List.filter_cons, hx, h2, decide_True, if_true, List.length_cons,
        Bool.false_eq_true, if_false]
      omega
    · have h2 : decide (("COMMITTED" : String) = "REVERSED") = false := by decide
      simp only [List.filter_cons, hx, h2, decide_True, if_true, List.length_cons,
        Bool.false_eq_true, if_false]
      omega

/-- C30. Stats add up: in every state the server reaches by completed
operations, on either backend, every entry of the in-memory log (and every
log document) has the status `REVERSED` or `COMMITTED`, and so for every owner
id, also an absent one, `getStats` returns
`totalActions = mistakesPrevented + actionsCommitted`. -/
theorem stats_add_up (st : State) (env : Env) (userId : Option String) (h : Reachable st) :
    (∀ l ∈ st.memoryActivityLogs, l.status = "REVERSED" ∨ l.status = "COMMITTED") ∧
    (getStats st env userId).totalActions =
      (getStats st env userId).mistakesPrevented + (getStats st env userId).actionsCommitted := by
  have hok := reachable_statusOk st h
  refine ⟨hok.1, ?_⟩
  unfold getStats
  split_ifs
  · exact length_eq_filters LogEntry.status _ (fun x hx => hok.1 x (List.mem_filter.mp hx).1)
  · exact length_eq_filters LogEntry.status _ hok.1
  · cases userId with
    | none => rfl
    | some u =>
      simp only
      split_ifs
      · refine length_eq_filters (fun d : String × LogDoc => d.2.status) _ ?_
        intro x hx
        unfold userLogDocs at hx
        obtain ⟨d, hd, rfl⟩ := List.mem_map.mp hx
        exact hok.2 d (List.mem_filter.mp hd).1
      · rfl
  · rfl

/-- Witness for C30: after one undo and one commit by two owners. -/
theorem stats_add_up_witness :
    Reachable sampleTwoOwners ∧
    getStats sampleTwoOwners (sampleEnv 4 "") none =
      { totalActions := 2, mistakesPrevented := 1, actionsCommitted := 1, pendingCount := 0 } ∧
    (getStats sampleTwoOwners (sampleEnv 4 "") none).totalActions =
      (getStats sampleTwoOwners (sampleEnv 4 "") none).mistakesPrevented +
        (getStats sampleTwoOwners (sampleEnv 4 "") none).actionsCommitted :=
  ⟨⟨false, sampleTwoOwnersOps, rfl⟩, by decide,
    (stats_add_up sampleTwoOwners (sampleEnv 4 "") none ⟨false, sampleTwoOwnersOps, rfl⟩).2⟩

end InstantUndo
